import Mathlib

/-! # go-nonamelib: configuration registry and INI provider

A shallow embedding of `configuration/configuration.go`,
`configuration/configurationitem.go`, `configuration/interfaces.go` and
`configuration/providers/iniconfigprovider.go`, followed by theorems about it.

Conventions of the embedding

* A Go `string` is a `Str`, the list of its characters.  The source indexes
  strings by bytes, at positions it finds by looking for ASCII characters (`#`,
  `;`, `[`, `]`, `=`, `:`, the comment markers), so a prefix taken at a
  character index is the prefix the source takes at the corresponding byte
  index.  The one fixed index is `l[0:3]` in the test for `rem` lines, guarded
  by `len(l) >= 3`: three bytes fold to `rem` exactly when they are three ASCII
  letters, and then they are the first three characters.  The model tests the
  first three characters, which is the same test as long as the case table
  folds no rune above ASCII to `r`, `e` or `m`, as is so in the Unicode tables.
* A Go `map[string]V` is a `Map V`, an association list with at most one entry
  per key.  The order of the list is the order in which a `range` loop visits
  the map; Go leaves that order unspecified, so a statement that quantifies
  over every list covers every iteration order.
* Package level variables become explicit state that is passed and returned.
* `panic` is an explicit outcome.
* The backing file is its content, a `Str`; opening, creating and closing it
  are assumed to succeed, and the absent file is the empty content.
* `unicode.IsSpace` is modelled in full.  `strings.ToLower` maps
  `unicode.ToLower` over the runes of the string; `unicode.ToLower` is written
  out in the Go library for the runes up to `unicode.MaxASCII` and reads the
  case table `unicode.CaseRanges` for the runes above.  That table is not part
  of the repository and grows with the versions of the library, so it is a
  parameter, the class `CaseTable`: every definition that folds case takes it,
  and a theorem with the binder `[CaseTable]` holds for every table.  The
  closed statements are evaluated with the table `latin1CaseTable`, which folds
  the capital letters of Latin-1 as all versions of the table do.
* Floating point values and `GetFloat64` of the INI provider are outside the
  model; the registry hands a `float64` through without looking at it, so there
  it is a type parameter.
-/

/-- Go strings, as lists of characters. -/
abbrev Str := List Char

/-- Go maps with string keys, as association lists; the list order is the
iteration order of `range`. -/
abbrev Map (V : Type) := List (Str × V)

/-- The map read `v, found := m[k]`. -/
def mget {V : Type} (m : Map V) (k : Str) : Option V :=
  match m with
  | [] => none
  | (k', v) :: rest => if k' = k then some v else mget rest k

/-- The map write `m[k] = v`: an existing entry is replaced where it stands, a
new key is added at the end. -/
def mset {V : Type} (m : Map V) (k : Str) (v : V) : Map V :=
  match m with
  | [] => [(k, v)]
  | (k', v') :: rest => if k' = k then (k, v) :: rest else (k', v') :: mset rest k v

/-- The keys of a map, in iteration order. -/
def mkeys {V : Type} (m : Map V) : List Str := m.map Prod.fst

/-- The outcome of a call that may panic. -/
inductive Outcome (α : Type) where
  | panic (msg : Str)
  | ret (a : α)
  deriving DecidableEq, Repr

/-- The dynamic values the model passes through `interface{}`: strings, ints
and bools (floating point values are left out of the model). -/
inductive Value where
  | str (s : Str)
  | int (i : Int)
  | bool (b : Bool)
  deriving DecidableEq, Repr

namespace configuration

/-- The struct `ConfigurationItem` of configurationitem.go. -/
structure ConfigurationItem where
  section_ : Str
  name : Str
  friendlyName : Str
  defaultValue : Value
  deriving DecidableEq, Repr

def NewConfigurationItem (_section _name _friendlyName : Str) (_defaultValue : Value) :
    ConfigurationItem :=
  { section_ := _section, name := _name, friendlyName := _friendlyName,
    defaultValue := _defaultValue }

def ConfigurationItem.GetSection (c : ConfigurationItem) : Str := c.section_

def ConfigurationItem.GetName (c : ConfigurationItem) : Str := c.name

def ConfigurationItem.GetFriendlyName (c : ConfigurationItem) : Str := c.friendlyName

def ConfigurationItem.GetDefaultValue (c : ConfigurationItem) : Value := c.defaultValue

/-- The type `ConfigurationItemCollection`: section name to item name to item. -/
abbrev ConfigurationItemCollection := Map (Map ConfigurationItem)

/-- The package variables `configItemCollection` and `configItems`. -/
structure Registry where
  configItemCollection : ConfigurationItemCollection
  configItems : Map ConfigurationItem
  deriving DecidableEq, Repr

/-- The state set up by `init()`: two empty maps. -/
def init : Registry := { configItemCollection := [], configItems := [] }

def GetConfigurationItemCollection (reg : Registry) : ConfigurationItemCollection :=
  reg.configItemCollection

/-- The text of `fmt.Sprintf("ConfigurationItem with key '%s' has already been added.\n", _key)`. -/
def keyAddedMessage (_key : Str) : Str :=
  "ConfigurationItem with key '".toList ++ _key ++ "' has already been added.\n".toList

/-- The text of
`fmt.Sprintf("ConfigurationItem '%s' in section '%s' already exists.\n", name, section)`. -/
def itemExistsMessage (name sect : Str) : Str :=
  "ConfigurationItem '".toList ++ name ++ "' in section '".toList ++ sect
    ++ "' already exists.\n".toList

/-- The function `addConfigurationItem`.  The key is looked up in `configItems`
and the item stored there; then the section map is fetched or created, and the
section map is probed at `_key` (as the source does) before the item is stored
under its name. -/
def addConfigurationItem (reg : Registry) (_key : Str) (_item : ConfigurationItem) :
    Registry × Bool × Str :=
  match mget reg.configItems _key with
  | some _ => (reg, false, keyAddedMessage _key)
  | none =>
    let configItems := mset reg.configItems _key _item
    let (sectionMap, collection) :=
      match mget reg.configItemCollection _item.GetSection with
      | some m => (m, reg.configItemCollection)
      | none => (([] : Map ConfigurationItem),
                 mset reg.configItemCollection _item.GetSection [])
    match mget sectionMap _key with
    | some _ =>
      ({ configItemCollection := collection, configItems := configItems }, false,
        itemExistsMessage _item.GetName _item.GetSection)
    | none =>
      ({ configItemCollection :=
           mset collection _item.GetSection (mset sectionMap _item.GetName _item),
         configItems := configItems }, true, [])

/-- One turn of the loop of `AddConfigurationItems`: the registry and the error
buffer after trying to add one pair. -/
def addStep (acc : Registry × Str) (entry : Str × ConfigurationItem) : Registry × Str :=
  match addConfigurationItem acc.1 entry.1 entry.2 with
  | (reg, true, _) => (reg, acc.2)
  | (reg, false, str) => (reg, acc.2 ++ str)

/-- The function `AddConfigurationItems`.  The container is given by the pairs
of its map in the order the `range` loop visits them.  The result is `none` for
`nil` and `some format` for the error `fmt.Errorf(format)`: the collected
buffer is the format string of the returned error, and the expansion of a `%`
in it by `fmt` is not modelled. -/
def AddConfigurationItems (reg : Registry) (_container : List (Str × ConfigurationItem)) :
    Registry × Option Str :=
  let r := _container.foldl addStep (reg, [])
  (r.1, if r.2.length > 0 then some r.2 else none)

/-- The text of `fmt.Errorf("Unable to find ConfigurationItem with key '%s'\n", _key)`. -/
def keyNotFoundMessage (_key : Str) : Str :=
  "Unable to find ConfigurationItem with key '".toList ++ _key ++ "'\n".toList

/-- The function `getConfigurationItemByKey`. -/
def getConfigurationItemByKey (reg : Registry) (_key : Str) : Except Str ConfigurationItem :=
  match mget reg.configItems _key with
  | none => .error (keyNotFoundMessage _key)
  | some item => .ok item

/-- The interface `IConfigurationProvider`, as a table of methods over the
provider state `σ`.  Every method returns the provider state after the call,
so that a call is visible in the state; `ε` is the provider's error type and
`φ` stands for `float64`. -/
structure IConfigurationProvider (σ ε φ : Type) where
  Initialize : σ → ConfigurationItemCollection → Outcome σ
  SetValue : σ → ConfigurationItem → Value → σ
  GetString : σ → ConfigurationItem → (Str × Option ε) × σ
  GetInt : σ → ConfigurationItem → (Int × Option ε) × σ
  GetFloat64 : σ → ConfigurationItem → (φ × Option ε) × σ
  GetBool : σ → ConfigurationItem → (Bool × Option ε) × σ

/-- The errors the registry returns: its own formatted message, or the error
of the provider handed on. -/
inductive Error (ε : Type) where
  | message (text : Str)
  | provider (e : ε)
  deriving DecidableEq, Repr

/-- The panic text of `setupCheck`. -/
def noProviderMessage : Str :=
  "Configuration - No configuration provider defined. Use SetConfigurationProvider to set one.".toList

/-- The function `SetConfigurationProvider` on the variable `configProvider`
(`none` is `nil`). -/
def SetConfigurationProvider {σ : Type} (configProvider : Option σ) (_provider : σ) :
    Outcome (Option σ) :=
  match configProvider with
  | some _ => .panic "Configuration - ConfigurationProvider has already been set".toList
  | none => .ret (some _provider)

/-- The function `Initialize` of the registry. -/
def Initialize {σ ε φ : Type} (P : IConfigurationProvider σ ε φ) (configProvider : Option σ)
    (reg : Registry) : Outcome σ :=
  match configProvider with
  | none => .panic noProviderMessage
  | some p => P.Initialize p (GetConfigurationItemCollection reg)

/-- The function `SetValue` of the registry: the returned error and the
provider state after the call. -/
def SetValue {σ ε φ : Type} (P : IConfigurationProvider σ ε φ) (configProvider : Option σ)
    (reg : Registry) (_key : Str) (_value : Value) : Outcome (Option (Error ε) × σ) :=
  match configProvider with
  | none => .panic noProviderMessage
  | some p =>
    match getConfigurationItemByKey reg _key with
    | .error err => .ret (some (.message err), p)
    | .ok configItem => .ret (none, P.SetValue p configItem _value)

/-- The shape shared by the four getters of the registry: `zero` is the zero
value returned next to a lookup error, `get` the provider method called. -/
def getWith {σ ε α : Type} (zero : α) (get : σ → ConfigurationItem → (α × Option ε) × σ)
    (configProvider : Option σ) (reg : Registry) (_key : Str) :
    Outcome ((α × Option (Error ε)) × σ) :=
  match configProvider with
  | none => .panic noProviderMessage
  | some p =>
    match getConfigurationItemByKey reg _key with
    | .error err => .ret ((zero, some (.message err)), p)
    | .ok configItem =>
      let r := get p configItem
      .ret ((r.1.1, r.1.2.map Error.provider), r.2)

/-- The function `GetString` of the registry. -/
def GetString {σ ε φ : Type} (P : IConfigurationProvider σ ε φ) (configProvider : Option σ)
    (reg : Registry) (_key : Str) : Outcome ((Str × Option (Error ε)) × σ) :=
  getWith [] P.GetString configProvider reg _key

/-- The function `GetInt` of the registry. -/
def GetInt {σ ε φ : Type} (P : IConfigurationProvider σ ε φ) (configProvider : Option σ)
    (reg : Registry) (_key : Str) : Outcome ((Int × Option (Error ε)) × σ) :=
  getWith 0 P.GetInt configProvider reg _key

/-- The function `GetFloat64` of the registry; `zero` is the float `0`. -/
def GetFloat64 {σ ε φ : Type} (P : IConfigurationProvider σ ε φ) (zero : φ)
    (configProvider : Option σ) (reg : Registry) (_key : Str) :
    Outcome ((φ × Option (Error ε)) × σ) :=
  getWith zero P.GetFloat64 configProvider reg _key

/-- The function `GetBool` of the registry. -/
def GetBool {σ ε φ : Type} (P : IConfigurationProvider σ ε φ) (configProvider : Option σ)
    (reg : Registry) (_key : Str) : Outcome ((Bool × Option (Error ε)) × σ) :=
  getWith false P.GetBool configProvider reg _key

end configuration

namespace providers

open configuration

/-! ## The parts of the Go standard library the provider calls -/

/-- The predicate `unicode.IsSpace`, which `strings.TrimSpace` trims by. -/
def isSpace (c : Char) : Bool :=
  let n := c.toNat
  n == 0x09 || n == 0x0A || n == 0x0B || n == 0x0C || n == 0x0D || n == 0x20
    || n == 0x85 || n == 0xA0 || n == 0x1680 || (0x2000 ≤ n && n ≤ 0x200A)
    || n == 0x2028 || n == 0x2029 || n == 0x202F || n == 0x205F || n == 0x3000

/-- The function `strings.TrimSpace`. -/
def TrimSpace (s : Str) : Str :=
  ((s.dropWhile isSpace).reverse.dropWhile isSpace).reverse

/-- The case table of the Go library for the runes above `unicode.MaxASCII`:
`lower r` is `unicode.To(unicode.LowerCase, r)`, the lookup of `r` in
`unicode.CaseRanges`.  The table is not part of the repository, so it is a
parameter of everything that folds case. -/
class CaseTable where
  lower : Char → Char

/-- The function `unicode.ToLower`: up to `unicode.MaxASCII` the letters `A` to
`Z` are shifted to `a` to `z` and every other rune is kept (`Char.toLower`),
above it the rune is looked up in the case table. -/
def toLowerRune [CaseTable] (r : Char) : Char :=
  if r.toNat ≤ 0x7F then r.toLower else CaseTable.lower r

/-- The function `strings.ToLower`: `unicode.ToLower` mapped over the runes. -/
def ToLower [CaseTable] (s : Str) : Str := s.map toLowerRune

/-- The function `strings.Index`: the first position at which `sub` starts
in `s`, `none` for `-1`. -/
def Index (s sub : Str) : Option Nat :=
  match s with
  | [] => if sub = [] then some 0 else none
  | c :: cs => if sub <+: c :: cs then some 0 else (Index cs sub).map (· + 1)

/-- The function `strings.IndexAny`: the first position of `s` holding one of
`chars`, `none` for `-1`. -/
def IndexAny (s chars : Str) : Option Nat :=
  match s with
  | [] => none
  | c :: cs => if c ∈ chars then some 0 else (IndexAny cs chars).map (· + 1)

/-- The decimal text of an integer, as `%v` prints an `int`. -/
def formatInt (i : Int) : Str :=
  match i with
  | .ofNat n => Nat.toDigits 10 n
  | .negSucc n => '-' :: Nat.toDigits 10 (n + 1)

/-- The text of `fmt.Sprintf("%v", v)`. -/
def formatValue (v : Value) : Str :=
  match v with
  | .str s => s
  | .int i => formatInt i
  | .bool true => "true".toList
  | .bool false => "false".toList

/-- How the digit loop of `strconv.ParseUint` ends. -/
inductive Parsed where
  | value (n : Nat)
  | syntaxError
  | rangeError
  deriving DecidableEq, Repr

/-- The loop of `strconv.ParseUint(s, 10, 64)` over the characters left, with
the value `n` read so far.  The loop returns at the first character that is no
decimal digit (a syntax error) and at the first digit that takes the value past
`2^64 - 1` (a range error), whichever comes first; what follows is not looked
at. -/
def parseUintLoop (n : Nat) (s : Str) : Parsed :=
  match s with
  | [] => .value n
  | c :: cs =>
    if '0' ≤ c ∧ c ≤ '9' then
      if n ≥ (2 ^ 64 - 1) / 10 + 1 then .rangeError
      else if 10 * n + (c.toNat - 48) > 2 ^ 64 - 1 then .rangeError
      else parseUintLoop (10 * n + (c.toNat - 48)) cs
    else .syntaxError

/-- The function `strconv.Atoi` for a 64 bit `int` (`strconv.ParseInt(s, 10, 0)`):
the value and whether the parse succeeded.  After an optional sign the digits
go through the loop of `ParseUint`; a syntax error gives `0`, a range error of
the loop or a value outside the `int` range gives the nearest bound. -/
def Atoi (s : Str) : Int × Bool :=
  let neg := s.head? = some '-'
  let digits := if s.head? = some '+' ∨ s.head? = some '-' then s.drop 1 else s
  if digits = [] then (0, false)
  else
    match parseUintLoop 0 digits with
    | .syntaxError => (0, false)
    | .rangeError => if neg then (-(2 ^ 63 : Int), false) else ((2 ^ 63 - 1 : Int), false)
    | .value n =>
      if neg then
        if n ≤ 2 ^ 63 then (-(n : Int), true) else (-(2 ^ 63 : Int), false)
      else
        if n < 2 ^ 63 then ((n : Int), true) else ((2 ^ 63 - 1 : Int), false)

/-! ## iniconfigprovider.go -/

/-- The error reasons, in the order of the `iota` block. -/
inductive Reason where
  | SectionNotFound
  | OptionNotFound
  | MaxDepthReached
  | BlankSection
  | CouldNotParse
  deriving DecidableEq, Repr

/-- The variable `DefaultSection`. -/
def DefaultSection : Str := "default".toList

/-- The variable `BoolStrings`. -/
def BoolStrings : Map Bool :=
  [("t".toList, true), ("true".toList, true), ("y".toList, true), ("yes".toList, true),
   ("on".toList, true), ("1".toList, true), ("f".toList, false), ("false".toList, false),
   ("n".toList, false), ("no".toList, false), ("off".toList, false), ("0".toList, false)]

/-- The struct `GetError`. -/
structure GetError where
  Reason : Reason
  ValueType : Str
  Value : Str
  Section : Str
  Option : Str
  deriving DecidableEq, Repr

/-- The struct `ReadError`. -/
structure ReadError where
  Reason : Reason
  Line : Str
  deriving DecidableEq, Repr

/-- The method `ReadError.Error`. -/
def ReadError.Error (err : ReadError) : Str :=
  match err.Reason with
  | .BlankSection => "empty section name not allowed".toList
  | .CouldNotParse => "could not parse line: ".toList ++ err.Line
  | _ => "invalid read error".toList

/-- The struct `IniConfigProvider`. -/
structure IniConfigProvider where
  iniPath : Str
  data : Map (Map Str)
  deriving DecidableEq, Repr

def NewIniConfigProvider (_file : Str) : IniConfigProvider :=
  { iniPath := _file, data := [] }

/-- The function `stripComments`: one pass per marker, in the order of the
source, each pass cutting at the first occurrence of its marker. -/
def stripComments (l : Str) : Str :=
  [" ;".toList, "\t;".toList, " #".toList, "\t#".toList].foldl
    (fun l c => match Index l c with
      | some i => l.take i
      | none => l) l

/-- The method `addSection`. -/
def addSection [CaseTable] (p : IniConfigProvider) (sect : Str) : IniConfigProvider × Bool :=
  let sect := ToLower sect
  match mget p.data sect with
  | some _ => (p, false)
  | none => ({ p with data := mset p.data sect [] }, true)

/-- The read `_, ok := p.data[section][option]`; a missing section reads as the
nil map, which holds nothing. -/
def lookupOption (p : IniConfigProvider) (sect option : Str) : Option Str :=
  match mget p.data sect with
  | none => none
  | some m => mget m option

/-- The write `p.data[section][option] = value`.  Both callers make sure first
that the section exists; without it (a write to the nil map, a panic in Go)
the model leaves the data as it is. -/
def assignOption (p : IniConfigProvider) (sect option value : Str) : IniConfigProvider :=
  match mget p.data sect with
  | none => p
  | some m => { p with data := mset p.data sect (mset m option value) }

/-- The method `addOption`. -/
def addOption [CaseTable]
    (p : IniConfigProvider) (sect option value : Str) : IniConfigProvider × Bool :=
  let p := (addSection p sect).1
  let sect := ToLower sect
  let option := ToLower option
  let ok := (lookupOption p sect option).isSome
  (assignOption p sect option value, !ok)

/-- The method `getRawString`. -/
def getRawString [CaseTable] (p : IniConfigProvider) (sect option : Str) : Except GetError Str :=
  let sect := if sect = [] then "default".toList else sect
  let sect := ToLower sect
  let option := ToLower option
  match mget p.data sect with
  | some m =>
    match mget m option with
    | some value => .ok value
    | none => .error ⟨.OptionNotFound, [], [], sect, option⟩
  | none => .error ⟨.SectionNotFound, [], [], sect, option⟩

/-- The method `write`: the text that replaces the content of the backing file. -/
def write (p : IniConfigProvider) : Str :=
  (p.data.map (fun entry =>
    if entry.1 = DefaultSection ∧ entry.2.length = 0 then []
    else
      "[".toList ++ entry.1 ++ "]\n".toList
        ++ (entry.2.map (fun ov => ov.1 ++ "=".toList ++ ov.2 ++ "\n".toList)).flatten
        ++ "\n".toList)).flatten

/-- The loop variables of `read` next to the provider. -/
structure ReadState where
  p : IniConfigProvider
  sect : Str
  option : Str
  deriving DecidableEq, Repr

/-- The `switch` of `read` on one trimmed line `l`: the state after the line, or
the error the line makes `read` return. -/
def readLine [CaseTable] (st : ReadState) (l : Str) : Except ReadError ReadState :=
  if l.length = 0 then .ok st
  else if l.head? = some '#' then .ok st
  else if l.head? = some ';' then .ok st
  else if l.length ≥ 3 ∧ ToLower (l.take 3) = "rem".toList then .ok st
  else if l.head? = some '[' ∧ l.getLast? = some ']' then
    let sect := TrimSpace ((l.take (l.length - 1)).drop 1)
    .ok { p := (addSection st.p sect).1, sect := sect, option := [] }
  else if st.sect = [] then .error ⟨.BlankSection, l⟩
  else
    match IndexAny l "=:".toList with
    | some (i + 1) =>
      let option := TrimSpace (l.take (i + 1))
      let value := TrimSpace (stripComments (l.drop (i + 1 + 1)))
      .ok { st with p := (addOption st.p st.sect option value).1, option := option }
    | _ =>
      if st.sect ≠ [] ∧ st.option ≠ [] then
        let prev := match getRawString st.p st.sect st.option with
          | .ok v => v
          | .error _ => []
        let value := TrimSpace (stripComments l)
        .ok { st with p := (addOption st.p st.sect st.option (prev ++ "\n".toList ++ value)).1 }
      else .error ⟨.CouldNotParse, l⟩

/-- The successive results of `buf.ReadString('\n')` without their delimiter:
the pieces of the text between line feeds; the last piece is the one returned
together with `io.EOF`. -/
def readStrings (text : Str) : List Str :=
  match text with
  | [] => [[]]
  | c :: cs =>
    if c = '\n' then [] :: readStrings cs
    else
      match readStrings cs with
      | [] => [[c]]
      | piece :: rest => (c :: piece) :: rest

/-- The loop of `read` over the results of `ReadString`.  A piece that came
with its delimiter is trimmed and handled, and the loop goes on; the piece that
came with `io.EOF` ends the loop, before the `switch` when it trims to the
empty string and after it otherwise. -/
def readLoop [CaseTable] (st : ReadState) (pieces : List Str) : ReadState × Option ReadError :=
  match pieces with
  | [] => (st, none)
  | [last] =>
    let l := TrimSpace last
    if l.length = 0 then (st, none)
    else
      match readLine st l with
      | .error e => (st, some e)
      | .ok st' => (st', none)
  | piece :: rest =>
    match readLine st (TrimSpace (piece ++ ['\n'])) with
    | .error e => (st, some e)
    | .ok st' => readLoop st' rest

/-- The method `read` on the content of the reader: the provider after the
call and the returned error.  The reader is the content of the file, so the
only error of `ReadString` is `io.EOF`. -/
def read [CaseTable] (p : IniConfigProvider) (text : Str) : IniConfigProvider × Option ReadError :=
  let r := readLoop { p := p, sect := "default".toList, option := [] } (readStrings text)
  (r.1.p, r.2)

/-- The inner loop of `Initialize` over the items of one section of the
registry: an item whose option is not found under the names as declared is
seeded with its formatted default. -/
def seedItems [CaseTable]
    (sect : Str) (acc : IniConfigProvider × Bool) (items : Map ConfigurationItem) :
    IniConfigProvider × Bool :=
  items.foldl (fun acc entry =>
    match lookupOption acc.1 sect entry.2.GetName with
    | some _ => acc
    | none =>
      ((addOption acc.1 sect entry.2.GetName (formatValue entry.2.GetDefaultValue)).1, true)) acc

/-- The outer loop of `Initialize` over the sections of the registry: the
provider and the flag `newItemsAdded`. -/
def seedSections [CaseTable]
    (acc : IniConfigProvider × Bool) (collection : ConfigurationItemCollection) :
    IniConfigProvider × Bool :=
  collection.foldl (fun acc entry =>
    seedItems entry.1 ((addSection acc.1 entry.1).1, acc.2) entry.2) acc

/-- What `Initialize` leaves behind: the provider, the content of the backing
file and the flag `newItemsAdded`. -/
structure Initialized where
  p : IniConfigProvider
  file : Str
  newItemsAdded : Bool
  deriving DecidableEq, Repr

/-- The method `Initialize`.  `file` is the content of the backing file (empty
when the file is created by the call), `collection` the result of
`configuration.GetConfigurationItemCollection()`. -/
def Initialize [CaseTable]
    (p : IniConfigProvider) (file : Str) (collection : ConfigurationItemCollection) :
    Outcome Initialized :=
  match read p file with
  | (_, some err) => .panic err.Error
  | (p, none) =>
    let r := seedSections (p, false) collection
    .ret { p := r.1, file := if r.2 then write r.1 else file, newItemsAdded := r.2 }

/-- What `SetValue` leaves behind: the provider, the content of the backing
file, and the line printed to the console, if any. -/
structure Stored where
  p : IniConfigProvider
  file : Str
  printed : Option Str
  deriving DecidableEq, Repr

/-- The method `SetValue`. -/
def SetValue [CaseTable]
    (p : IniConfigProvider) (file : Str) (_item : ConfigurationItem) (_value : Value) :
    Stored :=
  let sect := _item.GetSection
  let option := _item.GetName
  let sect := if sect = [] then "default".toList else sect
  let sect := ToLower sect
  let option := ToLower option
  match mget p.data sect with
  | some _ =>
    let p := assignOption p sect option (formatValue _value)
    { p := p, file := write p, printed := none }
  | none => { p := p, file := file, printed := some "Section not found".toList }

/-- The method `GetString`. -/
def GetString [CaseTable]
    (p : IniConfigProvider) (_item : ConfigurationItem) : Str × Option GetError :=
  match getRawString p _item.GetSection _item.GetName with
  | .ok v => (v, none)
  | .error e => ([], some e)

/-- The method `GetInt`. -/
def GetInt [CaseTable]
    (p : IniConfigProvider) (_item : ConfigurationItem) : Int × Option GetError :=
  match getRawString p _item.GetSection _item.GetName with
  | .error e => (0, some e)
  | .ok sv =>
    match Atoi sv with
    | (value, true) => (value, none)
    | (value, false) =>
      (value, some ⟨.CouldNotParse, "int".toList, sv, _item.GetSection, _item.GetName⟩)

/-- The method `GetBool`. -/
def GetBool [CaseTable]
    (p : IniConfigProvider) (_item : ConfigurationItem) : Bool × Option GetError :=
  match getRawString p _item.GetSection _item.GetName with
  | .error e => (false, some e)
  | .ok sv =>
    match mget BoolStrings (ToLower sv) with
    | none =>
      (false, some ⟨.CouldNotParse, "bool".toList, sv, _item.GetSection, _item.GetName⟩)
    | some value => (value, none)

end providers

/-! ## Vocabulary of the statements -/

namespace providers

open configuration

/-- The trimmed lines that `read` skips: the blank line and the full-line
comments (the first four cases of its `switch`). -/
def skipped [CaseTable] (l : Str) : Bool :=
  l.length = 0 ∨ l.head? = some '#' ∨ l.head? = some ';'
    ∨ (l.length ≥ 3 ∧ ToLower (l.take 3) = "rem".toList)

/-- The trimmed lines that `read` takes for a section header (the fifth case
of its `switch`). -/
def header (l : Str) : Bool := l.head? = some '[' ∧ l.getLast? = some ']'

/-- The section name `read` takes from a header line. -/
def headerName (l : Str) : Str := TrimSpace ((l.take (l.length - 1)).drop 1)

/-- The state in which the loop of `read` starts. -/
def readStart (p : IniConfigProvider) : ReadState :=
  { p := p, sect := "default".toList, option := [] }

/-- The loop variables of `read` (the provider, the current section and the
current option) when the text has been read: the state in which the loop goes
on when a line feed and more text follow. -/
def readState [CaseTable] (p : IniConfigProvider) (text : Str) : ReadState :=
  (readLoop (readStart p) (readStrings text)).1

/-- A section name that a header line carries unchanged: not empty, on one
line, without white space at its ends, and its own folding to lower case. -/
def plainSection [CaseTable] (s : Str) : Prop :=
  s ≠ [] ∧ '\n' ∉ s ∧ TrimSpace s = s ∧ ToLower s = s

instance [CaseTable] (s : Str) : Decidable (plainSection s) := by
  unfold plainSection; infer_instance

/-- An option name that an option line carries unchanged: as a plain section
name, and moreover without `=` or `:`, not starting with `#` or `;`, and not
starting with `rem`. -/
def plainOption [CaseTable] (o : Str) : Prop :=
  o ≠ [] ∧ '\n' ∉ o ∧ TrimSpace o = o ∧ ToLower o = o ∧ '=' ∉ o ∧ ':' ∉ o
    ∧ o.head? ≠ some '#' ∧ o.head? ≠ some ';' ∧ ¬ ("rem".toList <+: o)

instance [CaseTable] (o : Str) : Decidable (plainOption o) := by
  unfold plainOption; infer_instance

/-- The first line of a value: the text before its first line feed. -/
def firstLine (v : Str) : Str := (readStrings v).headD []

/-- The lines of a value after the first one. -/
def moreLines (v : Str) : List Str := (readStrings v).tail

/-- A line that `read` appends unchanged to the value of the current option:
it is its own trimmed and stripped form, it is not skipped, it is not taken for
a header, and it holds no `=` or `:` after its first character. -/
def continuationLine [CaseTable] (l : Str) : Prop :=
  TrimSpace l = l ∧ stripComments l = l ∧ skipped l = false ∧ header l = false
    ∧ (IndexAny l "=:".toList = none ∨ IndexAny l "=:".toList = some 0)

instance [CaseTable] (l : Str) : Decidable (continuationLine l) := by
  unfold continuationLine; infer_instance

/-- A value that an option line and continuation lines carry unchanged: its
first line has no white space at its ends and no comment marker, and every
later line is a continuation line. -/
def plainValue [CaseTable] (v : Str) : Prop :=
  TrimSpace (firstLine v) = firstLine v ∧ stripComments (firstLine v) = firstLine v
    ∧ ∀ l ∈ moreLines v, continuationLine l

instance [CaseTable] (v : Str) : Decidable (plainValue v) := by
  unfold plainValue; infer_instance

/-- An option that `write` and `read` carry unchanged: the name is plain, the
value is plain, and the option line is not taken for a header (it is when the
name starts with `[` and the first line of the value ends with `]`). -/
def plainEntry [CaseTable] (ov : Str × Str) : Prop :=
  plainOption ov.1 ∧ plainValue ov.2 ∧ header (ov.1 ++ '=' :: firstLine ov.2) = false

instance [CaseTable] (ov : Str × Str) : Decidable (plainEntry ov) := by
  unfold plainEntry; infer_instance

/-- A data map in which every key occurs once, all section names are plain and
all options are plain entries. -/
def plainData [CaseTable] (data : Map (Map Str)) : Prop :=
  (mkeys data).Nodup
    ∧ ∀ e ∈ data, plainSection e.1 ∧ (mkeys e.2).Nodup ∧ ∀ ov ∈ e.2, plainEntry ov

instance [CaseTable] (data : Map (Map Str)) : Decidable (plainData data) := by
  unfold plainData; infer_instance

/-- What `Initialize` may seed from the collection into the provider `p` is
plain: the section names of the collection are plain, and every item that is
not found in `p` under its section and name has a plain name and a plain
formatted default value. -/
def plainSeeds [CaseTable] (collection : ConfigurationItemCollection) (p : IniConfigProvider) :
    Prop :=
  ∀ e ∈ collection, plainSection e.1
    ∧ ∀ it ∈ e.2, (lookupOption p e.1 it.2.GetName).isSome = true
        ∨ plainEntry (it.2.GetName, formatValue it.2.GetDefaultValue)

instance [CaseTable] (collection : ConfigurationItemCollection) (p : IniConfigProvider) :
    Decidable (plainSeeds collection p) := by
  unfold plainSeeds; infer_instance

/-- The sections that `write` emits: all but a default section without options. -/
def written (data : Map (Map Str)) : Map (Map Str) :=
  data.filter (fun e => ¬ (e.1 = DefaultSection ∧ e.2.length = 0))

/-- The lines `write` emits for one option, without their line feeds: the name,
`=` and the first line of the value, then the other lines of the value. -/
def optionLines (ov : Str × Str) : List Str :=
  (ov.1 ++ '=' :: firstLine ov.2) :: moreLines ov.2

/-- The lines `write` emits for one section, without their line feeds: the
header, the lines of the options, and the empty separator line. -/
def sectionLines (e : Str × Map Str) : List Str :=
  ('[' :: (e.1 ++ [']'])) :: ((e.2.map optionLines).flatten ++ [[]])

/-- The lines `write` emits for a data map, without their line feeds. -/
def dataLines (data : Map (Map Str)) : List Str :=
  ((written data).map sectionLines).flatten

/-- The four markers of `stripComments`, in the order of the source. -/
def commentMarkers : List Str :=
  [" ;".toList, "\t;".toList, " #".toList, "\t#".toList]

/-- One turn of the loop of `stripComments`: `l` cut at the first occurrence of
the marker `c`, or `l` itself when `c` does not occur. -/
def cutAtMarker (l c : Str) : Str :=
  match Index l c with
  | some i => l.take i
  | none => l

/-- One of the four markers occurs in `l` at index `i`. -/
def markerAt (l : Str) (i : Nat) : Prop := ∃ m ∈ commentMarkers, m <+: l.drop i

instance (l : Str) (i : Nat) : Decidable (markerAt l i) := by
  unfold markerAt; infer_instance

/-- The smallest index of `l` at which one of the four markers occurs, `none`
when none occurs. -/
def leftmostMarker (l : Str) : Option Nat :=
  match l with
  | [] => none
  | c :: cs => if markerAt (c :: cs) 0 then some 0 else (leftmostMarker cs).map (· + 1)

/-- In the words of the specification: the prefix of `l` that ends just before
the leftmost marker, and `l` itself when it holds no marker. -/
def truncateAtLeftmostMarker (l : Str) : Str :=
  match leftmostMarker l with
  | some i => l.take i
  | none => l

/-- The section name as `SetValue` and `getRawString` normalise it: the empty
name becomes `default`, and the name is folded to lower case. -/
def normalSection [CaseTable] (s : Str) : Str := ToLower (if s = [] then "default".toList else s)

/-- Every section key and every option key of the data is its own lower-case
folding. -/
def lowerKeys [CaseTable] (data : Map (Map Str)) : Prop :=
  ∀ e ∈ data, ToLower e.1 = e.1 ∧ ∀ ov ∈ e.2, ToLower ov.1 = ov.1

instance [CaseTable] (data : Map (Map Str)) : Decidable (lowerKeys data) := by
  unfold lowerKeys; infer_instance

end providers

namespace configuration

/-- The registry after the calls `addConfigurationItem(key, item)` of the list,
made in order from the registry set up by `init()`. -/
def registered (calls : List (Str × ConfigurationItem)) : Registry :=
  calls.foldl (fun reg c => (addConfigurationItem reg c.1 c.2).1) init

/-- The read `configItemCollection[section][name]`. -/
def collectionItem (reg : Registry) (sect name : Str) : Option ConfigurationItem :=
  match mget reg.configItemCollection sect with
  | none => none
  | some m => mget m name

end configuration

/-! ## Data used in the closed statements below -/

namespace examples

open configuration providers

/-- The case table of the closed statements: the capital letters of Latin-1,
`À` to `Þ` without the sign `×`, are shifted to their small letters, as in every
version of `unicode.CaseRanges`; every other rune is kept.  The theorems with
the binder `[CaseTable]` do not depend on it. -/
instance latin1CaseTable : CaseTable where
  lower := fun r =>
    if 0xC0 ≤ r.toNat ∧ r.toNat ≤ 0xDE ∧ r.toNat ≠ 0xD7 then Char.ofNat (r.toNat + 32)
    else r

/-- An item of section `net` named `port`, default `1`. -/
def portItem : ConfigurationItem :=
  NewConfigurationItem "net".toList "port".toList "Port".toList (.int 1)

/-- A second item with the section and name of `portItem`, default `2`. -/
def portItem2 : ConfigurationItem :=
  NewConfigurationItem "net".toList "port".toList "Port again".toList (.int 2)

/-- An item of section `net` named `host`. -/
def hostItem : ConfigurationItem :=
  NewConfigurationItem "net".toList "host".toList "Host".toList (.str "localhost".toList)

/-- The item of the scenarios of the specification: empty section, name
`timeout`, default `60`. -/
def timeoutItem : ConfigurationItem :=
  NewConfigurationItem [] "timeout".toList "Timeout".toList (.int 60)

/-- The registry after `timeoutItem` is registered under `timeoutKey`. -/
def timeoutRegistry : Registry :=
  (addConfigurationItem init "timeoutKey".toList timeoutItem).1

/-- An item declared with capitals: section `Net`, name `Port`, default `60`. -/
def capitalItem : ConfigurationItem :=
  NewConfigurationItem "Net".toList "Port".toList "Port".toList (.int 60)

/-- The registry after `capitalItem` is registered under `portKey`. -/
def capitalRegistry : Registry :=
  (addConfigurationItem init "portKey".toList capitalItem).1

/-- A provider that only records the calls made to it: its state is the list of
the calls so far, and every getter returns a fixed value and no error. -/
def recorder : IConfigurationProvider (List (Str × ConfigurationItem)) Unit Nat where
  Initialize := fun log _ => .ret log
  SetValue := fun log item _ => log ++ [("SetValue".toList, item)]
  GetString := fun log item => (("text".toList, none), log ++ [("GetString".toList, item)])
  GetInt := fun log item => ((7, none), log ++ [("GetInt".toList, item)])
  GetFloat64 := fun log item => ((3, none), log ++ [("GetFloat64".toList, item)])
  GetBool := fun log item => ((true, some ()), log ++ [("GetBool".toList, item)])

/-- The provider after `Initialize` on the empty file with `timeoutItem`
registered: the default sits in the section named by the empty string. -/
def emptySectionProvider : IniConfigProvider :=
  { iniPath := "config.ini".toList, data := [([], [("timeout".toList, "60".toList)])] }

/-- An item of section `net` named `remote`. -/
def remoteItem : ConfigurationItem :=
  NewConfigurationItem "net".toList "remote".toList "Remote host".toList
    (.str "example.org".toList)

/-- The registry after `remoteItem` is registered under `remoteKey`. -/
def remoteRegistry : Registry :=
  (addConfigurationItem init "remoteKey".toList remoteItem).1

/-- An item of section `net` named `motd`. -/
def motdItem : ConfigurationItem :=
  NewConfigurationItem "net".toList "motd".toList "Message".toList (.str "hi".toList)

/-- A provider that holds the option `motd` of section `net`. -/
def motdProvider : IniConfigProvider :=
  { iniPath := "config.ini".toList, data := [("net".toList, [("motd".toList, "hi".toList)])] }

/-- A provider with one option in an ASCII section and one in a section and
under a name with letters of Latin-1. -/
def fooProvider : IniConfigProvider :=
  { iniPath := "config.ini".toList,
    data := [("foo".toList, [("bar".toList, "baz".toList)]),
             ("été".toList, [("clé".toList, "août".toList)])] }

/-- An item declared with capitals: section `Net`, name `On`. -/
def switchItem : ConfigurationItem :=
  NewConfigurationItem "Net".toList "On".toList "Switch".toList (.bool false)

/-- A provider that holds the string `v` for the option `on` of section `net`. -/
def switchProvider (v : Str) : IniConfigProvider :=
  { iniPath := "config.ini".toList, data := [("net".toList, [("on".toList, v)])] }

/-- A provider with a default section without options and a section `s` that
holds a value of two lines, an option whose name starts with `[`, and an option
with letters of Latin-1 whose value has lines that start with a separator. -/
def linesProvider : IniConfigProvider :=
  { iniPath := "config.ini".toList,
    data := [("default".toList, []),
             ("s".toList, [("opt".toList, "a\nb".toList),
                           ("[x".toList, "1".toList),
                           ("clé".toList, "=v\n:w".toList)])] }

/-- An item of section `s` named `opt`. -/
def optItem : ConfigurationItem :=
  NewConfigurationItem "s".toList "opt".toList "Option".toList (.str "none ;yet".toList)

/-- An item of section `s` named `port`, default `1`. -/
def sPortItem : ConfigurationItem :=
  NewConfigurationItem "s".toList "port".toList "Port".toList (.int 1)

/-- The registry after `optItem` and `sPortItem` are registered, in this order. -/
def linesRegistry : Registry :=
  (AddConfigurationItems init
    [("optKey".toList, optItem), ("portKey".toList, sPortItem)]).1

/-- The registry after `sPortItem` and `optItem` are registered, in this order. -/
def linesRegistry2 : Registry :=
  (AddConfigurationItems init
    [("portKey".toList, sPortItem), ("optKey".toList, optItem)]).1

end examples

/-! # Theorems -/

namespace configuration

open examples

/-- C1: with `portItem` registered under `k1`, registering `portItem2` (same
section and name) under the unused key `k2` reports success with an empty
message, and the collection entry of section `net`, name `port` now holds
`portItem2`: the duplicate is neither rejected nor reported, and the original
is replaced. -/
theorem addConfigurationItem_duplicate_section_name_accepted :
    (addConfigurationItem (addConfigurationItem init "k1".toList portItem).1
        "k2".toList portItem2).2 = (true, [])
    ∧ (mget (addConfigurationItem (addConfigurationItem init "k1".toList portItem).1
        "k2".toList portItem2).1.configItemCollection "net".toList).bind
          (fun m => mget m "port".toList) = some portItem2
    ∧ portItem2 ≠ portItem := by
  decide

/-- C2: the pairs (`port`, `hostItem`) and (`k`, `portItem`) have distinct
keys and distinct (section, name) pairs, yet registering them from the empty
registry in the order `k`, `port` makes `AddConfigurationItems` return an
error: the second pair is refused because its key `port` is the name of an
item already in section `net`. -/
theorem AddConfigurationItems_distinct_pairs_rejected :
    "k".toList ≠ "port".toList
    ∧ (portItem.GetSection, portItem.GetName) ≠ (hostItem.GetSection, hostItem.GetName)
    ∧ (AddConfigurationItems init [("k".toList, portItem), ("port".toList, hostItem)]).2
        = some (itemExistsMessage "host".toList "net".toList)
    ∧ (AddConfigurationItems init [("port".toList, hostItem), ("k".toList, portItem)]).2
        = none := by
  decide

/-- C3: registering an item under a key that `configItems` already holds is
rejected with the message naming the key, and the registry is returned as it
was: the key still maps to the original item and the collection is the same. -/
theorem addConfigurationItem_duplicate_key (reg : Registry) (k : Str)
    (old item : ConfigurationItem) (h : mget reg.configItems k = some old) :
    addConfigurationItem reg k item
        = (reg, false,
            "ConfigurationItem with key '".toList ++ k ++ "' has already been added.\n".toList)
    ∧ mget (addConfigurationItem reg k item).1.configItems k = some old
    ∧ (addConfigurationItem reg k item).1.configItemCollection = reg.configItemCollection := by
  have key : addConfigurationItem reg k item = (reg, false, keyAddedMessage k) := by
    simp [addConfigurationItem, h]
  refine ⟨?_, ?_, ?_⟩
  · rw [key]; rfl
  · rw [key]; exact h
  · rw [key]

theorem addConfigurationItem_duplicate_key_witness :
    mget (addConfigurationItem init "k1".toList portItem).1.configItems "k1".toList
        = some portItem
    ∧ (addConfigurationItem (addConfigurationItem init "k1".toList portItem).1
          "k1".toList hostItem
        = ((addConfigurationItem init "k1".toList portItem).1, false,
            "ConfigurationItem with key '".toList ++ "k1".toList
              ++ "' has already been added.\n".toList)
      ∧ mget (addConfigurationItem (addConfigurationItem init "k1".toList portItem).1
          "k1".toList hostItem).1.configItems "k1".toList = some portItem
      ∧ (addConfigurationItem (addConfigurationItem init "k1".toList portItem).1
          "k1".toList hostItem).1.configItemCollection
        = (addConfigurationItem init "k1".toList portItem).1.configItemCollection) :=
  ⟨by decide,
   addConfigurationItem_duplicate_key _ "k1".toList portItem hostItem (by decide)⟩

end configuration

namespace configuration

open examples

/-- C9: with a provider installed, the five registry operations resolve the key
first.  For a key that `configItems` does not hold they return the
"Unable to find" error (and the zero value) and leave the provider state as it
was, whatever the provider; for a key that is held they call the provider with
the item stored under the key and hand its result back. -/
theorem registry_operations_resolve_key {σ ε φ : Type} (P : IConfigurationProvider σ ε φ)
    (p : σ) (reg : Registry) (k : Str) (v : Value) (zero : φ) :
    (mget reg.configItems k = none →
      SetValue P (some p) reg k v = .ret (some (.message (keyNotFoundMessage k)), p)
      ∧ GetString P (some p) reg k = .ret (([], some (.message (keyNotFoundMessage k))), p)
      ∧ GetInt P (some p) reg k = .ret ((0, some (.message (keyNotFoundMessage k))), p)
      ∧ GetFloat64 P zero (some p) reg k
          = .ret ((zero, some (.message (keyNotFoundMessage k))), p)
      ∧ GetBool P (some p) reg k
          = .ret ((false, some (.message (keyNotFoundMessage k))), p))
    ∧ (∀ item, mget reg.configItems k = some item →
      SetValue P (some p) reg k v = .ret (none, P.SetValue p item v)
      ∧ GetString P (some p) reg k
          = .ret (((P.GetString p item).1.1, (P.GetString p item).1.2.map Error.provider),
              (P.GetString p item).2)
      ∧ GetInt P (some p) reg k
          = .ret (((P.GetInt p item).1.1, (P.GetInt p item).1.2.map Error.provider),
              (P.GetInt p item).2)
      ∧ GetFloat64 P zero (some p) reg k
          = .ret (((P.GetFloat64 p item).1.1, (P.GetFloat64 p item).1.2.map Error.provider),
              (P.GetFloat64 p item).2)
      ∧ GetBool P (some p) reg k
          = .ret (((P.GetBool p item).1.1, (P.GetBool p item).1.2.map Error.provider),
              (P.GetBool p item).2)) := by
  constructor
  · intro h
    simp [SetValue, GetString, GetInt, GetFloat64, GetBool, getWith,
      getConfigurationItemByKey, h]
  · intro item h
    simp [SetValue, GetString, GetInt, GetFloat64, GetBool, getWith,
      getConfigurationItemByKey, h]

theorem registry_operations_resolve_key_witness :
    (mget timeoutRegistry.configItems "other".toList = none →
      SetValue recorder (some []) timeoutRegistry "other".toList (.int 5)
          = .ret (some (.message (keyNotFoundMessage "other".toList)), [])
      ∧ GetString recorder (some []) timeoutRegistry "other".toList
          = .ret (([], some (.message (keyNotFoundMessage "other".toList))), [])
      ∧ GetInt recorder (some []) timeoutRegistry "other".toList
          = .ret ((0, some (.message (keyNotFoundMessage "other".toList))), [])
      ∧ GetFloat64 recorder 0 (some []) timeoutRegistry "other".toList
          = .ret ((0, some (.message (keyNotFoundMessage "other".toList))), [])
      ∧ GetBool recorder (some []) timeoutRegistry "other".toList
          = .ret ((false, some (.message (keyNotFoundMessage "other".toList))), []))
    ∧ mget timeoutRegistry.configItems "other".toList = none
    ∧ mget timeoutRegistry.configItems "timeoutKey".toList = some timeoutItem
    ∧ SetValue recorder (some []) timeoutRegistry "timeoutKey".toList (.int 5)
        = .ret (none, [("SetValue".toList, timeoutItem)])
    ∧ GetBool recorder (some []) timeoutRegistry "timeoutKey".toList
        = .ret ((true, some (.provider ())), [("GetBool".toList, timeoutItem)]) := by
  have w := registry_operations_resolve_key recorder [] timeoutRegistry "other".toList
    (.int 5) 0
  have w2 := (registry_operations_resolve_key recorder [] timeoutRegistry "timeoutKey".toList
    (.int 5) 0).2 timeoutItem (by decide)
  exact ⟨w.1, by decide, by decide, w2.1, w2.2.2.2.2⟩

end configuration

namespace providers

open configuration examples

/-- C4: on the empty backing file, with `timeoutItem` (empty section, name
`timeout`, default `60`) registered, `Initialize` seeds the default under the
section named by the empty string and writes `[]` as the header; `GetInt` for
the item then looks in section `default` and returns `0` with the error
`SectionNotFound`. -/
theorem Initialize_empty_section_item_not_readable :
    getConfigurationItemByKey timeoutRegistry "timeoutKey".toList = .ok timeoutItem
    ∧ Initialize (NewIniConfigProvider "config.ini".toList) []
        (GetConfigurationItemCollection timeoutRegistry)
      = .ret { p := emptySectionProvider,
               file := "[]\ntimeout=60\n\n".toList,
               newItemsAdded := true }
    ∧ GetInt emptySectionProvider timeoutItem
      = (0, some ⟨.SectionNotFound, [], [], "default".toList, "timeout".toList⟩) :=
  ⟨rfl, by decide⟩

/-- C5: the backing file defines `port=30` in section `net`, and `capitalItem`
(section `Net`, name `Port`, default `60`) is registered: `Initialize` looks
the option up under the names as declared, does not find it, and stores the
default over the value of the file, so that `GetInt` returns `60`. -/
theorem Initialize_capital_item_overwrites_file_value :
    (read (NewIniConfigProvider "config.ini".toList) "[net]\nport=30\n".toList)
      = ({ iniPath := "config.ini".toList,
           data := [("net".toList, [("port".toList, "30".toList)])] }, none)
    ∧ Initialize (NewIniConfigProvider "config.ini".toList) "[net]\nport=30\n".toList
        (GetConfigurationItemCollection capitalRegistry)
      = .ret { p := { iniPath := "config.ini".toList,
                      data := [("net".toList, [("port".toList, "60".toList)])] },
               file := "[net]\nport=60\n\n".toList,
               newItemsAdded := true }
    ∧ GetInt { iniPath := "config.ini".toList,
               data := [("net".toList, [("port".toList, "60".toList)])] } capitalItem
      = (60, none) := by
  decide

/-- C7: after `Initialize` on the empty backing file with `timeoutItem`
registered, `SetValue` for the item with the value `30` finds no section
`default`, prints its diagnostic and stores nothing, and `GetInt` returns `0`
with the error `SectionNotFound` instead of `30`. -/
theorem SetValue_then_GetInt_empty_section_item :
    getConfigurationItemByKey timeoutRegistry "timeoutKey".toList = .ok timeoutItem
    ∧ Initialize (NewIniConfigProvider "config.ini".toList) []
        (GetConfigurationItemCollection timeoutRegistry)
      = .ret { p := emptySectionProvider, file := "[]\ntimeout=60\n\n".toList,
               newItemsAdded := true }
    ∧ SetValue emptySectionProvider
        "[]\ntimeout=60\n\n".toList timeoutItem (.int 30)
      = { p := emptySectionProvider,
          file := "[]\ntimeout=60\n\n".toList,
          printed := some "Section not found".toList }
    ∧ GetInt (SetValue emptySectionProvider
        "[]\ntimeout=60\n\n".toList timeoutItem (.int 30)).p timeoutItem
      = (0, some ⟨.SectionNotFound, [], [], "default".toList, "timeout".toList⟩) :=
  ⟨rfl, by decide⟩

end providers

namespace providers

open configuration examples

/-! ### Lines and the loop of `read` -/

theorem TrimSpace_append_newline (x : Str) : TrimSpace (x ++ ['\n']) = TrimSpace x := by
  unfold TrimSpace
  by_cases hall : ∀ a ∈ x, isSpace a = true
  · have h1 : List.dropWhile isSpace x = [] := by
      simpa [List.dropWhile_eq_nil_iff] using hall
    have h2 : List.dropWhile isSpace (x ++ ['\n']) = [] := by
      rw [List.dropWhile_eq_nil_iff]
      intro a ha
      rcases List.mem_append.mp ha with ha | ha
      · exact hall a ha
      · have : a = '\n' := by simpa using ha
        subst this; decide
    rw [h1, h2]
  · have h1 : List.dropWhile isSpace x ≠ [] := by
      intro h; exact hall (List.dropWhile_eq_nil_iff.mp h)
    have h2 : List.dropWhile isSpace (x ++ ['\n']) = List.dropWhile isSpace x ++ ['\n'] := by
      rw [List.dropWhile_append]
      simp [h1]
    rw [h2, List.reverse_append]
    have : isSpace '\n' = true := by decide
    simp [List.dropWhile, this]

theorem readLoop_cons_cons [CaseTable] (st : ReadState) (x y : Str) (rest : List Str) :
    readLoop st (x :: y :: rest)
      = match readLine st (TrimSpace x) with
        | .error e => (st, some e)
        | .ok st' => readLoop st' (y :: rest) := by
  rw [readLoop, TrimSpace_append_newline]
  simp

theorem readLine_nil [CaseTable] (st : ReadState) : readLine st [] = .ok st := by
  simp [readLine]

theorem readLoop_singleton [CaseTable] (st : ReadState) (x : Str) :
    readLoop st [x]
      = match readLine st (TrimSpace x) with
        | .error e => (st, some e)
        | .ok st' => (st', none) := by
  rw [readLoop]
  by_cases h : (TrimSpace x).length = 0
  · have : TrimSpace x = [] := List.length_eq_zero.mp h
    simp [this, readLine_nil]
  · simp [h]

/-- Reading a piece that is followed by more pieces: the line is handled and
the loop goes on with the rest. -/
theorem readLoop_cons [CaseTable] (st : ReadState) (x : Str) (rest : List Str) (hrest : rest ≠ []) :
    readLoop st (x :: rest)
      = match readLine st (TrimSpace x) with
        | .error e => (st, some e)
        | .ok st' => readLoop st' rest := by
  cases rest with
  | nil => exact absurd rfl hrest
  | cons y rest => exact readLoop_cons_cons st x y rest

theorem readLoop_empty_piece [CaseTable] (st : ReadState) : readLoop st [[]] = (st, none) := by
  rw [readLoop_singleton]; simp [TrimSpace, readLine_nil]

/-- Pieces that are read without error can be split off the front of the loop. -/
theorem readLoop_append [CaseTable] (pre : List Str) (st : ReadState)
    (h : (readLoop st (pre ++ [[]])).2 = none) (tail : List Str) (htail : tail ≠ []) :
    readLoop st (pre ++ tail) = readLoop (readLoop st (pre ++ [[]])).1 tail := by
  induction pre generalizing st with
  | nil => simp [readLoop_empty_piece]
  | cons x pre ih =>
    have e1 : readLoop st (x :: (pre ++ [[]]))
        = match readLine st (TrimSpace x) with
          | .error e => (st, some e)
          | .ok st' => readLoop st' (pre ++ [[]]) :=
      readLoop_cons st x (pre ++ [[]]) (by simp)
    have e2 : readLoop st (x :: (pre ++ tail))
        = match readLine st (TrimSpace x) with
          | .error e => (st, some e)
          | .ok st' => readLoop st' (pre ++ tail) :=
      readLoop_cons st x (pre ++ tail) (by simp [htail])
    rw [List.cons_append] at h
    rw [List.cons_append, List.cons_append, e2, e1]
    rw [e1] at h
    cases hx : readLine st (TrimSpace x) with
    | error e => rw [hx] at h; simp at h
    | ok st' =>
      rw [hx] at h
      simp only at h ⊢
      exact ih st' h

/-- Pieces that are read without error can be split off the front of the loop,
also when the last of them was read as the piece at the end of the text. -/
theorem readLoop_append_pieces [CaseTable] (pre : List Str) (st : ReadState) (hpre : pre ≠ [])
    (h : (readLoop st pre).2 = none) (tail : List Str) (htail : tail ≠ []) :
    readLoop st (pre ++ tail) = readLoop (readLoop st pre).1 tail := by
  induction pre generalizing st with
  | nil => exact absurd rfl hpre
  | cons x pre ih =>
    cases pre with
    | nil =>
      rw [List.singleton_append, readLoop_cons st x tail htail]
      rw [readLoop_singleton] at h ⊢
      cases hx : readLine st (TrimSpace x) with
      | error e => rw [hx] at h; simp at h
      | ok st' => rfl
    | cons y pre =>
      rw [List.cons_append, readLoop_cons st x _ (by simp)]
      rw [readLoop_cons_cons] at h ⊢
      cases hx : readLine st (TrimSpace x) with
      | error e => rw [hx] at h; simp at h
      | ok st' =>
        rw [hx] at h
        exact ih st' (by simp) h

theorem read_eq_readState [CaseTable] (p : IniConfigProvider) (text : Str) :
    read p text = ((readState p text).p, (readLoop (readStart p) (readStrings text)).2) := rfl

theorem skipped_eq_true_iff [CaseTable] (l : Str) :
    skipped l = true ↔ (l.length = 0 ∨ l.head? = some '#' ∨ l.head? = some ';'
      ∨ (l.length ≥ 3 ∧ ToLower (l.take 3) = "rem".toList)) := by
  unfold skipped
  exact decide_eq_true_iff

theorem skipped_eq_false_iff [CaseTable] (l : Str) :
    skipped l = false ↔ (¬ l.length = 0 ∧ ¬ l.head? = some '#' ∧ ¬ l.head? = some ';'
      ∧ ¬ (l.length ≥ 3 ∧ ToLower (l.take 3) = "rem".toList)) := by
  rw [← Bool.not_eq_true, skipped_eq_true_iff]
  tauto

theorem header_eq_true_iff (l : Str) :
    header l = true ↔ (l.head? = some '[' ∧ l.getLast? = some ']') := by
  unfold header
  exact decide_eq_true_iff

theorem readLine_skipped [CaseTable] (st : ReadState) (l : Str) (h : skipped l = true) :
    readLine st l = .ok st := by
  rw [skipped_eq_true_iff] at h
  unfold readLine
  by_cases h1 : l.length = 0
  · rw [if_pos h1]
  rw [if_neg h1]
  by_cases h2 : l.head? = some '#'
  · rw [if_pos h2]
  rw [if_neg h2]
  by_cases h3 : l.head? = some ';'
  · rw [if_pos h3]
  rw [if_neg h3]
  by_cases h4 : l.length ≥ 3 ∧ ToLower (l.take 3) = "rem".toList
  · rw [if_pos h4]
  · tauto

theorem readLine_header [CaseTable] (st : ReadState) (l : Str) (hs : skipped l = false)
    (h : header l = true) :
    readLine st l
      = .ok { p := (addSection st.p (headerName l)).1, sect := headerName l, option := [] } := by
  rw [skipped_eq_false_iff] at hs
  rw [header_eq_true_iff] at h
  unfold readLine
  rw [if_neg hs.1, if_neg hs.2.1, if_neg hs.2.2.1, if_neg hs.2.2.2, if_pos h]
  rfl

theorem readLine_blank_section [CaseTable] (st : ReadState) (l : Str) (hs : skipped l = false)
    (h : header l = false) (hsect : st.sect = []) :
    readLine st l = .error ⟨.BlankSection, l⟩ := by
  rw [skipped_eq_false_iff] at hs
  rw [← Bool.not_eq_true, header_eq_true_iff] at h
  unfold readLine
  rw [if_neg hs.1, if_neg hs.2.1, if_neg hs.2.2.1, if_neg hs.2.2.2, if_neg h, if_pos hsect]

theorem readLoop_skipped [CaseTable] (mid : List Str) (st : ReadState)
    (hmid : ∀ x ∈ mid, skipped (TrimSpace x) = true) (tail : List Str) (htail : tail ≠ []) :
    readLoop st (mid ++ tail) = readLoop st tail := by
  induction mid with
  | nil => rfl
  | cons x mid ih =>
    rw [List.cons_append, readLoop_cons st x (mid ++ tail) (by simp [htail]),
      readLine_skipped st _ (hmid x (List.mem_cons_self _ _))]
    exact ih (fun y hy => hmid y (List.mem_cons_of_mem _ hy))

theorem readLoop_error_line [CaseTable] (st : ReadState) (l : Str) (rest : List Str) (e : ReadError)
    (h : readLine st (TrimSpace l) = .error e) :
    readLoop st (l :: rest) = (st, some e) := by
  cases rest with
  | nil => rw [readLoop_singleton, h]
  | cons y rest => rw [readLoop_cons_cons, h]

/-- Where `read` does return the error `BlankSection`: for a line that is
neither blank, a full-line comment nor a header and is reached while the
current section name is empty, which is the state after a header whose name
trims to the empty string.  If the pieces before that header are read without
error and only blank lines and comments stand between the header and the line,
`read` returns `ReadError{BlankSection, line}`. -/
theorem read_blank_section_after_empty_header [CaseTable] (p : IniConfigProvider) (text : Str)
    (pre mid rest : List Str) (h l : Str)
    (hsplit : readStrings text = pre ++ h :: (mid ++ l :: rest))
    (hpre : (readLoop (readStart p) (pre ++ [[]])).2 = none)
    (hh : header (TrimSpace h) = true) (hhs : skipped (TrimSpace h) = false)
    (hname : headerName (TrimSpace h) = [])
    (hmid : ∀ x ∈ mid, skipped (TrimSpace x) = true)
    (hls : skipped (TrimSpace l) = false) (hlh : header (TrimSpace l) = false) :
    (read p text).2 = some ⟨.BlankSection, TrimSpace l⟩ := by
  have start : read p text = ((readLoop (readStart p) (readStrings text)).1.p,
      (readLoop (readStart p) (readStrings text)).2) := rfl
  rw [start, hsplit, readLoop_append pre _ hpre _ (by simp),
    readLoop_cons _ h _ (by simp), readLine_header _ _ hhs hh]
  simp only
  rw [readLoop_skipped mid _ hmid _ (by simp)]
  rw [readLoop_error_line _ l rest ⟨.BlankSection, TrimSpace l⟩
    (readLine_blank_section _ _ hls hlh hname)]

/-- C10: the input `timeout=30` followed by a line feed has its first line
before any section header, and `read` returns no error instead of the
`ReadError` with reason `BlankSection`: the loop starts with the section
variable set to `default`, so the branch commented "not new section and no
section defined so far" is not taken, and the option is stored in the section
`default`. -/
theorem read_option_before_any_header :
    read (NewIniConfigProvider "config.ini".toList) "timeout=30\n".toList
      = ({ iniPath := "config.ini".toList,
           data := [("default".toList, [("timeout".toList, "30".toList)])] }, none) := by
  decide

theorem read_blank_section_after_empty_header_witness :
    (read (NewIniConfigProvider "config.ini".toList)
        "[net]\nport=1\n[]\n# note\ntimeout=30\n".toList).2
      = some ⟨.BlankSection, TrimSpace "timeout=30".toList⟩ :=
  read_blank_section_after_empty_header (NewIniConfigProvider "config.ini".toList)
    "[net]\nport=1\n[]\n# note\ntimeout=30\n".toList
    ["[net]".toList, "port=1".toList] ["# note".toList] [[]] "[]".toList "timeout=30".toList
    (by decide) (by decide) (by decide) (by decide) (by decide) (by decide) (by decide)
    (by decide)

end providers

/-! ### Maps -/

theorem mget_nil {V : Type} (k : Str) : mget ([] : Map V) k = none := rfl

theorem mget_cons {V : Type} (k' : Str) (v : V) (m : Map V) (k : Str) :
    mget ((k', v) :: m) k = if k' = k then some v else mget m k := rfl

theorem mset_nil {V : Type} (k : Str) (v : V) : mset ([] : Map V) k v = [(k, v)] := rfl

theorem mset_cons {V : Type} (k' : Str) (v' : V) (m : Map V) (k : Str) (v : V) :
    mset ((k', v') :: m) k v
      = if k' = k then (k, v) :: m else (k', v') :: mset m k v := rfl

theorem mkeys_nil {V : Type} : mkeys ([] : Map V) = [] := rfl

theorem mkeys_cons {V : Type} (k : Str) (v : V) (m : Map V) :
    mkeys ((k, v) :: m) = k :: mkeys m := rfl

theorem mkeys_append {V : Type} (a b : Map V) : mkeys (a ++ b) = mkeys a ++ mkeys b :=
  List.map_append _ a b

theorem mget_mset_self {V : Type} (m : Map V) (k : Str) (v : V) :
    mget (mset m k v) k = some v := by
  induction m with
  | nil => rw [mset_nil, mget_cons, if_pos rfl]
  | cons e m ih =>
    obtain ⟨k', v'⟩ := e
    by_cases h : k' = k
    · rw [mset_cons, if_pos h, mget_cons, if_pos rfl]
    · rw [mset_cons, if_neg h, mget_cons, if_neg h, ih]

theorem mget_mset_ne {V : Type} (m : Map V) (k k' : Str) (v : V) (hne : k' ≠ k) :
    mget (mset m k v) k' = mget m k' := by
  induction m with
  | nil => rw [mset_nil, mget_cons, if_neg (Ne.symm hne)]
  | cons e m ih =>
    obtain ⟨k'', v''⟩ := e
    by_cases h : k'' = k
    · subst h
      rw [mset_cons, if_pos rfl, mget_cons, if_neg (Ne.symm hne), mget_cons,
        if_neg (Ne.symm hne)]
    · rw [mset_cons, if_neg h, mget_cons, mget_cons, ih]

theorem mget_eq_none_iff {V : Type} (m : Map V) (k : Str) :
    mget m k = none ↔ k ∉ mkeys m := by
  induction m with
  | nil =>
    rw [mget_nil, mkeys_nil]
    exact ⟨fun _ => List.not_mem_nil k, fun _ => rfl⟩
  | cons e m ih =>
    obtain ⟨k', v'⟩ := e
    rw [mget_cons, mkeys_cons, List.mem_cons, not_or]
    by_cases h : k' = k
    · rw [if_pos h]
      constructor
      · intro a; cases a
      · intro a; exact absurd h.symm a.1
    · rw [if_neg h, ih]
      constructor
      · intro a; exact ⟨fun b => h b.symm, a⟩
      · intro a; exact a.2

theorem mset_of_not_mem {V : Type} (m : Map V) (k : Str) (v : V) (h : k ∉ mkeys m) :
    mset m k v = m ++ [(k, v)] := by
  induction m with
  | nil => rfl
  | cons e m ih =>
    obtain ⟨k', v'⟩ := e
    rw [mkeys_cons, List.mem_cons, not_or] at h
    rw [mset_cons, if_neg (fun a => h.1 a.symm), ih h.2, List.cons_append]

theorem mget_append_last {V : Type} (acc : Map V) (k : Str) (v : V) (h : k ∉ mkeys acc) :
    mget (acc ++ [(k, v)]) k = some v := by
  rw [← mset_of_not_mem acc k v h]; exact mget_mset_self acc k v

theorem mset_append_last {V : Type} (acc : Map V) (k : Str) (v v' : V) (h : k ∉ mkeys acc) :
    mset (acc ++ [(k, v)]) k v' = acc ++ [(k, v')] := by
  induction acc with
  | nil => rw [List.nil_append, mset_cons, if_pos rfl, List.nil_append]
  | cons e acc ih =>
    obtain ⟨k', w⟩ := e
    rw [mkeys_cons, List.mem_cons, not_or] at h
    rw [List.cons_append, mset_cons, if_neg (fun a => h.1 a.symm), ih h.2, List.cons_append]

namespace providers

open configuration examples

/-! ### The pieces of a text and the sections that are written -/

theorem readStrings_ne_nil (text : Str) : readStrings text ≠ [] := by
  induction text with
  | nil => simp [readStrings]
  | cons c cs ih =>
    rw [readStrings]
    split
    · simp
    · split
      · simp
      · simp

theorem readStrings_line (a rest : Str) (h : '\n' ∉ a) :
    readStrings (a ++ '\n' :: rest) = a :: readStrings rest := by
  induction a with
  | nil => simp [readStrings]
  | cons c a ih =>
    have hc : ¬ c = '\n' := by
      intro e; apply h; simp [e]
    have ha : '\n' ∉ a := by
      intro e; apply h; exact List.mem_cons_of_mem _ e
    rw [List.cons_append, readStrings, if_neg hc, ih ha]

theorem written_cons_skip (e : Str × Map Str) (data : Map (Map Str))
    (h : e.1 = DefaultSection ∧ e.2.length = 0) : written (e :: data) = written data := by
  unfold written
  rw [List.filter_cons, if_neg]
  rw [decide_eq_true_iff]
  exact fun a => a h

theorem written_cons_keep (e : Str × Map Str) (data : Map (Map Str))
    (h : ¬ (e.1 = DefaultSection ∧ e.2.length = 0)) :
    written (e :: data) = e :: written data := by
  unfold written
  rw [List.filter_cons, if_pos]
  rw [decide_eq_true_iff]
  exact h

end providers

namespace providers

open configuration examples

/-! ### Trimming -/

theorem TrimSpace_eq_self_of_ends (s : Str)
    (hhead : ∀ c, s.head? = some c → isSpace c = false)
    (hlast : ∀ c, s.getLast? = some c → isSpace c = false) : TrimSpace s = s := by
  unfold TrimSpace
  have h1 : s.dropWhile isSpace = s := by
    cases s with
    | nil => rfl
    | cons c cs =>
      have := hhead c rfl
      rw [List.dropWhile_cons_of_neg (by simp [this])]
  rw [h1]
  have h2 : s.reverse.dropWhile isSpace = s.reverse := by
    cases hr : s.reverse with
    | nil => rfl
    | cons c cs =>
      have hl : s.getLast? = some c := by
        rw [List.getLast?_eq_head?_reverse, hr]; rfl
      have := hlast c hl
      rw [List.dropWhile_cons_of_neg (by simp [this])]
  rw [h2, List.reverse_reverse]

theorem ends_of_TrimSpace_eq_self (s : Str) (h : TrimSpace s = s) :
    (∀ c, s.head? = some c → isSpace c = false)
    ∧ (∀ c, s.getLast? = some c → isSpace c = false) := by
  have hsuf : s.dropWhile isSpace <:+ s := List.dropWhile_suffix isSpace
  have hpre : TrimSpace s <+: s.dropWhile isSpace := by
    unfold TrimSpace
    exact List.rdropWhile_prefix isSpace (s.dropWhile isSpace)
  have hlen : s.length ≤ (s.dropWhile isSpace).length := by
    have := hpre.length_le
    rw [h] at this
    exact this
  have h1 : s.dropWhile isSpace = s := hsuf.eq_of_length_le hlen
  have h2 : List.rdropWhile isSpace s = s := by
    have : TrimSpace s = List.rdropWhile isSpace (s.dropWhile isSpace) := rfl
    rw [h1] at this
    rw [← this, h]
  constructor
  · intro c hc
    cases s with
    | nil => cases hc
    | cons d ds =>
      have hd : d = c := by simpa using hc
      subst hd
      by_contra hsp
      have hsp' : isSpace d = true := by simpa using hsp
      rw [List.dropWhile_cons_of_pos hsp'] at h1
      have := (List.dropWhile_suffix isSpace (l := ds)).length_le
      rw [h1] at this
      simp at this
  · intro c hc
    by_contra hsp
    have hsp' : isSpace c = true := by simpa using hsp
    have hne : s ≠ [] := by
      intro e; rw [e] at hc; cases hc
    have hlast := List.rdropWhile_eq_self_iff.mp h2 hne
    have : s.getLast hne = c := by
      have := List.getLast?_eq_getLast s hne
      rw [this] at hc
      exact Option.some.inj hc
    rw [this] at hlast
    exact hlast hsp'

/-! ### Searching -/

theorem IndexAny_append (o v chars : Str) (d : Char) (ho : ∀ c ∈ o, c ∉ chars)
    (hd : d ∈ chars) : IndexAny (o ++ d :: v) chars = some o.length := by
  induction o with
  | nil => simp [IndexAny, hd]
  | cons c o ih =>
    have hc : c ∉ chars := ho c (List.mem_cons_self _ _)
    rw [List.cons_append, IndexAny, if_neg hc, ih (fun x hx => ho x (List.mem_cons_of_mem _ hx))]
    rfl

end providers

namespace providers

open configuration examples

/-! ### The header line that `write` emits -/

theorem header_line_facts [CaseTable] (k : Str) :
    TrimSpace ('[' :: (k ++ [']'])) = '[' :: (k ++ [']'])
    ∧ skipped ('[' :: (k ++ [']'])) = false
    ∧ header ('[' :: (k ++ [']'])) = true
    ∧ headerName ('[' :: (k ++ [']'])) = TrimSpace k := by
  have hlast : ('[' :: (k ++ [']'])).getLast? = some ']' := by
    rw [← List.cons_append]; exact List.getLast?_concat _
  refine ⟨?_, ?_, ?_, ?_⟩
  · apply TrimSpace_eq_self_of_ends
    · intro c hc
      have : c = '[' := by simpa using hc.symm
      subst this; decide
    · intro c hc
      rw [hlast] at hc
      have : c = ']' := by simpa using hc.symm
      subst this; decide
  · rw [skipped_eq_false_iff]
    refine ⟨by simp, by simp, by simp, ?_⟩
    rintro ⟨_, h⟩
    have hr : "rem".toList = ['r', 'e', 'm'] := rfl
    rw [hr, List.take_succ_cons] at h
    have h' : '['.toLower = 'r' := (List.cons.inj h).1
    exact absurd h' (by decide)
  · rw [header_eq_true_iff]
    exact ⟨rfl, hlast⟩
  · unfold headerName
    have : (('[' :: (k ++ [']'])).take (('[' :: (k ++ [']'])).length - 1)) = '[' :: k := by
      rw [← List.cons_append]
      apply List.take_left'
      simp
    rw [this]
    rfl

theorem readLine_header_line [CaseTable] (st : ReadState) (k : Str) (hk : TrimSpace k = k) :
    readLine st (TrimSpace ('[' :: (k ++ [']'])))
      = .ok { p := (addSection st.p k).1, sect := k, option := [] } := by
  obtain ⟨h1, h2, h3, h4⟩ := header_line_facts k
  rw [h1, readLine_header st _ h2 h3, h4, hk]

end providers

namespace providers

open configuration examples

/-! ### `addSection` and `addOption` on the last section of the data -/

theorem addSection_of_absent [CaseTable] (p : IniConfigProvider) (s : Str)
    (h : mget p.data (ToLower s) = none) :
    addSection p s = ({ p with data := mset p.data (ToLower s) [] }, true) := by
  unfold addSection
  simp only [h]

theorem addSection_of_present [CaseTable] (p : IniConfigProvider) (s : Str) (m : Map Str)
    (h : mget p.data (ToLower s) = some m) : addSection p s = (p, false) := by
  unfold addSection
  simp only [h]

theorem addOption_last_section [CaseTable]
    (p : IniConfigProvider) (acc : Map (Map Str)) (k o v : Str)
    (m0 : Map Str) (hdata : p.data = acc ++ [(k, m0)]) (hk : k ∉ mkeys acc)
    (hklow : ToLower k = k) (holow : ToLower o = o) (ho : o ∉ mkeys m0) :
    (addOption p k o v).1 = { p with data := acc ++ [(k, m0 ++ [(o, v)])] } := by
  have hget : mget p.data (ToLower k) = some m0 := by
    rw [hklow, hdata]; exact mget_append_last acc k m0 hk
  unfold addOption
  simp only [addSection_of_present p k m0 hget, hklow, holow]
  unfold assignOption
  rw [hklow] at hget
  simp only [hget]
  rw [hdata, mset_append_last acc k m0 _ hk, mset_of_not_mem m0 o v ho]

end providers

/-! ### More on maps -/

theorem mem_mset {V : Type} (m : Map V) (k : Str) (v : V) (e : Str × V)
    (h : e ∈ mset m k v) : e = (k, v) ∨ e ∈ m := by
  induction m with
  | nil =>
    rw [mset_nil] at h
    exact Or.inl (List.mem_singleton.mp h)
  | cons e' m ih =>
    obtain ⟨k', v'⟩ := e'
    rw [mset_cons] at h
    by_cases hk : k' = k
    · rw [if_pos hk] at h
      rcases List.mem_cons.mp h with a | a
      · exact Or.inl a
      · exact Or.inr (List.mem_cons_of_mem _ a)
    · rw [if_neg hk] at h
      rcases List.mem_cons.mp h with a | a
      · exact Or.inr (a ▸ List.mem_cons_self _ _)
      · rcases ih a with b | b
        · exact Or.inl b
        · exact Or.inr (List.mem_cons_of_mem _ b)

theorem mkeys_mset_of_mem {V : Type} (m : Map V) (k : Str) (v : V) (h : k ∈ mkeys m) :
    mkeys (mset m k v) = mkeys m := by
  induction m with
  | nil => exact absurd h (List.not_mem_nil k)
  | cons e' m ih =>
    obtain ⟨k', v'⟩ := e'
    rw [mset_cons]
    by_cases hk : k' = k
    · rw [if_pos hk, mkeys_cons, mkeys_cons, hk]
    · rw [if_neg hk, mkeys_cons, mkeys_cons]
      rw [mkeys_cons] at h
      rcases List.mem_cons.mp h with a | a
      · exact absurd a.symm hk
      · rw [ih a]

theorem nodup_mkeys_mset {V : Type} (m : Map V) (k : Str) (v : V) (h : (mkeys m).Nodup) :
    (mkeys (mset m k v)).Nodup := by
  by_cases hk : k ∈ mkeys m
  · rw [mkeys_mset_of_mem m k v hk]; exact h
  · rw [mset_of_not_mem m k v hk, mkeys_append]
    refine List.nodup_append.mpr ⟨h, List.nodup_singleton k, ?_⟩
    intro a ha hb
    have : a = k := List.mem_singleton.mp hb
    subst this
    exact hk ha

theorem mem_of_mget {V : Type} (m : Map V) (k : Str) (v : V) (h : mget m k = some v) :
    (k, v) ∈ m := by
  induction m with
  | nil => rw [mget_nil] at h; cases h
  | cons e' m ih =>
    obtain ⟨k', v'⟩ := e'
    rw [mget_cons] at h
    by_cases hk : k' = k
    · rw [if_pos hk] at h
      cases h
      rw [hk]
      exact List.mem_cons_self _ _
    · rw [if_neg hk] at h
      exact List.mem_cons_of_mem _ (ih h)

theorem mem_mkeys_of_mget {V : Type} (m : Map V) (k : Str) (v : V) (h : mget m k = some v) :
    k ∈ mkeys m := by
  by_contra hk
  rw [(mget_eq_none_iff m k).mpr hk] at h
  cases h

namespace providers

open configuration examples

/-! ### Lookups under `addSection` and `addOption` -/

theorem lookupOption_addSection [CaseTable] (p : IniConfigProvider) (s s' o : Str) :
    lookupOption (addSection p s).1 s' o = lookupOption p s' o := by
  cases h : mget p.data (ToLower s) with
  | some m => rw [addSection_of_present p s m h]
  | none =>
    rw [addSection_of_absent p s h]
    unfold lookupOption
    by_cases hs : s' = ToLower s
    · subst hs
      simp only [mget_mset_self, h, mget_nil]
    · simp only [mget_mset_ne _ _ _ _ hs]

theorem mget_addSection_self [CaseTable] (p : IniConfigProvider) (s : Str) :
    ∃ m, mget (addSection p s).1.data (ToLower s) = some m := by
  cases h : mget p.data (ToLower s) with
  | some m => rw [addSection_of_present p s m h]; exact ⟨m, h⟩
  | none =>
    rw [addSection_of_absent p s h]
    exact ⟨[], mget_mset_self _ _ _⟩

theorem lookupOption_addOption_self [CaseTable] (p : IniConfigProvider) (s o v : Str) :
    lookupOption (addOption p s o v).1 (ToLower s) (ToLower o) = some v := by
  obtain ⟨m, hm⟩ := mget_addSection_self p s
  unfold addOption assignOption lookupOption
  simp only [hm, mget_mset_self]

theorem lookupOption_addOption_ne [CaseTable] (p : IniConfigProvider) (s o v s' o' : Str)
    (hne : ¬ (s' = ToLower s ∧ o' = ToLower o)) :
    lookupOption (addOption p s o v).1 s' o' = lookupOption p s' o' := by
  obtain ⟨m, hm⟩ := mget_addSection_self p s
  rw [← lookupOption_addSection p s s' o']
  unfold addOption assignOption lookupOption
  simp only [hm]
  by_cases hs : s' = ToLower s
  · subst hs
    have ho : o' ≠ ToLower o := fun a => hne ⟨rfl, a⟩
    simp only [mget_mset_self, hm, mget_mset_ne _ _ _ _ ho]
  · simp only [mget_mset_ne _ _ _ _ hs]

theorem found_addOption [CaseTable] (p : IniConfigProvider) (s o v s' o' : Str)
    (h : (lookupOption p s' o').isSome = true) :
    (lookupOption (addOption p s o v).1 s' o').isSome = true := by
  by_cases hne : s' = ToLower s ∧ o' = ToLower o
  · rw [hne.1, hne.2, lookupOption_addOption_self]; rfl
  · rw [lookupOption_addOption_ne p s o v s' o' hne]; exact h

end providers

namespace providers

open configuration examples

/-! ### The seeding loops of `Initialize` -/

theorem seedItems_nil [CaseTable]
    (s : Str) (acc : IniConfigProvider × Bool) : seedItems s acc [] = acc := rfl

theorem seedItems_cons_found [CaseTable] (s : Str) (acc : IniConfigProvider × Bool)
    (e : Str × ConfigurationItem) (items : Map ConfigurationItem)
    (h : (lookupOption acc.1 s e.2.GetName).isSome = true) :
    seedItems s acc (e :: items) = seedItems s acc items := by
  obtain ⟨x, hx⟩ := Option.isSome_iff_exists.mp h
  unfold seedItems
  rw [List.foldl_cons]
  simp only [hx]

theorem seedItems_cons_missing [CaseTable] (s : Str) (acc : IniConfigProvider × Bool)
    (e : Str × ConfigurationItem) (items : Map ConfigurationItem)
    (h : lookupOption acc.1 s e.2.GetName = none) :
    seedItems s acc (e :: items)
      = seedItems s
          ((addOption acc.1 s e.2.GetName (formatValue e.2.GetDefaultValue)).1, true) items := by
  unfold seedItems
  rw [List.foldl_cons]
  simp only [h]

theorem seedSections_nil [CaseTable]
    (acc : IniConfigProvider × Bool) : seedSections acc [] = acc := rfl

theorem seedSections_cons [CaseTable]
    (acc : IniConfigProvider × Bool) (e : Str × Map ConfigurationItem)
    (collection : ConfigurationItemCollection) :
    seedSections acc (e :: collection)
      = seedSections (seedItems e.1 ((addSection acc.1 e.1).1, acc.2) e.2) collection := rfl

theorem seedItems_of_found [CaseTable] (s : Str) (items : Map ConfigurationItem)
    (acc : IniConfigProvider × Bool)
    (h : ∀ it ∈ items, (lookupOption acc.1 s it.2.GetName).isSome = true) :
    seedItems s acc items = acc := by
  induction items with
  | nil => rfl
  | cons e items ih =>
    rw [seedItems_cons_found s acc e items (h e (List.mem_cons_self _ _))]
    exact ih (fun it hit => h it (List.mem_cons_of_mem _ hit))

theorem seedSections_of_found [CaseTable] (collection : ConfigurationItemCollection)
    (acc : IniConfigProvider × Bool)
    (h : ∀ e ∈ collection, ∀ it ∈ e.2, (lookupOption acc.1 e.1 it.2.GetName).isSome = true) :
    (seedSections acc collection).2 = acc.2
    ∧ ∀ s o, lookupOption (seedSections acc collection).1 s o = lookupOption acc.1 s o := by
  induction collection generalizing acc with
  | nil => exact ⟨rfl, fun _ _ => rfl⟩
  | cons e collection ih =>
    have hitems : seedItems e.1 ((addSection acc.1 e.1).1, acc.2) e.2
        = ((addSection acc.1 e.1).1, acc.2) := by
      apply seedItems_of_found
      intro it hit
      simp only [lookupOption_addSection]
      exact h e (List.mem_cons_self _ _) it hit
    rw [seedSections_cons, hitems]
    obtain ⟨h1, h2⟩ := ih ((addSection acc.1 e.1).1, acc.2) (by
      intro e' he' it hit
      simp only [lookupOption_addSection]
      exact h e' (List.mem_cons_of_mem _ he') it hit)
    refine ⟨h1, ?_⟩
    intro s o
    rw [h2 s o]
    exact lookupOption_addSection acc.1 e.1 s o

theorem seedItems_flag_true [CaseTable]
    (s : Str) (items : Map ConfigurationItem) (p : IniConfigProvider) :
    (seedItems s (p, true) items).2 = true := by
  induction items generalizing p with
  | nil => rfl
  | cons e items ih =>
    cases h : lookupOption p s e.2.GetName with
    | some x =>
      rw [seedItems_cons_found s (p, true) e items (by simp [h])]
      exact ih p
    | none =>
      rw [seedItems_cons_missing s (p, true) e items h]
      exact ih _

theorem seedSections_flag_true [CaseTable] (collection : ConfigurationItemCollection)
    (p : IniConfigProvider) : (seedSections (p, true) collection).2 = true := by
  induction collection generalizing p with
  | nil => rfl
  | cons e collection ih =>
    rw [seedSections_cons]
    have h := seedItems_flag_true e.1 e.2 (addSection p e.1).1
    have e2 : seedItems e.1 ((addSection p e.1).1, true) e.2
        = ((seedItems e.1 ((addSection p e.1).1, true) e.2).1, true) :=
      Prod.ext rfl h
    rw [show ((addSection (p, true).1 e.1).1, (p, true).2) = ((addSection p e.1).1, true) from rfl,
      e2]
    exact ih _

theorem seedItems_of_flag_false [CaseTable] (s : Str) (items : Map ConfigurationItem)
    (acc : IniConfigProvider × Bool) (h : (seedItems s acc items).2 = false) :
    seedItems s acc items = acc := by
  induction items with
  | nil => rfl
  | cons e items ih =>
    cases hl : lookupOption acc.1 s e.2.GetName with
    | some x =>
      have hf : (lookupOption acc.1 s e.2.GetName).isSome = true := by simp [hl]
      rw [seedItems_cons_found s acc e items hf] at h ⊢
      exact ih h
    | none =>
      rw [seedItems_cons_missing s acc e items hl, seedItems_flag_true] at h
      cases h

theorem seedSections_of_flag_false [CaseTable] (collection : ConfigurationItemCollection)
    (acc : IniConfigProvider × Bool) (h : (seedSections acc collection).2 = false) :
    ∀ s o, lookupOption (seedSections acc collection).1 s o = lookupOption acc.1 s o := by
  induction collection generalizing acc with
  | nil => exact fun _ _ => rfl
  | cons e collection ih =>
    rw [seedSections_cons] at h ⊢
    have hflag : (seedItems e.1 ((addSection acc.1 e.1).1, acc.2) e.2).2 = false := by
      cases hb : (seedItems e.1 ((addSection acc.1 e.1).1, acc.2) e.2).2 with
      | false => rfl
      | true =>
        have e2 : seedItems e.1 ((addSection acc.1 e.1).1, acc.2) e.2
            = ((seedItems e.1 ((addSection acc.1 e.1).1, acc.2) e.2).1, true) :=
          Prod.ext rfl hb
        rw [e2, seedSections_flag_true] at h
        cases h
    have hitems := seedItems_of_flag_false e.1 e.2 _ hflag
    rw [hitems] at h ⊢
    intro s o
    rw [ih _ h s o]
    exact lookupOption_addSection acc.1 e.1 s o

theorem seedItems_mono [CaseTable] (s : Str) (items : Map ConfigurationItem)
    (acc : IniConfigProvider × Bool) (s' o' : Str)
    (h : (lookupOption acc.1 s' o').isSome = true) :
    (lookupOption (seedItems s acc items).1 s' o').isSome = true := by
  induction items generalizing acc with
  | nil => exact h
  | cons e items ih =>
    cases hl : lookupOption acc.1 s e.2.GetName with
    | some x =>
      rw [seedItems_cons_found s acc e items (by simp [hl])]
      exact ih acc h
    | none =>
      rw [seedItems_cons_missing s acc e items hl]
      exact ih _ (found_addOption acc.1 s _ _ s' o' h)

theorem seedSections_mono [CaseTable] (collection : ConfigurationItemCollection)
    (acc : IniConfigProvider × Bool) (s' o' : Str)
    (h : (lookupOption acc.1 s' o').isSome = true) :
    (lookupOption (seedSections acc collection).1 s' o').isSome = true := by
  induction collection generalizing acc with
  | nil => exact h
  | cons e collection ih =>
    rw [seedSections_cons]
    apply ih
    apply seedItems_mono
    simp only [lookupOption_addSection]
    exact h

end providers

namespace providers

open configuration examples

/-! ### Lookups in the written sections -/

theorem not_mem_mkeys_written (data : Map (Map Str)) (s : Str) (h : s ∉ mkeys data) :
    s ∉ mkeys (written data) := by
  intro hmem
  apply h
  unfold mkeys written at hmem
  obtain ⟨e, he, rfl⟩ := List.mem_map.mp hmem
  exact List.mem_map.mpr ⟨e, (List.mem_filter.mp he).1, rfl⟩

theorem lookupOption_written (p q : IniConfigProvider) (hq : q.data = written p.data)
    (hnd : (mkeys p.data).Nodup) (s o : Str) : lookupOption q s o = lookupOption p s o := by
  unfold lookupOption
  rw [hq]
  generalize p.data = data at hnd
  induction data with
  | nil => rfl
  | cons e data ih =>
    obtain ⟨k, m⟩ := e
    rw [mkeys_cons, List.nodup_cons] at hnd
    by_cases hskip : (k, m).1 = DefaultSection ∧ (k, m).2.length = 0
    · rw [written_cons_skip _ data hskip, mget_cons]
      by_cases hk : k = s
      · rw [if_pos hk]
        have hnone : mget (written data) s = none := by
          rw [mget_eq_none_iff]
          apply not_mem_mkeys_written
          rw [← hk]; exact hnd.1
        have hm : m = [] := List.length_eq_zero.mp hskip.2
        rw [hnone, hm]
        rfl
      · rw [if_neg hk]
        exact ih hnd.2
    · rw [written_cons_keep _ data hskip, mget_cons, mget_cons]
      by_cases hk : k = s
      · rw [if_pos hk, if_pos hk]
      · rw [if_neg hk, if_neg hk]
        exact ih hnd.2

/-! ### `Initialize` and its call of `read` -/

theorem Initialize_of_read [CaseTable] (p p' : IniConfigProvider) (file : Str)
    (collection : ConfigurationItemCollection) (h : read p file = (p', none)) :
    Initialize p file collection
      = .ret { p := (seedSections (p', false) collection).1,
               file := if (seedSections (p', false) collection).2
                 then write (seedSections (p', false) collection).1 else file,
               newItemsAdded := (seedSections (p', false) collection).2 } := by
  unfold Initialize
  rw [h]

theorem Initialize_ret_read [CaseTable] (p : IniConfigProvider) (file : Str)
    (collection : ConfigurationItemCollection) (r : Initialized)
    (h : Initialize p file collection = .ret r) : (read p file).2 = none := by
  unfold Initialize at h
  cases hr : read p file with
  | mk p' err =>
    cases err with
    | none => rfl
    | some e => rw [hr] at h; cases h

end providers

namespace providers

open configuration examples

/-! ### `stripComments`, pass by pass -/

theorem stripComments_eq_foldl (l : Str) :
    stripComments l = commentMarkers.foldl cutAtMarker l := rfl

theorem Index_nil (m : Str) (hm : m ≠ []) : Index [] m = none := by
  rw [Index, if_neg hm]

theorem cutAtMarker_nil (m : Str) (hm : m ≠ []) : cutAtMarker [] m = [] := by
  unfold cutAtMarker
  rw [Index_nil m hm]

theorem cutAtMarker_cons_of_not_start (c : Char) (cs m : Str) (h : ¬ m <+: c :: cs) :
    cutAtMarker (c :: cs) m = c :: cutAtMarker cs m := by
  unfold cutAtMarker
  rw [Index, if_neg h]
  cases Index cs m with
  | none => rfl
  | some i => rfl

theorem cutAtMarker_of_start (l m : Str) (hl : l ≠ []) (h : m <+: l) : cutAtMarker l m = [] := by
  unfold cutAtMarker
  cases l with
  | nil => exact absurd rfl hl
  | cons c cs => rw [Index, if_pos h]; rfl

theorem cutAtMarker_initial (l m : Str) : cutAtMarker l m <+: l := by
  unfold cutAtMarker
  cases Index l m with
  | none => exact List.prefix_refl l
  | some i => exact List.take_prefix i l

theorem foldl_cutAtMarker_nil (M : List Str) (hM : ∀ m ∈ M, m ≠ []) :
    M.foldl cutAtMarker [] = [] := by
  induction M with
  | nil => rfl
  | cons m M ih =>
    rw [List.foldl_cons, cutAtMarker_nil m (hM m (List.mem_cons_self _ _))]
    exact ih (fun x hx => hM x (List.mem_cons_of_mem _ hx))

theorem foldl_cutAtMarker_cons (M : List Str) (c : Char) (cs : Str)
    (h : ∀ m ∈ M, ¬ m <+: c :: cs) :
    M.foldl cutAtMarker (c :: cs) = c :: M.foldl cutAtMarker cs := by
  induction M generalizing cs with
  | nil => rfl
  | cons m M ih =>
    rw [List.foldl_cons, List.foldl_cons,
      cutAtMarker_cons_of_not_start c cs m (h m (List.mem_cons_self _ _))]
    apply ih
    intro m' hm' hpre
    apply h m' (List.mem_cons_of_mem _ hm')
    exact hpre.trans ((List.prefix_cons_inj c).mpr (cutAtMarker_initial cs m))

end providers

namespace providers

open configuration examples

theorem commentMarkers_eq :
    commentMarkers = [[' ', ';'], ['\t', ';'], [' ', '#'], ['\t', '#']] := rfl

theorem cutAtMarker_two (a b a' b' : Char) (y : Str) (hab : a' ≠ b) :
    cutAtMarker (a :: b :: y) [a', b']
      = if a' = a ∧ b' = b then [] else a :: b :: cutAtMarker y [a', b'] := by
  by_cases h : a' = a ∧ b' = b
  · rw [if_pos h, h.1, h.2]
    exact cutAtMarker_of_start _ _ (by simp) (by simp)
  · rw [if_neg h]
    have h1 : ¬ [a', b'] <+: a :: b :: y := by
      intro hp
      rw [List.cons_prefix_cons, List.cons_prefix_cons] at hp
      exact h ⟨hp.1, hp.2.1⟩
    have h2 : ¬ [a', b'] <+: b :: y := by
      intro hp
      rw [List.cons_prefix_cons] at hp
      exact hab hp.1
    rw [cutAtMarker_cons_of_not_start a _ _ h1, cutAtMarker_cons_of_not_start b _ _ h2]

theorem stripComments_of_marker_start (l : Str) (h : markerAt l 0) : stripComments l = [] := by
  obtain ⟨m, hm, hpre⟩ := h
  rw [List.drop_zero] at hpre
  rw [commentMarkers_eq] at hm
  rw [stripComments_eq_foldl, commentMarkers_eq]
  have hnil : ∀ a' b' : Char, cutAtMarker [] [a', b'] = [] :=
    fun a' b' => cutAtMarker_nil _ (by simp)
  simp only [List.mem_cons, List.mem_singleton, List.not_mem_nil, or_false] at hm
  rcases hm with rfl | rfl | rfl | rfl
  all_goals
    obtain ⟨y, rfl⟩ := hpre
    simp only [List.foldl_cons, List.foldl_nil, List.cons_append, List.nil_append]
    rw [cutAtMarker_two _ _ _ _ _ (by decide)]
    simp +decide [cutAtMarker_two, hnil]

end providers

namespace providers

open configuration examples

theorem stripComments_nil : stripComments [] = [] := by
  rw [stripComments_eq_foldl]
  apply foldl_cutAtMarker_nil
  intro m hm
  rw [commentMarkers_eq] at hm
  simp only [List.mem_cons, List.mem_singleton, List.not_mem_nil, or_false] at hm
  rcases hm with rfl | rfl | rfl | rfl <;> simp

theorem stripComments_cons_of_no_marker (c : Char) (cs : Str) (h : ¬ markerAt (c :: cs) 0) :
    stripComments (c :: cs) = c :: stripComments cs := by
  rw [stripComments_eq_foldl, stripComments_eq_foldl]
  apply foldl_cutAtMarker_cons
  intro m hm hpre
  exact h ⟨m, hm, by rw [List.drop_zero]; exact hpre⟩

theorem markerAt_cons_succ (c : Char) (cs : Str) (i : Nat) :
    markerAt (c :: cs) (i + 1) ↔ markerAt cs i := by
  unfold markerAt
  rw [List.drop_succ_cons]

theorem leftmostMarker_cons_of_marker (c : Char) (cs : Str) (h : markerAt (c :: cs) 0) :
    leftmostMarker (c :: cs) = some 0 := by
  rw [leftmostMarker, if_pos h]

theorem leftmostMarker_cons_of_no_marker (c : Char) (cs : Str) (h : ¬ markerAt (c :: cs) 0) :
    leftmostMarker (c :: cs) = (leftmostMarker cs).map (· + 1) := by
  rw [leftmostMarker, if_neg h]

theorem not_markerAt_nil (i : Nat) : ¬ markerAt [] i := by
  rintro ⟨m, hm, hpre⟩
  rw [List.drop_nil] at hpre
  have := List.prefix_nil.mp hpre
  subst this
  rw [commentMarkers_eq] at hm
  simp at hm

theorem leftmostMarker_eq_some_iff (l : Str) (i : Nat) :
    leftmostMarker l = some i ↔ (markerAt l i ∧ ∀ j, j < i → ¬ markerAt l j) := by
  induction l generalizing i with
  | nil =>
    constructor
    · intro h; cases h
    · intro h; exact absurd h.1 (not_markerAt_nil i)
  | cons c cs ih =>
    by_cases h0 : markerAt (c :: cs) 0
    · rw [leftmostMarker_cons_of_marker c cs h0]
      constructor
      · intro h
        have : i = 0 := (Option.some.inj h).symm
        subst this
        exact ⟨h0, fun j hj => absurd hj (Nat.not_lt_zero j)⟩
      · rintro ⟨_, h2⟩
        cases i with
        | zero => rfl
        | succ i => exact absurd h0 (h2 0 (Nat.succ_pos i))
    · rw [leftmostMarker_cons_of_no_marker c cs h0]
      cases i with
      | zero =>
        constructor
        · intro h
          cases hl : leftmostMarker cs with
          | none => rw [hl] at h; cases h
          | some k => rw [hl] at h; cases h
        · intro h; exact absurd h.1 h0
      | succ i =>
        rw [markerAt_cons_succ]
        constructor
        · intro h
          have hl : leftmostMarker cs = some i := by
            cases hl : leftmostMarker cs with
            | none => rw [hl] at h; cases h
            | some k =>
              rw [hl] at h
              have : k + 1 = i + 1 := Option.some.inj h
              rw [Nat.succ.inj this]
          obtain ⟨h1, h2⟩ := (ih i).mp hl
          refine ⟨h1, ?_⟩
          intro j hj
          cases j with
          | zero => exact h0
          | succ j =>
            rw [markerAt_cons_succ]
            exact h2 j (Nat.lt_of_succ_lt_succ hj)
        · rintro ⟨h1, h2⟩
          have hl : leftmostMarker cs = some i := by
            rw [ih i]
            refine ⟨h1, ?_⟩
            intro j hj
            have := h2 (j + 1) (Nat.succ_lt_succ hj)
            rwa [markerAt_cons_succ] at this
          rw [hl]
          rfl

theorem leftmostMarker_eq_none_iff (l : Str) :
    leftmostMarker l = none ↔ ∀ i, ¬ markerAt l i := by
  induction l with
  | nil => exact ⟨fun _ i => not_markerAt_nil i, fun _ => rfl⟩
  | cons c cs ih =>
    by_cases h0 : markerAt (c :: cs) 0
    · rw [leftmostMarker_cons_of_marker c cs h0]
      constructor
      · intro h; cases h
      · intro h; exact absurd h0 (h 0)
    · rw [leftmostMarker_cons_of_no_marker c cs h0]
      constructor
      · intro h i
        have hl : leftmostMarker cs = none := by
          cases hl : leftmostMarker cs with
          | none => rfl
          | some k => rw [hl] at h; cases h
        cases i with
        | zero => exact h0
        | succ i =>
          rw [markerAt_cons_succ]
          exact ih.mp hl i
      · intro h
        have hl : leftmostMarker cs = none := by
          rw [ih]
          intro i
          have := h (i + 1)
          rwa [markerAt_cons_succ] at this
        rw [hl]
        rfl

theorem truncateAtLeftmostMarker_nil : truncateAtLeftmostMarker [] = [] := rfl

theorem truncateAtLeftmostMarker_cons_of_marker (c : Char) (cs : Str)
    (h : markerAt (c :: cs) 0) : truncateAtLeftmostMarker (c :: cs) = [] := by
  unfold truncateAtLeftmostMarker
  rw [leftmostMarker_cons_of_marker c cs h]
  rfl

theorem truncateAtLeftmostMarker_cons_of_no_marker (c : Char) (cs : Str)
    (h : ¬ markerAt (c :: cs) 0) :
    truncateAtLeftmostMarker (c :: cs) = c :: truncateAtLeftmostMarker cs := by
  unfold truncateAtLeftmostMarker
  rw [leftmostMarker_cons_of_no_marker c cs h]
  cases leftmostMarker cs with
  | none => rfl
  | some i => rfl

/-- The four passes of `stripComments` together cut at the leftmost marker. -/
theorem stripComments_eq_truncate (l : Str) :
    stripComments l = truncateAtLeftmostMarker l := by
  induction l with
  | nil => exact stripComments_nil
  | cons c cs ih =>
    by_cases h0 : markerAt (c :: cs) 0
    · rw [stripComments_of_marker_start _ h0, truncateAtLeftmostMarker_cons_of_marker c cs h0]
    · rw [stripComments_cons_of_no_marker c cs h0,
        truncateAtLeftmostMarker_cons_of_no_marker c cs h0, ih]

theorem truncateAtLeftmostMarker_initial (l : Str) : truncateAtLeftmostMarker l <+: l := by
  unfold truncateAtLeftmostMarker
  cases leftmostMarker l with
  | none => exact List.prefix_refl l
  | some i => exact List.take_prefix i l

theorem markerAt_zero_of_longer (c : Char) (x cs : Str) (hx : x <+: cs)
    (h : markerAt (c :: x) 0) : markerAt (c :: cs) 0 := by
  obtain ⟨m, hm, hpre⟩ := h
  rw [List.drop_zero] at hpre
  refine ⟨m, hm, ?_⟩
  rw [List.drop_zero]
  exact hpre.trans ((List.prefix_cons_inj c).mpr hx)

theorem leftmostMarker_truncate (l : Str) :
    leftmostMarker (truncateAtLeftmostMarker l) = none := by
  induction l with
  | nil => rfl
  | cons c cs ih =>
    by_cases h0 : markerAt (c :: cs) 0
    · rw [truncateAtLeftmostMarker_cons_of_marker c cs h0]
      rfl
    · rw [truncateAtLeftmostMarker_cons_of_no_marker c cs h0]
      have h1 : ¬ markerAt (c :: truncateAtLeftmostMarker cs) 0 := fun h =>
        h0 (markerAt_zero_of_longer c _ cs (truncateAtLeftmostMarker_initial cs) h)
      rw [leftmostMarker_cons_of_no_marker c _ h1, ih]
      rfl

theorem stripComments_no_marker (l : Str) (i : Nat) : ¬ markerAt (stripComments l) i := by
  rw [stripComments_eq_truncate]
  exact (leftmostMarker_eq_none_iff _).mp (leftmostMarker_truncate l) i

theorem stripComments_of_no_marker (l : Str) (h : ∀ i, ¬ markerAt l i) :
    stripComments l = l := by
  rw [stripComments_eq_truncate]
  unfold truncateAtLeftmostMarker
  rw [(leftmostMarker_eq_none_iff l).mpr h]

theorem stripComments_idempotent (l : Str) :
    stripComments (stripComments l) = stripComments l :=
  stripComments_of_no_marker _ (stripComments_no_marker l)

/-- C17: `stripComments` truncates at the leftmost marker.  If a marker occurs
at index `i` and none occurs before `i`, the result is the prefix of length
`i`; if no marker occurs, the result is the argument; in both cases it is the
truncation at the leftmost marker in the words of the specification.  The
result holds no marker, and `stripComments` is idempotent. -/
theorem stripComments_truncates_at_leftmost_marker (l : Str) :
    (∀ i, markerAt l i → (∀ j, j < i → ¬ markerAt l j) → stripComments l = l.take i)
    ∧ ((∀ i, ¬ markerAt l i) → stripComments l = l)
    ∧ stripComments l = truncateAtLeftmostMarker l
    ∧ (∀ i, ¬ markerAt (stripComments l) i)
    ∧ stripComments (stripComments l) = stripComments l := by
  refine ⟨?_, stripComments_of_no_marker l, stripComments_eq_truncate l,
    stripComments_no_marker l, stripComments_idempotent l⟩
  intro i h1 h2
  rw [stripComments_eq_truncate]
  unfold truncateAtLeftmostMarker
  rw [(leftmostMarker_eq_some_iff l i).mpr ⟨h1, h2⟩]

theorem stripComments_truncates_at_leftmost_marker_witness :
    stripComments "a#b;c\t# one ; two".toList = "a#b;c".toList
    ∧ stripComments "no;marker#here".toList = "no;marker#here".toList :=
  ⟨(stripComments_truncates_at_leftmost_marker "a#b;c\t# one ; two".toList).1 5
      (by decide) (by decide),
   (stripComments_truncates_at_leftmost_marker "no;marker#here".toList).2.1 (by
      intro i
      have h := (leftmostMarker_eq_none_iff "no;marker#here".toList).mp (by decide)
      exact h i)⟩

end providers

namespace providers

open configuration examples

/-! ### Trimming and stripping a raw line -/

theorem TrimSpace_append_space (x : Str) (c : Char) (hc : isSpace c = true) :
    TrimSpace (x ++ [c]) = TrimSpace x := by
  unfold TrimSpace
  by_cases hall : ∀ a ∈ x, isSpace a = true
  · have h1 : List.dropWhile isSpace x = [] := by
      simpa [List.dropWhile_eq_nil_iff] using hall
    have h2 : List.dropWhile isSpace (x ++ [c]) = [] := by
      rw [List.dropWhile_eq_nil_iff]
      intro a ha
      rcases List.mem_append.mp ha with ha | ha
      · exact hall a ha
      · have : a = c := by simpa using ha
        subst this; exact hc
    rw [h1, h2]
  · have h1 : List.dropWhile isSpace x ≠ [] := by
      intro h; exact hall (List.dropWhile_eq_nil_iff.mp h)
    have h2 : List.dropWhile isSpace (x ++ [c]) = List.dropWhile isSpace x ++ [c] := by
      rw [List.dropWhile_append]
      simp [h1]
    rw [h2, List.reverse_append]
    simp [List.dropWhile, hc]

theorem TrimSpace_append_spaces (z x : Str) (hz : ∀ c ∈ z, isSpace c = true) :
    TrimSpace (x ++ z) = TrimSpace x := by
  induction z generalizing x with
  | nil => rw [List.append_nil]
  | cons c z ih =>
    have e : x ++ c :: z = (x ++ [c]) ++ z := by simp
    rw [e, ih (x ++ [c]) (fun d hd => hz d (List.mem_cons_of_mem _ hd)),
      TrimSpace_append_space x c (hz c (List.mem_cons_self _ _))]

theorem TrimSpace_spaces_append (w y : Str) (hw : ∀ c ∈ w, isSpace c = true) :
    TrimSpace (w ++ y) = TrimSpace y := by
  unfold TrimSpace
  rw [List.dropWhile_append_of_pos hw]

theorem rdropWhile_append_rest (u : Str) :
    ∃ z, u = List.rdropWhile isSpace u ++ z ∧ ∀ c ∈ z, isSpace c = true := by
  induction u using List.reverseRecOn with
  | nil => exact ⟨[], rfl, fun c hc => absurd hc (List.not_mem_nil c)⟩
  | append_singleton u x ih =>
    by_cases hx : isSpace x = true
    · obtain ⟨z, hz1, hz2⟩ := ih
      refine ⟨z ++ [x], ?_, ?_⟩
      · rw [List.rdropWhile_concat_pos _ _ _ hx, ← List.append_assoc, ← hz1]
      · intro c hc
        rcases List.mem_append.mp hc with h | h
        · exact hz2 c h
        · have : c = x := by simpa using h
          subst this; exact hx
    · refine ⟨[], ?_, fun c hc => absurd hc (List.not_mem_nil c)⟩
      rw [List.rdropWhile_concat_neg _ _ _ hx, List.append_nil]

/-- A raw line is its trimmed form between two runs of white space. -/
theorem TrimSpace_decompose (b : Str) :
    ∃ w z, b = w ++ (TrimSpace b ++ z) ∧ (∀ c ∈ w, isSpace c = true)
      ∧ (∀ c ∈ z, isSpace c = true) := by
  obtain ⟨z, hz1, hz2⟩ := rdropWhile_append_rest (b.dropWhile isSpace)
  refine ⟨b.takeWhile isSpace, z, ?_, fun c hc => List.mem_takeWhile_imp hc, hz2⟩
  have e : TrimSpace b = List.rdropWhile isSpace (b.dropWhile isSpace) := rfl
  rw [e, ← hz1, List.takeWhile_append_dropWhile]

theorem head_of_markerAt_zero (c : Char) (x : Str) (h : markerAt (c :: x) 0) :
    x.head? = some ';' ∨ x.head? = some '#' := by
  obtain ⟨m, hm, hpre⟩ := h
  rw [List.drop_zero] at hpre
  rw [commentMarkers_eq] at hm
  simp only [List.mem_cons, List.mem_singleton, List.not_mem_nil, or_false] at hm
  rcases hm with rfl | rfl | rfl | rfl
  all_goals
    rw [List.cons_prefix_cons] at hpre
    obtain ⟨y, hy⟩ := hpre.2
    rw [← hy]
    simp

theorem not_space_marker_char : isSpace ';' = false ∧ isSpace '#' = false := by decide

theorem head_spaces_append (w u : Str) (hw : ∀ c ∈ w, isSpace c = true)
    (hu : u.head? ≠ some ';' ∧ u.head? ≠ some '#') :
    (w ++ u).head? ≠ some ';' ∧ (w ++ u).head? ≠ some '#' := by
  cases w with
  | nil => exact hu
  | cons c w =>
    have hc := hw c (List.mem_cons_self _ _)
    constructor
    · intro h
      have : c = ';' := by simpa using h
      rw [this, not_space_marker_char.1] at hc
      cases hc
    · intro h
      have : c = '#' := by simpa using h
      rw [this, not_space_marker_char.2] at hc
      cases hc

theorem stripComments_spaces_append (w u : Str) (hw : ∀ c ∈ w, isSpace c = true)
    (hu : u.head? ≠ some ';' ∧ u.head? ≠ some '#') :
    stripComments (w ++ u) = w ++ stripComments u := by
  induction w with
  | nil => rfl
  | cons c w ih =>
    have hw' : ∀ d ∈ w, isSpace d = true := fun d hd => hw d (List.mem_cons_of_mem _ hd)
    have hhead := head_spaces_append w u hw' hu
    have h0 : ¬ markerAt (c :: (w ++ u)) 0 := by
      intro h
      rcases head_of_markerAt_zero c _ h with a | a
      · exact hhead.1 a
      · exact hhead.2 a
    rw [List.cons_append, stripComments_cons_of_no_marker c _ h0, ih hw', List.cons_append]

theorem stripComments_append_spaces (t z : Str) (hz : ∀ c ∈ z, isSpace c = true) :
    ∃ z', stripComments (t ++ z) = stripComments t ++ z' ∧ ∀ c ∈ z', isSpace c = true := by
  induction t with
  | nil =>
    refine ⟨z, ?_, hz⟩
    have := stripComments_spaces_append z [] hz (by simp)
    rw [List.append_nil, stripComments_nil, List.append_nil] at this
    rw [List.nil_append, this, stripComments_nil, List.nil_append]
  | cons c t ih =>
    by_cases h0 : markerAt (c :: t) 0
    · refine ⟨[], ?_, fun c hc => absurd hc (List.not_mem_nil c)⟩
      have h0' : markerAt (c :: (t ++ z)) 0 :=
        markerAt_zero_of_longer c t (t ++ z) (List.prefix_append t z) h0
      rw [List.cons_append, stripComments_of_marker_start _ h0',
        stripComments_of_marker_start _ h0]
      rfl
    · have h0' : ¬ markerAt (c :: (t ++ z)) 0 := by
        intro h
        cases t with
        | nil =>
          rcases head_of_markerAt_zero c _ h with a | a
          · exact (head_spaces_append z [] hz (by simp)).1 (by simpa using a)
          · exact (head_spaces_append z [] hz (by simp)).2 (by simpa using a)
        | cons d t =>
          apply h0
          obtain ⟨m, hm, hpre⟩ := h
          refine ⟨m, hm, ?_⟩
          rw [List.drop_zero] at hpre ⊢
          rw [commentMarkers_eq] at hm
          simp only [List.mem_cons, List.mem_singleton, List.not_mem_nil, or_false] at hm
          rcases hm with rfl | rfl | rfl | rfl
          all_goals
            simp only [List.cons_append, List.cons_prefix_cons] at hpre
            simp only [List.cons_prefix_cons]
            exact ⟨hpre.1, hpre.2.1, List.nil_prefix⟩
      obtain ⟨z', h1, h2⟩ := ih
      refine ⟨z', ?_, h2⟩
      rw [List.cons_append, stripComments_cons_of_no_marker c _ h0', h1,
        stripComments_cons_of_no_marker c _ h0, List.cons_append]

/-- Stripping and trimming the raw line gives what stripping and trimming the
trimmed line gives, when the trimmed line does not start with `;` or `#`. -/
theorem TrimSpace_stripComments_raw (b : Str)
    (h : (TrimSpace b).head? ≠ some ';' ∧ (TrimSpace b).head? ≠ some '#') :
    TrimSpace (stripComments (TrimSpace b)) = TrimSpace (stripComments b) := by
  obtain ⟨w, z, hb, hw, hz⟩ := TrimSpace_decompose b
  generalize TrimSpace b = t at hb h
  have hu : (t ++ z).head? ≠ some ';' ∧ (t ++ z).head? ≠ some '#' := by
    cases t with
    | nil => exact head_spaces_append z [] hz (by simp) |> fun x => by simpa using x
    | cons c t => simpa using h
  obtain ⟨z', h1, h2⟩ := stripComments_append_spaces t z hz
  rw [hb, stripComments_spaces_append w (t ++ z) hw hu, TrimSpace_spaces_append w _ hw, h1,
    TrimSpace_append_spaces z' _ h2]

end providers

namespace providers

open configuration examples

/-! ### Option lines and continuation lines -/

theorem TrimSpace_ne_nil_of_head (x : Str) (c : Char) (h : x.head? = some c)
    (hc : isSpace c = false) : TrimSpace x ≠ [] := by
  cases x with
  | nil => cases h
  | cons d x =>
    have hd : d = c := by simpa using h
    subst hd
    unfold TrimSpace
    rw [List.dropWhile_cons_of_neg (by simp [hc])]
    intro hnil
    have hnil' : List.rdropWhile isSpace (d :: x) = [] := hnil
    rw [List.rdropWhile_eq_nil_iff] at hnil'
    have := hnil' d (List.mem_cons_self _ _)
    rw [hc] at this
    cases this

theorem TrimSpace_head_not_space (x : Str) (c : Char) (h : (TrimSpace x).head? = some c) :
    isSpace c = false := by
  have e : TrimSpace x = List.rdropWhile isSpace (x.dropWhile isSpace) := rfl
  have hpre : TrimSpace x <+: x.dropWhile isSpace := by
    rw [e]; exact List.rdropWhile_prefix isSpace _
  obtain ⟨z, hz⟩ := hpre
  have hhead : (x.dropWhile isSpace).head? = some c := by
    rw [← hz]
    cases ht : TrimSpace x with
    | nil => rw [ht] at h; cases h
    | cons d t =>
      rw [ht] at h
      simpa using h
  have := List.head?_dropWhile_not isSpace x
  rw [hhead] at this
  simpa using this

theorem TrimSpace_take_ne_nil (x : Str) (i : Nat) (hi : 0 < i) (hx : TrimSpace x ≠ []) :
    TrimSpace ((TrimSpace x).take i) ≠ [] := by
  obtain ⟨c, t, ht⟩ := List.exists_cons_of_ne_nil hx
  have hc : isSpace c = false := TrimSpace_head_not_space x c (by rw [ht]; rfl)
  obtain ⟨j, rfl⟩ : ∃ j, i = j + 1 := ⟨i - 1, by omega⟩
  rw [ht, List.take_succ_cons]
  exact TrimSpace_ne_nil_of_head _ c rfl hc

theorem IndexAny_eq_none (l chars : Str) (h : ∀ c ∈ l, c ∉ chars) : IndexAny l chars = none := by
  induction l with
  | nil => rfl
  | cons c l ih =>
    rw [IndexAny, if_neg (h c (List.mem_cons_self _ _)),
      ih (fun d hd => h d (List.mem_cons_of_mem _ hd))]
    rfl

theorem getRawString_of_lookup [CaseTable] (p : IniConfigProvider) (s o v : Str) (hs : s ≠ [])
    (h : lookupOption p (ToLower s) (ToLower o) = some v) : getRawString p s o = .ok v := by
  unfold lookupOption at h
  unfold getRawString
  simp only [if_neg hs]
  cases hm : mget p.data (ToLower s) with
  | none => rw [hm] at h; cases h
  | some m =>
    rw [hm] at h
    have h' : mget m (ToLower o) = some v := h
    simp only [h']

/-- The `switch` of `read` on a line with its first separator after the first
character, in a section with a name. -/
theorem readLine_of_separator [CaseTable] (st : ReadState) (l : Str) (i : Nat)
    (hs : skipped l = false) (hh : header l = false) (hsect : st.sect ≠ [])
    (hidx : IndexAny l "=:".toList = some i) (hi : 0 < i) :
    readLine st l
      = .ok { st with
          p := (addOption st.p st.sect (TrimSpace (l.take i))
                  (TrimSpace (stripComments (l.drop (i + 1))))).1,
          option := TrimSpace (l.take i) } := by
  obtain ⟨j, rfl⟩ : ∃ j, i = j + 1 := ⟨i - 1, by omega⟩
  rw [skipped_eq_false_iff] at hs
  rw [← Bool.not_eq_true, header_eq_true_iff] at hh
  unfold readLine
  rw [if_neg hs.1, if_neg hs.2.1, if_neg hs.2.2.1, if_neg hs.2.2.2, if_neg hh, if_neg hsect]
  simp only [hidx]

/-- The `switch` of `read` on a line without separator, after an option line. -/
theorem readLine_of_continuation [CaseTable] (st : ReadState) (l : Str)
    (hs : skipped l = false) (hh : header l = false) (hsect : st.sect ≠ [])
    (hopt : st.option ≠ []) (hidx : IndexAny l "=:".toList = none) :
    readLine st l
      = .ok { st with
          p := (addOption st.p st.sect st.option
                  ((match getRawString st.p st.sect st.option with
                    | .ok v => v
                    | .error _ => []) ++ "\n".toList ++ TrimSpace (stripComments l))).1 } := by
  rw [skipped_eq_false_iff] at hs
  rw [← Bool.not_eq_true, header_eq_true_iff] at hh
  unfold readLine
  rw [if_neg hs.1, if_neg hs.2.1, if_neg hs.2.2.1, if_neg hs.2.2.2, if_neg hh, if_neg hsect]
  simp only [hidx]
  rw [if_pos ⟨hsect, hopt⟩]

/-- A piece that is read without error, whether it is the last piece or not. -/
theorem readLoop_ok_line [CaseTable] (st st' : ReadState) (x : Str)
    (h : readLine st (TrimSpace x) = .ok st') :
    readLoop st [x] = (st', none)
    ∧ ∀ tail, tail ≠ [] → readLoop st (x :: tail) = readLoop st' tail := by
  constructor
  · rw [readLoop_singleton, h]
  · intro tail htail
    rw [readLoop_cons st x tail htail, h]

/-- C11: within a section with a name, an option line (first separator at
index `i > 0`) followed by a line `b` that holds neither `=` nor `:` and is not
blank, a comment or a header makes `read` store for the option the value of
the option line, a line feed, and `trim(stripComments(b))`. -/
theorem read_appends_continuation_line [CaseTable] (st : ReadState) (x b : Str) (i : Nat)
    (hsect : st.sect ≠ [])
    (hs : skipped (TrimSpace x) = false) (hh : header (TrimSpace x) = false)
    (hidx : IndexAny (TrimSpace x) "=:".toList = some i) (hi : 0 < i)
    (hbs : skipped (TrimSpace b) = false) (hbh : header (TrimSpace b) = false)
    (hb : '=' ∉ b ∧ ':' ∉ b) :
    ∃ st2, readLoop st [x, b] = (st2, none)
      ∧ (∀ tail, tail ≠ [] → readLoop st (x :: b :: tail) = readLoop st2 tail)
      ∧ lookupOption st2.p (ToLower st.sect) (ToLower (TrimSpace ((TrimSpace x).take i)))
          = some (TrimSpace (stripComments ((TrimSpace x).drop (i + 1))) ++ "\n".toList
              ++ TrimSpace (stripComments b))
      ∧ st2.sect = st.sect ∧ st2.option = TrimSpace ((TrimSpace x).take i) := by
  have hline := readLine_of_separator st (TrimSpace x) i hs hh hsect hidx hi
  have hxne : TrimSpace x ≠ [] := by
    intro e; rw [e] at hidx; cases hidx
  have hopt : TrimSpace ((TrimSpace x).take i) ≠ [] := TrimSpace_take_ne_nil x i hi hxne
  generalize hst1 : ({ st with
      p := (addOption st.p st.sect (TrimSpace ((TrimSpace x).take i))
              (TrimSpace (stripComments ((TrimSpace x).drop (i + 1))))).1,
      option := TrimSpace ((TrimSpace x).take i) } : ReadState) = st1 at hline
  have hs1 : st1.sect = st.sect := by rw [← hst1]
  have ho1 : st1.option = TrimSpace ((TrimSpace x).take i) := by rw [← hst1]
  have hp1 : st1.p = (addOption st.p st.sect (TrimSpace ((TrimSpace x).take i))
      (TrimSpace (stripComments ((TrimSpace x).drop (i + 1))))).1 := by rw [← hst1]
  have hprev : getRawString st1.p st1.sect st1.option
      = .ok (TrimSpace (stripComments ((TrimSpace x).drop (i + 1)))) := by
    apply getRawString_of_lookup _ _ _ _ (by rw [hs1]; exact hsect)
    rw [hs1, ho1, hp1]
    exact lookupOption_addOption_self _ _ _ _
  have hnone : IndexAny (TrimSpace b) "=:".toList = none := by
    apply IndexAny_eq_none
    intro c hc hmem
    have hcb : c ∈ b := by
      have e : TrimSpace b = List.rdropWhile isSpace (b.dropWhile isSpace) := rfl
      rw [e] at hc
      exact (List.dropWhile_suffix isSpace).subset
        ((List.rdropWhile_prefix isSpace _).subset hc)
    have : c = '=' ∨ c = ':' := by simpa using hmem
    rcases this with rfl | rfl
    · exact hb.1 hcb
    · exact hb.2 hcb
  have hbhead : (TrimSpace b).head? ≠ some ';' ∧ (TrimSpace b).head? ≠ some '#' := by
    rw [skipped_eq_false_iff] at hbs
    exact ⟨hbs.2.2.1, hbs.2.1⟩
  have hline2 := readLine_of_continuation st1 (TrimSpace b) hbs hbh
    (by rw [hs1]; exact hsect) (by rw [ho1]; exact hopt) hnone
  rw [hprev, TrimSpace_stripComments_raw b hbhead] at hline2
  obtain ⟨st2, hline2', hp2, hs2, ho2⟩ : ∃ st2, readLine st1 (TrimSpace b) = .ok st2
      ∧ st2.p = (addOption st1.p st1.sect st1.option
          (TrimSpace (stripComments ((TrimSpace x).drop (i + 1))) ++ "\n".toList
            ++ TrimSpace (stripComments b))).1
      ∧ st2.sect = st1.sect ∧ st2.option = st1.option := ⟨_, hline2, rfl, rfl, rfl⟩
  obtain ⟨_, h2⟩ := readLoop_ok_line st st1 x hline
  obtain ⟨h3, h4⟩ := readLoop_ok_line st1 st2 b hline2'
  refine ⟨st2, ?_, ?_, ?_, hs2.trans hs1, ho2.trans ho1⟩
  · rw [h2 [b] (by simp)]; exact h3
  · intro tail htail
    rw [h2 (b :: tail) (by simp)]
    exact h4 tail htail
  · rw [hp2, hs1, ho1]
    exact lookupOption_addOption_self _ _ _ _

theorem read_appends_continuation_line_witness :
    read (NewIniConfigProvider "config.ini".toList) "[s]\nopt=a\nb\n".toList
      = ({ iniPath := "config.ini".toList,
           data := [("s".toList, [("opt".toList, "a\nb".toList)])] }, none)
    ∧ ∃ st2, readLoop { p := motdProvider, sect := "net".toList, option := [] }
        ["opt=a".toList, " b ;note".toList] = (st2, none)
      ∧ lookupOption st2.p "net".toList "opt".toList = some "a\nb".toList := by
  refine ⟨by decide, ?_⟩
  obtain ⟨st2, h1, _, h3, _⟩ :=
    read_appends_continuation_line { p := motdProvider, sect := "net".toList, option := [] }
      "opt=a".toList " b ;note".toList 3 (by decide) (by decide) (by decide) (by decide)
      (by decide) (by decide) (by decide) (by decide)
  exact ⟨st2, h1, h3⟩

end providers

namespace providers

open configuration examples

/-! ### Inserting a line that `read` skips -/

theorem readStrings_append_newline (s rest : Str) :
    readStrings (s ++ '\n' :: rest) = readStrings s ++ readStrings rest := by
  induction s with
  | nil => simp [readStrings]
  | cons c s ih =>
    rw [List.cons_append, readStrings, ih]
    by_cases hc : c = '\n'
    · rw [if_pos hc]
      conv_rhs => rw [readStrings, if_pos hc]
      rfl
    · rw [if_neg hc]
      conv_rhs => rw [readStrings, if_neg hc]
      cases hs : readStrings s with
      | nil => exact absurd hs (readStrings_ne_nil s)
      | cons piece more => rfl

theorem readStrings_single (c : Str) (h : '\n' ∉ c) : readStrings c = [c] := by
  induction c with
  | nil => rfl
  | cons d c ih =>
    have hd : ¬ d = '\n' := by
      intro e; apply h; simp [e]
    have hc : '\n' ∉ c := fun e => h (List.mem_cons_of_mem _ e)
    rw [readStrings, if_neg hd, ih hc]

theorem readLoop_insert_skipped [CaseTable] (c : Str) (hc : skipped (TrimSpace c) = true)
    (pre post : List Str) (st : ReadState) (hne : pre ++ post ≠ []) :
    readLoop st (pre ++ c :: post) = readLoop st (pre ++ post) := by
  induction pre generalizing st with
  | nil =>
    have hpost : post ≠ [] := by simpa using hne
    rw [List.nil_append, List.nil_append, readLoop_cons st c post hpost,
      readLine_skipped st _ hc]
  | cons x pre ih =>
    rw [List.cons_append, List.cons_append,
      readLoop_cons st x (pre ++ c :: post) (by simp)]
    by_cases hrest : pre ++ post = []
    · have hpre : pre = [] := (List.append_eq_nil.mp hrest).1
      have hpost : post = [] := (List.append_eq_nil.mp hrest).2
      subst hpre hpost
      rw [List.nil_append, List.nil_append, readLoop_singleton st x]
      cases readLine st (TrimSpace x) with
      | error e => rfl
      | ok st' =>
        simp only
        rw [readLoop_singleton, readLine_skipped st' _ hc]
    · rw [readLoop_cons st x (pre ++ post) hrest]
      cases readLine st (TrimSpace x) with
      | error e => rfl
      | ok st' => exact ih st' hrest

/-- C13: a blank line or a full-line comment is skipped without any effect.
For a line `c` without line feed whose trimmed form is blank, starts with `#`
or `;`, or starts with `rem` in any case, inserting `c` as a line of its own at
the start of the text or after any line feed, or adding it after the end of
the text, leaves the result of `read`, provider and error, as it was. -/
theorem read_insert_skipped_line [CaseTable] (p : IniConfigProvider) (c : Str) (hline : '\n' ∉ c)
    (hc : skipped (TrimSpace c) = true) :
    (∀ rest, read p (c ++ '\n' :: rest) = read p rest)
    ∧ (∀ front rest,
        read p (front ++ '\n' :: (c ++ '\n' :: rest)) = read p (front ++ '\n' :: rest))
    ∧ (∀ text, read p (text ++ '\n' :: c) = read p text) := by
  have start : ∀ text, read p text = ((readLoop (readStart p) (readStrings text)).1.p,
      (readLoop (readStart p) (readStrings text)).2) := fun _ => rfl
  refine ⟨?_, ?_, ?_⟩
  · intro rest
    rw [start, start, readStrings_line c rest hline]
    have := readLoop_insert_skipped c hc [] (readStrings rest) (readStart p)
      (by simpa using readStrings_ne_nil rest)
    rw [List.nil_append, List.nil_append] at this
    rw [this]
  · intro front rest
    rw [start, start, readStrings_append_newline front, readStrings_line c rest hline,
      readStrings_append_newline front]
    rw [readLoop_insert_skipped c hc (readStrings front) (readStrings rest) (readStart p)
      (by simp [readStrings_ne_nil])]
  · intro text
    rw [start, start, readStrings_append_newline, readStrings_single c hline]
    have := readLoop_insert_skipped c hc (readStrings text) [] (readStart p)
      (by simp [readStrings_ne_nil])
    rw [List.append_nil] at this
    rw [this]

theorem read_insert_skipped_line_witness :
    read (NewIniConfigProvider "config.ini".toList) "[s]\nopt=a\n  Rem note\nb\n".toList
      = read (NewIniConfigProvider "config.ini".toList) "[s]\nopt=a\nb\n".toList
    ∧ read (NewIniConfigProvider "config.ini".toList) "[s]\nopt=a\nb\n".toList
      = ({ iniPath := "config.ini".toList,
           data := [("s".toList, [("opt".toList, "a\nb".toList)])] }, none) :=
  ⟨(read_insert_skipped_line (NewIniConfigProvider "config.ini".toList) "  Rem note".toList
      (by decide) (by decide)).2.1 "[s]\nopt=a".toList "b\n".toList,
   by decide⟩

/-! ### An option line in a text -/

/-- C12: let `read` have read the text `front` without error and be in a
section with a name, and let the next line `x` be, after trimming, not blank,
not a comment and not a header, with its first `=` or `:` at index `i > 0`.
Then `read` of `front`, a line feed and `x` returns no error and the provider
after `front` with the option `lower(trim(l[0:i]))` of the current section set
to `trim(stripComments(l[i+1:]))`, where `l` is the trimmed line: the value is
the one stored whatever was stored before, only the first separator splits,
and every other option is looked up as before.  The section stays the current
one, the option becomes the current one, and when more text follows the line
the loop goes on from this state. -/
theorem read_stores_option_line [CaseTable] (p : IniConfigProvider) (front x : Str) (i : Nat)
    (hx : '\n' ∉ x)
    (hfront : (read p front).2 = none)
    (hsect : (readState p front).sect ≠ [])
    (hs : skipped (TrimSpace x) = false) (hh : header (TrimSpace x) = false)
    (hidx : IndexAny (TrimSpace x) "=:".toList = some i) (hi : 0 < i) :
    read p (front ++ '\n' :: x)
        = ((addOption (read p front).1 (readState p front).sect
              (TrimSpace ((TrimSpace x).take i))
              (TrimSpace (stripComments ((TrimSpace x).drop (i + 1))))).1, none)
    ∧ lookupOption (read p (front ++ '\n' :: x)).1 (ToLower (readState p front).sect)
          (ToLower (TrimSpace ((TrimSpace x).take i)))
        = some (TrimSpace (stripComments ((TrimSpace x).drop (i + 1))))
    ∧ (∀ s o, ¬ (s = ToLower (readState p front).sect
            ∧ o = ToLower (TrimSpace ((TrimSpace x).take i))) →
        lookupOption (read p (front ++ '\n' :: x)).1 s o = lookupOption (read p front).1 s o)
    ∧ (readState p (front ++ '\n' :: x)).sect = (readState p front).sect
    ∧ (readState p (front ++ '\n' :: x)).option = TrimSpace ((TrimSpace x).take i)
    ∧ (∀ rest, read p (front ++ '\n' :: (x ++ '\n' :: rest))
        = ((readLoop (readState p (front ++ '\n' :: x)) (readStrings rest)).1.p,
           (readLoop (readState p (front ++ '\n' :: x)) (readStrings rest)).2)) := by
  have hfront' : (readLoop (readStart p) (readStrings front)).2 = none := hfront
  have hline := readLine_of_separator (readState p front) (TrimSpace x) i hs hh hsect hidx hi
  obtain ⟨hone, _⟩ := readLoop_ok_line (readState p front) _ x hline
  have hloop : readLoop (readStart p) (readStrings (front ++ '\n' :: x))
      = ({ readState p front with
            p := (addOption (readState p front).p (readState p front).sect
                    (TrimSpace ((TrimSpace x).take i))
                    (TrimSpace (stripComments ((TrimSpace x).drop (i + 1))))).1,
            option := TrimSpace ((TrimSpace x).take i) }, none) := by
    rw [readStrings_append_newline, readStrings_single x hx,
      readLoop_append_pieces _ _ (readStrings_ne_nil front) hfront' [x] (by simp)]
    exact hone
  have hstate : readState p (front ++ '\n' :: x)
      = { readState p front with
            p := (addOption (readState p front).p (readState p front).sect
                    (TrimSpace ((TrimSpace x).take i))
                    (TrimSpace (stripComments ((TrimSpace x).drop (i + 1))))).1,
            option := TrimSpace ((TrimSpace x).take i) } := by
    show (readLoop (readStart p) (readStrings (front ++ '\n' :: x))).1 = _
    rw [hloop]
  have hread : read p (front ++ '\n' :: x)
      = ((addOption (read p front).1 (readState p front).sect
              (TrimSpace ((TrimSpace x).take i))
              (TrimSpace (stripComments ((TrimSpace x).drop (i + 1))))).1, none) := by
    rw [read_eq_readState, hloop, hstate]
    rfl
  refine ⟨hread, ?_, ?_, ?_, ?_, ?_⟩
  · rw [hread]
    exact lookupOption_addOption_self _ _ _ _
  · intro s o hne
    rw [hread]
    exact lookupOption_addOption_ne _ _ _ _ s o hne
  · rw [hstate]
  · rw [hstate]
  · intro rest
    have hsplit : readStrings (front ++ '\n' :: (x ++ '\n' :: rest))
        = readStrings (front ++ '\n' :: x) ++ readStrings rest := by
      rw [show front ++ '\n' :: (x ++ '\n' :: rest) = (front ++ '\n' :: x) ++ '\n' :: rest by simp,
        readStrings_append_newline]
    have hnone : (readLoop (readStart p) (readStrings (front ++ '\n' :: x))).2 = none := by
      rw [hloop]
    show ((readLoop (readStart p) (readStrings (front ++ '\n' :: (x ++ '\n' :: rest)))).1.p,
        (readLoop (readStart p) (readStrings (front ++ '\n' :: (x ++ '\n' :: rest)))).2) = _
    rw [hsplit, readLoop_append_pieces _ _ (readStrings_ne_nil _) hnone _ (readStrings_ne_nil rest)]
    rfl

theorem read_stores_option_line_witness :
    read (NewIniConfigProvider "config.ini".toList)
        "[Net]\nmotd=old\n  Motd = a=b:c ; note ".toList
      = ({ iniPath := "config.ini".toList,
           data := [("net".toList, [("motd".toList, "a=b:c".toList)])] }, none)
    ∧ lookupOption (read (NewIniConfigProvider "config.ini".toList)
        "[Net]\nmotd=old\n  Motd = a=b:c ; note ".toList).1 "net".toList "motd".toList
      = some "a=b:c".toList
    ∧ read (NewIniConfigProvider "config.ini".toList)
        "[Net]\nmotd=old\n  Motd = a=b:c ; note \nhost=h\n".toList
      = ({ iniPath := "config.ini".toList,
           data := [("net".toList, [("motd".toList, "a=b:c".toList),
                                    ("host".toList, "h".toList)])] }, none) := by
  have w := read_stores_option_line (NewIniConfigProvider "config.ini".toList)
    "[Net]\nmotd=old".toList "  Motd = a=b:c ; note ".toList 5
    (by decide) (by decide) (by decide) (by decide) (by decide) (by decide) (by decide)
  exact ⟨w.1.trans (by decide), w.2.1, (w.2.2.2.2.2 "host=h\n".toList).trans (by decide)⟩

end providers

theorem mget_of_mem {V : Type} (m : Map V) (hnd : (mkeys m).Nodup) (k : Str) (v : V)
    (h : (k, v) ∈ m) : mget m k = some v := by
  induction m with
  | nil => cases h
  | cons e m ih =>
    obtain ⟨k', v'⟩ := e
    rw [mkeys_cons, List.nodup_cons] at hnd
    rw [mget_cons]
    rcases List.mem_cons.mp h with heq | hmem
    · have h1 : k = k' := (Prod.mk.inj heq).1
      have h2 : v = v' := (Prod.mk.inj heq).2
      rw [if_pos h1.symm, h2]
    · have hk : k ∈ mkeys m := List.mem_map.mpr ⟨(k, v), hmem, rfl⟩
      have hne : ¬ k' = k := by
        intro e; rw [e] at hnd; exact hnd.1 hk
      rw [if_neg hne]
      exact ih hnd.2 hmem

namespace providers

open configuration examples

/-! ### Folding to lower case -/

theorem Char_toLower_idempotent (c : Char) : c.toLower.toLower = c.toLower := by
  by_cases h : c.toNat ≥ 65 ∧ c.toNat ≤ 90
  · have hc : c = Char.ofNat c.toNat := (Char.ofNat_toNat c).symm
    obtain ⟨h1, h2⟩ := h
    generalize c.toNat = n at hc h1 h2
    subst hc
    interval_cases n <;> rfl
  · have : c.toLower = c := by
      unfold Char.toLower
      simp only [if_neg h]
    rw [this, this]

theorem Char_toLower_ascii (c : Char) (h : c.toNat ≤ 0x7F) : c.toLower.toNat ≤ 0x7F := by
  by_cases h' : c.toNat ≥ 65 ∧ c.toNat ≤ 90
  · have hc : c = Char.ofNat c.toNat := (Char.ofNat_toNat c).symm
    obtain ⟨h1, h2⟩ := h'
    generalize c.toNat = n at hc h1 h2
    subst hc
    interval_cases n <;> decide
  · have : c.toLower = c := by
      unfold Char.toLower
      simp only [if_neg h']
    rw [this]
    exact h

theorem toLowerRune_of_ascii [CaseTable] (r : Char) (h : r.toNat ≤ 0x7F) :
    toLowerRune r = r.toLower := by
  unfold toLowerRune
  rw [if_pos h]

/-- On a string of ASCII characters the folding does not depend on the case
table. -/
theorem ToLower_of_ascii [CaseTable] (s : Str) (h : ∀ c ∈ s, c.toNat ≤ 0x7F) :
    ToLower s = s.map Char.toLower := by
  unfold ToLower
  apply List.map_congr_left
  intro c hc
  exact toLowerRune_of_ascii c (h c hc)

/-- The table `latin1CaseTable` folds a folded rune to itself. -/
theorem latin1_folds_once (r : Char) : toLowerRune (toLowerRune r) = toLowerRune r := by
  by_cases h : r.toNat ≤ 0x7F
  · rw [toLowerRune_of_ascii r h, toLowerRune_of_ascii _ (Char_toLower_ascii r h),
      Char_toLower_idempotent]
  · have e : ∀ c : Char, ¬ c.toNat ≤ 0x7F → toLowerRune c = CaseTable.lower c := by
      intro c hc
      unfold toLowerRune
      rw [if_neg hc]
    by_cases hr : 0xC0 ≤ r.toNat ∧ r.toNat ≤ 0xDE ∧ r.toNat ≠ 0xD7
    · have hc : r = Char.ofNat r.toNat := (Char.ofNat_toNat r).symm
      obtain ⟨h1, h2, h3⟩ := hr
      generalize r.toNat = n at hc h1 h2 h3
      subst hc
      interval_cases n <;> rfl
    · have e2 : CaseTable.lower r = r := by
        show (if 0xC0 ≤ r.toNat ∧ r.toNat ≤ 0xDE ∧ r.toNat ≠ 0xD7
          then Char.ofNat (r.toNat + 32) else r) = r
        rw [if_neg hr]
      rw [e r h, e2, e r h, e2]

theorem ToLower_idempotent [CaseTable]
    (hfold : ∀ r : Char, toLowerRune (toLowerRune r) = toLowerRune r)
    (s : Str) : ToLower (ToLower s) = ToLower s := by
  unfold ToLower
  rw [List.map_map]
  apply List.map_congr_left
  intro c _
  exact hfold c

theorem ToLower_eq_nil_iff [CaseTable] (s : Str) : ToLower s = [] ↔ s = [] := by
  unfold ToLower
  exact List.map_eq_nil_iff

theorem normalSection_ToLower [CaseTable]
    (hfold : ∀ r : Char, toLowerRune (toLowerRune r) = toLowerRune r)
    (s : Str) : normalSection (ToLower s) = normalSection s := by
  unfold normalSection
  by_cases hs : s = []
  · subst hs; rfl
  · have hs' : ToLower s ≠ [] := fun e => hs ((ToLower_eq_nil_iff s).mp e)
    rw [if_neg hs, if_neg hs', ToLower_idempotent hfold]

theorem getRawString_eq [CaseTable] (p : IniConfigProvider) (s o : Str) :
    getRawString p s o
      = match mget p.data (normalSection s) with
        | some m =>
          match mget m (ToLower o) with
          | some value => .ok value
          | none => .error ⟨.OptionNotFound, [], [], normalSection s, ToLower o⟩
        | none => .error ⟨.SectionNotFound, [], [], normalSection s, ToLower o⟩ := rfl

/-! ### `GetBool` -/

theorem BoolStrings_true_iff (x : Str) :
    mget BoolStrings x = some true
      ↔ x ∈ ["t".toList, "true".toList, "y".toList, "yes".toList, "on".toList, "1".toList] := by
  constructor
  · intro h
    have := mem_of_mget _ _ _ h
    simp [BoolStrings] at this
    simp
    tauto
  · intro h
    apply mget_of_mem _ (by decide)
    simp at h
    simp [BoolStrings]
    tauto

theorem BoolStrings_false_iff (x : Str) :
    mget BoolStrings x = some false
      ↔ x ∈ ["f".toList, "false".toList, "n".toList, "no".toList, "off".toList,
              "0".toList] := by
  constructor
  · intro h
    have := mem_of_mget _ _ _ h
    simp [BoolStrings] at this
    simp
    tauto
  · intro h
    apply mget_of_mem _ (by decide)
    simp at h
    simp [BoolStrings]
    tauto

/-- C14: for an existing option with the stored string `v`, `GetBool` returns
`(true, nil)` exactly when `lower(v)` is one of `t, true, y, yes, on, 1`,
`(false, nil)` exactly when it is one of `f, false, n, no, off, 0`, and in every
other case `false` with a `GetError` of reason `CouldNotParse` that carries `v`. -/
theorem GetBool_by_membership [CaseTable]
    (p : IniConfigProvider) (item : ConfigurationItem) (v : Str)
    (h : getRawString p item.GetSection item.GetName = .ok v) :
    (GetBool p item = (true, none)
      ↔ ToLower v ∈ ["t".toList, "true".toList, "y".toList, "yes".toList, "on".toList,
                     "1".toList])
    ∧ (GetBool p item = (false, none)
      ↔ ToLower v ∈ ["f".toList, "false".toList, "n".toList, "no".toList, "off".toList,
                     "0".toList])
    ∧ (ToLower v ∉ ["t".toList, "true".toList, "y".toList, "yes".toList, "on".toList,
                    "1".toList] →
       ToLower v ∉ ["f".toList, "false".toList, "n".toList, "no".toList, "off".toList,
                    "0".toList] →
       GetBool p item
         = (false, some ⟨.CouldNotParse, "bool".toList, v, item.GetSection, item.GetName⟩)) := by
  rw [← BoolStrings_true_iff, ← BoolStrings_false_iff]
  unfold GetBool
  simp only [h]
  cases hm : mget BoolStrings (ToLower v) with
  | none => simp
  | some b => cases b <;> simp

theorem GetBool_by_membership_witness :
    GetBool (switchProvider "YES".toList) switchItem = (true, none)
    ∧ GetBool (switchProvider "On".toList) switchItem = (true, none)
    ∧ GetBool (switchProvider "1".toList) switchItem = (true, none)
    ∧ GetBool (switchProvider "maybe".toList) switchItem
      = (false, some ⟨.CouldNotParse, "bool".toList, "maybe".toList, "Net".toList,
          "On".toList⟩) :=
  ⟨(GetBool_by_membership (switchProvider "YES".toList) switchItem "YES".toList rfl).1.mpr
      (by decide),
   (GetBool_by_membership (switchProvider "On".toList) switchItem "On".toList rfl).1.mpr
      (by decide),
   (GetBool_by_membership (switchProvider "1".toList) switchItem "1".toList rfl).1.mpr
      (by decide),
   (GetBool_by_membership (switchProvider "maybe".toList) switchItem "maybe".toList rfl).2.2
      (by decide) (by decide)⟩

end providers

namespace providers

open configuration examples

/-! ### Lookups and `SetValue` -/

theorem GetString_eq [CaseTable] (p : IniConfigProvider) (item : ConfigurationItem) :
    GetString p item
      = match mget p.data (normalSection item.GetSection) with
        | some m =>
          match mget m (ToLower item.GetName) with
          | some value => (value, none)
          | none =>
            ([], some ⟨.OptionNotFound, [], [], normalSection item.GetSection,
              ToLower item.GetName⟩)
        | none =>
          ([], some ⟨.SectionNotFound, [], [], normalSection item.GetSection,
            ToLower item.GetName⟩) := by
  unfold GetString
  rw [getRawString_eq]
  cases h1 : mget p.data (normalSection item.GetSection) with
  | none => rfl
  | some m =>
    simp only
    cases h2 : mget m (ToLower item.GetName) with
    | none => rfl
    | some v => rfl

/-- C15: lookups are case-insensitive, for every case table that folds a folded
rune to itself (as `unicode.ToLower` does).  For an item and the item with the
section and the name folded to lower case by `strings.ToLower`, `GetString`
returns the same value and the same error.  A missing section gives
`SectionNotFound`, a missing option in an existing section gives
`OptionNotFound`, and a value is returned, without error, exactly when the
section exists and holds the option. -/
theorem GetString_case_insensitive [CaseTable]
    (hfold : ∀ r : Char, toLowerRune (toLowerRune r) = toLowerRune r)
    (p : IniConfigProvider) (item folded : ConfigurationItem)
    (hs : folded.GetSection = ToLower item.GetSection)
    (hn : folded.GetName = ToLower item.GetName) :
    GetString p folded = GetString p item
    ∧ (mget p.data (normalSection item.GetSection) = none →
        GetString p item
          = ([], some ⟨.SectionNotFound, [], [], normalSection item.GetSection,
              ToLower item.GetName⟩))
    ∧ (∀ m, mget p.data (normalSection item.GetSection) = some m →
        mget m (ToLower item.GetName) = none →
        GetString p item
          = ([], some ⟨.OptionNotFound, [], [], normalSection item.GetSection,
              ToLower item.GetName⟩))
    ∧ (∀ m v, mget p.data (normalSection item.GetSection) = some m →
        mget m (ToLower item.GetName) = some v → GetString p item = (v, none))
    ∧ ((GetString p item).2 = none →
        ∃ m, mget p.data (normalSection item.GetSection) = some m
          ∧ mget m (ToLower item.GetName) = some (GetString p item).1) := by
  refine ⟨?_, ?_, ?_, ?_, ?_⟩
  · rw [GetString_eq, GetString_eq, hs, hn, normalSection_ToLower hfold,
      ToLower_idempotent hfold]
  · intro h
    rw [GetString_eq]
    simp only [h]
  · intro m h1 h2
    rw [GetString_eq]
    simp only [h1, h2]
  · intro m v h1 h2
    rw [GetString_eq]
    simp only [h1, h2]
  · rw [GetString_eq]
    cases h1 : mget p.data (normalSection item.GetSection) with
    | none => intro h; cases h
    | some m =>
      simp only
      cases h2 : mget m (ToLower item.GetName) with
      | none => intro h; cases h
      | some v => intro _; exact ⟨m, rfl, h2⟩

theorem GetString_case_insensitive_witness :
    GetString fooProvider (NewConfigurationItem "foo".toList "bar".toList [] (.int 0))
      = GetString fooProvider (NewConfigurationItem "Foo".toList "Bar".toList [] (.int 0))
    ∧ GetString fooProvider (NewConfigurationItem "Foo".toList "Bar".toList [] (.int 0))
      = ("baz".toList, none)
    ∧ GetString fooProvider (NewConfigurationItem "été".toList "clé".toList [] (.int 0))
      = GetString fooProvider (NewConfigurationItem "ÉTÉ".toList "Clé".toList [] (.int 0))
    ∧ GetString fooProvider (NewConfigurationItem "ÉTÉ".toList "Clé".toList [] (.int 0))
      = ("août".toList, none) :=
  ⟨(GetString_case_insensitive latin1_folds_once fooProvider
      (NewConfigurationItem "Foo".toList "Bar".toList [] (.int 0))
      (NewConfigurationItem "foo".toList "bar".toList [] (.int 0))
      (by decide) (by decide)).1,
   by decide,
   (GetString_case_insensitive latin1_folds_once fooProvider
      (NewConfigurationItem "ÉTÉ".toList "Clé".toList [] (.int 0))
      (NewConfigurationItem "été".toList "clé".toList [] (.int 0))
      (by decide) (by decide)).1,
   by decide⟩

theorem lookupOption_assignOption_self (p : IniConfigProvider) (s o v : Str) (m : Map Str)
    (hm : mget p.data s = some m) : lookupOption (assignOption p s o v) s o = some v := by
  unfold assignOption lookupOption
  simp only [hm, mget_mset_self]

theorem lookupOption_assignOption_ne (p : IniConfigProvider) (s o v s' o' : Str)
    (hne : ¬ (s' = s ∧ o' = o)) :
    lookupOption (assignOption p s o v) s' o' = lookupOption p s' o' := by
  unfold assignOption
  cases hm : mget p.data s with
  | none => rfl
  | some m =>
    unfold lookupOption
    simp only
    by_cases hs : s' = s
    · subst hs
      have ho : o' ≠ o := fun a => hne ⟨rfl, a⟩
      simp only [mget_mset_self, hm, mget_mset_ne _ _ _ _ ho]
    · simp only [mget_mset_ne _ _ _ _ hs]

/-- C16: `SetValue` of the INI provider.  When the normalised section of the
item is not a key of the data, the provider and the file stay as they are and
the diagnostic is printed.  When it is a key, the option `lower(name)` of that
section is set to the formatted value, no other option and no section key
changes, and the file is rewritten from the new data.  The registry level
`SetValue` returns `nil` for a registered key, whatever the provider does. -/
theorem SetValue_effect [CaseTable] (p : IniConfigProvider) (file : Str) (item : ConfigurationItem)
    (value : Value) :
    (mget p.data (normalSection item.GetSection) = none →
      SetValue p file item value
        = { p := p, file := file, printed := some "Section not found".toList })
    ∧ (∀ m, mget p.data (normalSection item.GetSection) = some m →
      (SetValue p file item value).p.data
          = mset p.data (normalSection item.GetSection)
              (mset m (ToLower item.GetName) (formatValue value))
      ∧ lookupOption (SetValue p file item value).p (normalSection item.GetSection)
          (ToLower item.GetName) = some (formatValue value)
      ∧ (∀ s o, ¬ (s = normalSection item.GetSection ∧ o = ToLower item.GetName) →
          lookupOption (SetValue p file item value).p s o = lookupOption p s o)
      ∧ mkeys (SetValue p file item value).p.data = mkeys p.data
      ∧ (SetValue p file item value).file = write (SetValue p file item value).p
      ∧ (SetValue p file item value).printed = none)
    ∧ (∀ (σ ε φ : Type) (P : IConfigurationProvider σ ε φ) (prov : σ) (reg : Registry)
        (key : Str), mget reg.configItems key = some item →
        ∃ prov', configuration.SetValue P (some prov) reg key value = .ret (none, prov')) := by
  have hnorm : ToLower (if item.GetSection = [] then "default".toList else item.GetSection)
      = normalSection item.GetSection := rfl
  refine ⟨?_, ?_, ?_⟩
  · intro h
    unfold SetValue
    simp only [hnorm, h]
  · intro m h
    have hset : SetValue p file item value
        = { p := assignOption p (normalSection item.GetSection) (ToLower item.GetName)
                  (formatValue value),
            file := write (assignOption p (normalSection item.GetSection)
                  (ToLower item.GetName) (formatValue value)),
            printed := none } := by
      unfold SetValue
      simp only [hnorm, h]
    rw [hset]
    refine ⟨?_, lookupOption_assignOption_self p _ _ _ m h,
      fun s o hne => lookupOption_assignOption_ne p _ _ _ s o hne, ?_, rfl, rfl⟩
    · unfold assignOption
      simp only [h]
    · unfold assignOption
      simp only [h]
      exact mkeys_mset_of_mem _ _ _ (mem_mkeys_of_mget _ _ _ h)
  · intro σ ε φ P prov reg key h
    refine ⟨P.SetValue prov item value, ?_⟩
    unfold configuration.SetValue getConfigurationItemByKey
    simp only [h]

theorem SetValue_effect_witness :
    SetValue motdProvider "old".toList timeoutItem (.int 30)
      = { p := motdProvider, file := "old".toList, printed := some "Section not found".toList }
    ∧ SetValue motdProvider "old".toList
        (NewConfigurationItem "Net".toList "Motd".toList [] (.int 0)) (.bool true)
      = { p := { iniPath := "config.ini".toList,
                 data := [("net".toList, [("motd".toList, "true".toList)])] },
          file := "[net]\nmotd=true\n\n".toList, printed := none }
    ∧ ∃ log, configuration.SetValue recorder (some []) timeoutRegistry "timeoutKey".toList
        (.int 30) = .ret (none, log) :=
  ⟨(SetValue_effect motdProvider "old".toList timeoutItem (.int 30)).1 (by decide),
   by decide,
   (SetValue_effect motdProvider "old".toList timeoutItem (.int 30)).2.2 _ _ _ recorder []
      timeoutRegistry "timeoutKey".toList (by decide)⟩

end providers

namespace providers

open configuration examples

/-! ### Keys in lower case -/

theorem lowerKeys_mset [CaseTable] (data : Map (Map Str)) (k : Str) (m : Map Str)
    (h : lowerKeys data) (hk : ToLower k = k) (hm : ∀ ov ∈ m, ToLower ov.1 = ov.1) :
    lowerKeys (mset data k m) := by
  intro e he
  rcases mem_mset _ _ _ _ he with rfl | hmem
  · exact ⟨hk, hm⟩
  · exact h e hmem

theorem lowerKeys_addSection [CaseTable]
    (hfold : ∀ r : Char, toLowerRune (toLowerRune r) = toLowerRune r)
    (p : IniConfigProvider) (s : Str) (h : lowerKeys p.data) :
    lowerKeys (addSection p s).1.data := by
  cases hg : mget p.data (ToLower s) with
  | some m => rw [addSection_of_present p s m hg]; exact h
  | none =>
    rw [addSection_of_absent p s hg]
    exact lowerKeys_mset _ _ _ h (ToLower_idempotent hfold s)
      (fun ov hov => absurd hov (List.not_mem_nil ov))

theorem lowerKeys_assignOption [CaseTable]
    (p : IniConfigProvider) (s o v : Str) (h : lowerKeys p.data)
    (hs : ToLower s = s) (ho : ToLower o = o) : lowerKeys (assignOption p s o v).data := by
  unfold assignOption
  cases hm : mget p.data s with
  | none => exact h
  | some m =>
    apply lowerKeys_mset _ _ _ h hs
    intro ov hov
    rcases mem_mset _ _ _ _ hov with rfl | hmem
    · exact ho
    · exact (h _ (mem_of_mget _ _ _ hm)).2 ov hmem

theorem lowerKeys_addOption [CaseTable]
    (hfold : ∀ r : Char, toLowerRune (toLowerRune r) = toLowerRune r)
    (p : IniConfigProvider) (s o v : Str) (h : lowerKeys p.data) :
    lowerKeys (addOption p s o v).1.data := by
  unfold addOption
  exact lowerKeys_assignOption _ _ _ _ (lowerKeys_addSection hfold p s h)
    (ToLower_idempotent hfold s) (ToLower_idempotent hfold o)

theorem ToLower_normalSection [CaseTable]
    (hfold : ∀ r : Char, toLowerRune (toLowerRune r) = toLowerRune r)
    (s : Str) : ToLower (normalSection s) = normalSection s := by
  unfold normalSection
  exact ToLower_idempotent hfold _

theorem lowerKeys_SetValue [CaseTable]
    (hfold : ∀ r : Char, toLowerRune (toLowerRune r) = toLowerRune r)
    (p : IniConfigProvider) (file : Str) (item : ConfigurationItem)
    (value : Value) (h : lowerKeys p.data) : lowerKeys (SetValue p file item value).p.data := by
  have hnorm : ToLower (if item.GetSection = [] then "default".toList else item.GetSection)
      = normalSection item.GetSection := rfl
  unfold SetValue
  simp only [hnorm]
  cases hm : mget p.data (normalSection item.GetSection) with
  | none => exact h
  | some m =>
    exact lowerKeys_assignOption _ _ _ _ h (ToLower_normalSection hfold _)
      (ToLower_idempotent hfold _)

theorem readLine_provider [CaseTable] (st st' : ReadState) (l : Str) (h : readLine st l = .ok st') :
    st'.p = st.p ∨ (∃ s, st'.p = (addSection st.p s).1)
      ∨ (∃ s o v, st'.p = (addOption st.p s o v).1) := by
  unfold readLine at h
  split_ifs at h
  · cases h; exact Or.inl rfl
  · cases h; exact Or.inl rfl
  · cases h; exact Or.inl rfl
  · cases h; exact Or.inl rfl
  · cases h; exact Or.inr (Or.inl ⟨_, rfl⟩)
  · split at h
    · cases h; exact Or.inr (Or.inr ⟨_, _, _, rfl⟩)
    · cases h; exact Or.inr (Or.inr ⟨_, _, _, rfl⟩)
  · split at h
    · cases h; exact Or.inr (Or.inr ⟨_, _, _, rfl⟩)
    · cases h

theorem lowerKeys_readLine [CaseTable]
    (hfold : ∀ r : Char, toLowerRune (toLowerRune r) = toLowerRune r)
    (st st' : ReadState) (l : Str) (h : readLine st l = .ok st')
    (hk : lowerKeys st.p.data) : lowerKeys st'.p.data := by
  rcases readLine_provider st st' l h with e | ⟨s, e⟩ | ⟨s, o, v, e⟩
  · rw [e]; exact hk
  · rw [e]; exact lowerKeys_addSection hfold _ _ hk
  · rw [e]; exact lowerKeys_addOption hfold _ _ _ _ hk

theorem lowerKeys_readLoop [CaseTable]
    (hfold : ∀ r : Char, toLowerRune (toLowerRune r) = toLowerRune r)
    (pieces : List Str) (st : ReadState) (hk : lowerKeys st.p.data) :
    lowerKeys (readLoop st pieces).1.p.data := by
  induction pieces generalizing st with
  | nil => exact hk
  | cons x rest ih =>
    cases rest with
    | nil =>
      rw [readLoop_singleton]
      cases hx : readLine st (TrimSpace x) with
      | error e => exact hk
      | ok st' => exact lowerKeys_readLine hfold st st' _ hx hk
    | cons y rest =>
      rw [readLoop_cons_cons]
      cases hx : readLine st (TrimSpace x) with
      | error e => exact hk
      | ok st' => exact ih st' (lowerKeys_readLine hfold st st' _ hx hk)

theorem lowerKeys_read [CaseTable]
    (hfold : ∀ r : Char, toLowerRune (toLowerRune r) = toLowerRune r)
    (p : IniConfigProvider) (text : Str) (hk : lowerKeys p.data) :
    lowerKeys (read p text).1.data :=
  lowerKeys_readLoop hfold (readStrings text) _ hk

theorem lowerKeys_seedItems [CaseTable]
    (hfold : ∀ r : Char, toLowerRune (toLowerRune r) = toLowerRune r)
    (s : Str) (items : Map ConfigurationItem)
    (acc : IniConfigProvider × Bool) (hk : lowerKeys acc.1.data) :
    lowerKeys (seedItems s acc items).1.data := by
  induction items generalizing acc with
  | nil => exact hk
  | cons e items ih =>
    cases hl : lookupOption acc.1 s e.2.GetName with
    | some x =>
      rw [seedItems_cons_found s acc e items (by simp [hl])]
      exact ih acc hk
    | none =>
      rw [seedItems_cons_missing s acc e items hl]
      exact ih _ (lowerKeys_addOption hfold _ _ _ _ hk)

theorem lowerKeys_seedSections [CaseTable]
    (hfold : ∀ r : Char, toLowerRune (toLowerRune r) = toLowerRune r)
    (collection : ConfigurationItemCollection)
    (acc : IniConfigProvider × Bool) (hk : lowerKeys acc.1.data) :
    lowerKeys (seedSections acc collection).1.data := by
  induction collection generalizing acc with
  | nil => exact hk
  | cons e collection ih =>
    rw [seedSections_cons]
    exact ih _ (lowerKeys_seedItems hfold _ _ _ (lowerKeys_addSection hfold _ _ hk))

theorem lowerKeys_Initialize [CaseTable]
    (hfold : ∀ r : Char, toLowerRune (toLowerRune r) = toLowerRune r)
    (p : IniConfigProvider) (file : Str)
    (collection : ConfigurationItemCollection) (r : Initialized) (hk : lowerKeys p.data)
    (h : Initialize p file collection = .ret r) : lowerKeys r.p.data := by
  have hnone := Initialize_ret_read _ _ _ _ h
  have hread : read p file = ((read p file).1, none) := Prod.ext rfl hnone
  rw [Initialize_of_read p _ file collection hread] at h
  have hr := (Outcome.ret.inj h).symm
  rw [hr]
  exact lowerKeys_seedSections hfold collection _ (lowerKeys_read hfold p file hk)

/-- C19: the keys of the data are in lower case, for every case table that
folds a folded rune to itself (as `unicode.ToLower` does).  The data of a new
provider has the property, and `addSection`, `addOption`, `SetValue`, `read` and
`Initialize` keep it, whatever section names, option names, values and file
content they are given: every section key and every option key of the data
equals its own folding by `strings.ToLower`. -/
theorem lower_case_keys_invariant [CaseTable]
    (hfold : ∀ r : Char, toLowerRune (toLowerRune r) = toLowerRune r) :
    (∀ file, lowerKeys (NewIniConfigProvider file).data)
    ∧ ∀ p : IniConfigProvider, lowerKeys p.data →
      (∀ s, lowerKeys (addSection p s).1.data)
      ∧ (∀ s o v, lowerKeys (addOption p s o v).1.data)
      ∧ (∀ file item value, lowerKeys (SetValue p file item value).p.data)
      ∧ (∀ text, lowerKeys (read p text).1.data)
      ∧ (∀ file collection r, Initialize p file collection = .ret r → lowerKeys r.p.data) :=
  ⟨fun _ e he => absurd he (List.not_mem_nil e),
   fun p hk =>
    ⟨fun s => lowerKeys_addSection hfold p s hk,
     fun s o v => lowerKeys_addOption hfold p s o v hk,
     fun file item value => lowerKeys_SetValue hfold p file item value hk,
     fun text => lowerKeys_read hfold p text hk,
     fun file collection r h => lowerKeys_Initialize hfold p file collection r hk h⟩⟩

theorem lower_case_keys_invariant_witness :
    lowerKeys (NewIniConfigProvider "config.ini".toList).data
    ∧ (read (NewIniConfigProvider "config.ini".toList) "[NET]\nPort = 30\n".toList).1.data
      = [("net".toList, [("port".toList, "30".toList)])]
    ∧ lowerKeys
        (read (NewIniConfigProvider "config.ini".toList) "[NET]\nPort = 30\n".toList).1.data
    ∧ (read (NewIniConfigProvider "config.ini".toList) "[É]\nÄ=Ö\n".toList).1.data
      = [("é".toList, [("ä".toList, "Ö".toList)])]
    ∧ lowerKeys
        (read (NewIniConfigProvider "config.ini".toList) "[É]\nÄ=Ö\n".toList).1.data
    ∧ lowerKeys (addOption (NewIniConfigProvider "config.ini".toList) "Net".toList
        "Host".toList "Example.org".toList).1.data :=
  ⟨(lower_case_keys_invariant latin1_folds_once).1 "config.ini".toList,
   by decide,
   ((lower_case_keys_invariant latin1_folds_once).2
      (NewIniConfigProvider "config.ini".toList) (by decide)).2.2.2.1
     "[NET]\nPort = 30\n".toList,
   by decide,
   ((lower_case_keys_invariant latin1_folds_once).2
      (NewIniConfigProvider "config.ini".toList) (by decide)).2.2.2.1
     "[É]\nÄ=Ö\n".toList,
   ((lower_case_keys_invariant latin1_folds_once).2
      (NewIniConfigProvider "config.ini".toList) (by decide)).2.1
     "Net".toList "Host".toList "Example.org".toList⟩

end providers

namespace configuration

open examples

/-! ### The four ways through `addConfigurationItem` -/

theorem addConfigurationItem_key_present (reg : Registry) (k : Str)
    (item old : ConfigurationItem) (h : mget reg.configItems k = some old) :
    addConfigurationItem reg k item = (reg, false, keyAddedMessage k) := by
  unfold addConfigurationItem
  simp only [h]

theorem addConfigurationItem_probe_found (reg : Registry) (k : Str)
    (item other : ConfigurationItem) (m : Map ConfigurationItem)
    (h1 : mget reg.configItems k = none)
    (h2 : mget reg.configItemCollection item.GetSection = some m)
    (h3 : mget m k = some other) :
    addConfigurationItem reg k item
      = ({ configItemCollection := reg.configItemCollection,
           configItems := mset reg.configItems k item }, false,
          itemExistsMessage item.GetName item.GetSection) := by
  unfold addConfigurationItem
  simp only [h1, h2, h3]

theorem addConfigurationItem_old_section (reg : Registry) (k : Str)
    (item : ConfigurationItem) (m : Map ConfigurationItem)
    (h1 : mget reg.configItems k = none)
    (h2 : mget reg.configItemCollection item.GetSection = some m)
    (h3 : mget m k = none) :
    addConfigurationItem reg k item
      = ({ configItemCollection :=
             mset reg.configItemCollection item.GetSection (mset m item.GetName item),
           configItems := mset reg.configItems k item }, true, []) := by
  unfold addConfigurationItem
  simp only [h1, h2, h3]

theorem addConfigurationItem_new_section (reg : Registry) (k : Str)
    (item : ConfigurationItem)
    (h1 : mget reg.configItems k = none)
    (h2 : mget reg.configItemCollection item.GetSection = none) :
    addConfigurationItem reg k item
      = ({ configItemCollection :=
             mset (mset reg.configItemCollection item.GetSection []) item.GetSection
               (mset [] item.GetName item),
           configItems := mset reg.configItems k item }, true, []) := by
  unfold addConfigurationItem
  simp only [h1, h2, mget_nil]

/-- What the collection holds: every item is filed under its own section and
name and is stored in `configItems` under some key. -/
theorem collection_filed_step (reg : Registry) (k : Str) (item : ConfigurationItem)
    (h : ∀ s n it, collectionItem reg s n = some it →
      it.GetSection = s ∧ it.GetName = n ∧ ∃ k', mget reg.configItems k' = some it) :
    ∀ s n it, collectionItem (addConfigurationItem reg k item).1 s n = some it →
      it.GetSection = s ∧ it.GetName = n
        ∧ ∃ k', mget (addConfigurationItem reg k item).1.configItems k' = some it := by
  cases h1 : mget reg.configItems k with
  | some old =>
    rw [addConfigurationItem_key_present reg k item old h1]
    exact h
  | none =>
    have hkeep : ∀ it, (∃ k', mget reg.configItems k' = some it) →
        ∃ k', mget (mset reg.configItems k item) k' = some it := by
      rintro it ⟨k', hk'⟩
      refine ⟨k', ?_⟩
      have hne : k' ≠ k := by
        intro e; rw [e, h1] at hk'; cases hk'
      rw [mget_mset_ne _ _ _ _ hne]
      exact hk'
    cases h2 : mget reg.configItemCollection item.GetSection with
    | some m =>
      cases h3 : mget m k with
      | some other =>
        rw [addConfigurationItem_probe_found reg k item other m h1 h2 h3]
        intro s n it hit
        obtain ⟨a, b, c⟩ := h s n it hit
        exact ⟨a, b, hkeep it c⟩
      | none =>
        rw [addConfigurationItem_old_section reg k item m h1 h2 h3]
        intro s n it hit
        unfold collectionItem at hit
        simp only at hit
        by_cases hs : s = item.GetSection
        · subst hs
          rw [mget_mset_self] at hit
          simp only at hit
          by_cases hn : n = item.GetName
          · subst hn
            rw [mget_mset_self] at hit
            cases hit
            exact ⟨rfl, rfl, k, mget_mset_self _ _ _⟩
          · rw [mget_mset_ne _ _ _ _ hn] at hit
            have hold : collectionItem reg item.GetSection n = some it := by
              unfold collectionItem
              simp only [h2, hit]
            obtain ⟨a, b, c⟩ := h _ n it hold
            exact ⟨a, b, hkeep it c⟩
        · rw [mget_mset_ne _ _ _ _ hs] at hit
          obtain ⟨a, b, c⟩ := h s n it hit
          exact ⟨a, b, hkeep it c⟩
    | none =>
      rw [addConfigurationItem_new_section reg k item h1 h2]
      intro s n it hit
      unfold collectionItem at hit
      simp only at hit
      by_cases hs : s = item.GetSection
      · subst hs
        rw [mget_mset_self] at hit
        simp only at hit
        by_cases hn : n = item.GetName
        · subst hn
          rw [mget_mset_self] at hit
          cases hit
          exact ⟨rfl, rfl, k, mget_mset_self _ _ _⟩
        · rw [mget_mset_ne _ _ _ _ hn, mget_nil] at hit
          cases hit
      · rw [mget_mset_ne _ _ _ _ hs, mget_mset_ne _ _ _ _ hs] at hit
        obtain ⟨a, b, c⟩ := h s n it hit
        exact ⟨a, b, hkeep it c⟩

theorem collection_filed_foldl (calls : List (Str × ConfigurationItem)) (reg : Registry)
    (h : ∀ s n it, collectionItem reg s n = some it →
      it.GetSection = s ∧ it.GetName = n ∧ ∃ k', mget reg.configItems k' = some it) :
    ∀ s n it,
      collectionItem (calls.foldl (fun reg c => (addConfigurationItem reg c.1 c.2).1) reg) s n
          = some it →
      it.GetSection = s ∧ it.GetName = n
        ∧ ∃ k', mget (calls.foldl (fun reg c => (addConfigurationItem reg c.1 c.2).1) reg).configItems
            k' = some it := by
  induction calls generalizing reg with
  | nil => exact h
  | cons c calls ih =>
    rw [List.foldl_cons]
    exact ih _ (collection_filed_step reg c.1 c.2 h)

theorem collection_filed (calls : List (Str × ConfigurationItem)) :
    ∀ s n it, collectionItem (registered calls) s n = some it →
      it.GetSection = s ∧ it.GetName = n
        ∧ ∃ k', mget (registered calls).configItems k' = some it := by
  unfold registered
  apply collection_filed_foldl
  intro s n it hit
  cases hit

theorem addConfigurationItem_failure (reg : Registry) (k : Str) (item : ConfigurationItem)
    (hfail : (addConfigurationItem reg k item).2.1 = false) :
    (addConfigurationItem reg k item).1.configItemCollection = reg.configItemCollection
    ∧ (mget reg.configItems k ≠ none → (addConfigurationItem reg k item).1 = reg)
    ∧ (mget reg.configItems k = none →
        (addConfigurationItem reg k item).1.configItems = mset reg.configItems k item) := by
  cases h1 : mget reg.configItems k with
  | some old =>
    rw [addConfigurationItem_key_present reg k item old h1]
    exact ⟨rfl, fun _ => rfl, fun h => by cases h⟩
  | none =>
    cases h2 : mget reg.configItemCollection item.GetSection with
    | some m =>
      cases h3 : mget m k with
      | some other =>
        rw [addConfigurationItem_probe_found reg k item other m h1 h2 h3]
        exact ⟨rfl, fun h => absurd rfl h, fun _ => rfl⟩
      | none =>
        rw [addConfigurationItem_old_section reg k item m h1 h2 h3] at hfail
        cases hfail
    | none =>
      rw [addConfigurationItem_new_section reg k item h1 h2] at hfail
      cases hfail

theorem addConfigurationItem_success (reg : Registry) (k : Str) (item : ConfigurationItem)
    (hok : (addConfigurationItem reg k item).2.1 = true) :
    mget (addConfigurationItem reg k item).1.configItems k = some item
    ∧ collectionItem (addConfigurationItem reg k item).1 item.GetSection item.GetName
        = some item := by
  cases h1 : mget reg.configItems k with
  | some old =>
    rw [addConfigurationItem_key_present reg k item old h1] at hok
    cases hok
  | none =>
    cases h2 : mget reg.configItemCollection item.GetSection with
    | some m =>
      cases h3 : mget m k with
      | some other =>
        rw [addConfigurationItem_probe_found reg k item other m h1 h2 h3] at hok
        cases hok
      | none =>
        rw [addConfigurationItem_old_section reg k item m h1 h2 h3]
        refine ⟨mget_mset_self _ _ _, ?_⟩
        unfold collectionItem
        simp only [mget_mset_self]
    | none =>
      rw [addConfigurationItem_new_section reg k item h1 h2]
      refine ⟨mget_mset_self _ _ _, ?_⟩
      unfold collectionItem
      simp only [mget_mset_self]

/-- C20: two runs from the empty registry that leave the indexes out of step.
After the calls (`k`, `portItem`) and (`port`, `hostItem`) the second call has
reported failure, yet it has changed `configItems`: the key `port` holds
`hostItem`, while the collection holds nothing under section `net`, name
`host`.  After the calls (`k1`, `portItem`) and (`k2`, `portItem2`) the key `k1`
still holds `portItem`, while the collection holds `portItem2` under the
section and name of `portItem`. -/
theorem registry_indexes_out_of_step :
    (addConfigurationItem (registered [("k".toList, portItem)]) "port".toList hostItem).2.1
      = false
    ∧ (addConfigurationItem (registered [("k".toList, portItem)]) "port".toList
        hostItem).1.configItems ≠ (registered [("k".toList, portItem)]).configItems
    ∧ mget (registered [("k".toList, portItem), ("port".toList, hostItem)]).configItems
        "port".toList = some hostItem
    ∧ collectionItem (registered [("k".toList, portItem), ("port".toList, hostItem)])
        hostItem.GetSection hostItem.GetName = none
    ∧ mget (registered [("k1".toList, portItem), ("k2".toList, portItem2)]).configItems
        "k1".toList = some portItem
    ∧ collectionItem (registered [("k1".toList, portItem), ("k2".toList, portItem2)])
        portItem.GetSection portItem.GetName = some portItem2
    ∧ portItem2 ≠ portItem := by
  decide

/-- What does hold of the two indexes after any sequence of
`addConfigurationItem` calls from the empty registry: every item of
`configItemCollection` is filed under its own section and name and is stored in
`configItems` under some key.  A call that reports failure leaves
`configItemCollection` as it was; it leaves the whole registry as it was when
the key is already in `configItems`, and otherwise it has stored the item in
`configItems` under the key.  A call that reports success has stored the item
in both maps. -/
theorem registry_indexes_after_calls (calls : List (Str × ConfigurationItem)) :
    (∀ s n it, collectionItem (registered calls) s n = some it →
      it.GetSection = s ∧ it.GetName = n
        ∧ ∃ k, mget (registered calls).configItems k = some it)
    ∧ (∀ k item, (addConfigurationItem (registered calls) k item).2.1 = false →
      (addConfigurationItem (registered calls) k item).1.configItemCollection
          = (registered calls).configItemCollection
      ∧ (mget (registered calls).configItems k ≠ none →
          (addConfigurationItem (registered calls) k item).1 = registered calls)
      ∧ (mget (registered calls).configItems k = none →
          (addConfigurationItem (registered calls) k item).1.configItems
            = mset (registered calls).configItems k item))
    ∧ (∀ k item, (addConfigurationItem (registered calls) k item).2.1 = true →
      mget (addConfigurationItem (registered calls) k item).1.configItems k = some item
      ∧ collectionItem (addConfigurationItem (registered calls) k item).1
          item.GetSection item.GetName = some item) :=
  ⟨collection_filed calls,
   fun k item h => addConfigurationItem_failure _ k item h,
   fun k item h => addConfigurationItem_success _ k item h⟩

theorem registry_indexes_after_calls_witness :
    (∃ k, mget (registered [("k".toList, portItem), ("port".toList, hostItem)]).configItems k
        = some portItem)
    ∧ (addConfigurationItem (registered [("k".toList, portItem)]) "port".toList
        hostItem).1.configItemCollection
      = (registered [("k".toList, portItem)]).configItemCollection
    ∧ addConfigurationItem (registered [("k".toList, portItem)]) "k".toList hostItem
      = (registered [("k".toList, portItem)], false, keyAddedMessage "k".toList) :=
  ⟨((registry_indexes_after_calls [("k".toList, portItem), ("port".toList, hostItem)]).1
      "net".toList "port".toList portItem (by decide)).2.2,
   ((registry_indexes_after_calls [("k".toList, portItem)]).2.1 "port".toList hostItem
      (by decide)).1,
   by decide⟩

end configuration

namespace providers

open configuration examples

/-- C18: `addSection` and `addOption` with the empty section name, and `read`
of the header `[]`, create the section named by the empty string, not the
section `default`; the provider left by `Initialize` for an item declared with
the empty section holds that section too.  `getRawString` and `SetValue` do map
the empty name to `default`, and so miss what the others stored. -/
theorem empty_section_name_not_normalised :
    (addSection (NewIniConfigProvider "config.ini".toList) []).1.data = [([], [])]
    ∧ (addOption (NewIniConfigProvider "config.ini".toList) [] "timeout".toList
        "60".toList).1.data = [([], [("timeout".toList, "60".toList)])]
    ∧ read (NewIniConfigProvider "config.ini".toList) "[]\n".toList
      = ({ iniPath := "config.ini".toList, data := [([], [])] }, none)
    ∧ Initialize (NewIniConfigProvider "config.ini".toList) []
        (GetConfigurationItemCollection timeoutRegistry)
      = .ret { p := emptySectionProvider, file := "[]\ntimeout=60\n\n".toList,
               newItemsAdded := true }
    ∧ mget emptySectionProvider.data [] = some [("timeout".toList, "60".toList)]
    ∧ mget emptySectionProvider.data "default".toList = none
    ∧ getRawString emptySectionProvider [] "timeout".toList
      = .error ⟨.SectionNotFound, [], [], "default".toList, "timeout".toList⟩
    ∧ (SetValue emptySectionProvider "[]\ntimeout=60\n\n".toList timeoutItem (.int 30)).printed
      = some "Section not found".toList :=
  ⟨by decide, by decide, by decide, by decide, by decide, by decide, rfl, by decide⟩

end providers

namespace providers

open configuration examples

/-! ### The lines of a value and of the written text -/

theorem readStrings_eq_lines (v : Str) : readStrings v = firstLine v :: moreLines v := by
  unfold firstLine moreLines
  cases h : readStrings v with
  | nil => exact absurd h (readStrings_ne_nil v)
  | cons a b => rfl

theorem firstLine_cons_newline (cs : Str) : firstLine ('\n' :: cs) = [] := rfl

theorem moreLines_cons_newline (cs : Str) : moreLines ('\n' :: cs) = readStrings cs := rfl

theorem firstLine_cons (c : Char) (cs : Str) (hc : ¬ c = '\n') :
    firstLine (c :: cs) = c :: firstLine cs := by
  unfold firstLine
  rw [readStrings, if_neg hc, readStrings_eq_lines cs]
  rfl

theorem moreLines_cons (c : Char) (cs : Str) (hc : ¬ c = '\n') :
    moreLines (c :: cs) = moreLines cs := by
  unfold moreLines
  rw [readStrings, if_neg hc, readStrings_eq_lines cs]
  rfl

theorem readStrings_append_of_line (a v : Str) (h : '\n' ∉ a) :
    readStrings (a ++ v) = (a ++ firstLine v) :: moreLines v := by
  induction a with
  | nil => exact readStrings_eq_lines v
  | cons c a ih =>
    have hc : ¬ c = '\n' := by
      intro e; apply h; simp [e]
    have ha : '\n' ∉ a := fun e => h (List.mem_cons_of_mem _ e)
    rw [List.cons_append, readStrings, if_neg hc, ih ha]
    rfl

/-- A value is its first line followed by its other lines, each after a line
feed. -/
theorem foldl_lines (v pre : Str) :
    (moreLines v).foldl (fun a l => a ++ "\n".toList ++ l) (pre ++ firstLine v) = pre ++ v := by
  induction v generalizing pre with
  | nil => simp [firstLine, moreLines, readStrings]
  | cons c cs ih =>
    by_cases hc : c = '\n'
    · subst hc
      rw [firstLine_cons_newline, moreLines_cons_newline, readStrings_eq_lines cs,
        List.foldl_cons, List.append_nil, ih (pre ++ "\n".toList)]
      simp
    · rw [firstLine_cons c cs hc, moreLines_cons c cs hc]
      have := ih (pre ++ [c])
      rw [List.append_assoc] at this
      simp only [List.singleton_append] at this
      rw [this]
      simp

theorem readStrings_options (m : Map Str) (rest : Str) (h : ∀ ov ∈ m, '\n' ∉ ov.1) :
    readStrings ((m.map (fun ov => ov.1 ++ "=".toList ++ ov.2 ++ "\n".toList)).flatten ++ rest)
      = (m.map optionLines).flatten ++ readStrings rest := by
  induction m with
  | nil => rfl
  | cons ov m ih =>
    have e : (((ov :: m).map (fun ov => ov.1 ++ "=".toList ++ ov.2 ++ "\n".toList)).flatten
          ++ rest)
        = ((ov.1 ++ ['=']) ++ ov.2) ++ '\n'
            :: ((m.map (fun ov => ov.1 ++ "=".toList ++ ov.2 ++ "\n".toList)).flatten
                  ++ rest) := by
      have e3 : "=".toList = ['='] := rfl
      have e4 : "\n".toList = ['\n'] := rfl
      rw [e3, e4]
      simp
    have hline : '\n' ∉ ov.1 ++ ['='] := by
      intro hc
      rcases List.mem_append.mp hc with a | a
      · exact h ov (List.mem_cons_self _ _) a
      · simp at a
    rw [e, readStrings_append_newline, readStrings_append_of_line _ _ hline,
      ih (fun x hx => h x (List.mem_cons_of_mem _ hx))]
    simp [optionLines]

theorem readStrings_section (e : Str × Map Str) (rest : Str) (hk : '\n' ∉ e.1)
    (h : ∀ ov ∈ e.2, '\n' ∉ ov.1) :
    readStrings (("[".toList ++ e.1 ++ "]\n".toList
        ++ (e.2.map (fun ov => ov.1 ++ "=".toList ++ ov.2 ++ "\n".toList)).flatten
        ++ "\n".toList) ++ rest)
      = sectionLines e ++ readStrings rest := by
  have e1 : "[".toList = ['['] := rfl
  have e2 : "]\n".toList = [']', '\n'] := rfl
  have e4 : "\n".toList = ['\n'] := rfl
  have hshape : (("[".toList ++ e.1 ++ "]\n".toList
        ++ (e.2.map (fun ov => ov.1 ++ "=".toList ++ ov.2 ++ "\n".toList)).flatten
        ++ "\n".toList) ++ rest)
      = ('[' :: (e.1 ++ [']'])) ++ '\n'
          :: ((e.2.map (fun ov => ov.1 ++ "=".toList ++ ov.2 ++ "\n".toList)).flatten
                ++ '\n' :: rest) := by
    rw [e1, e2]
    conv_lhs => rw [e4]
    simp
  have hline : '\n' ∉ '[' :: (e.1 ++ [']']) := by
    intro hc
    rcases List.mem_cons.mp hc with a | a
    · exact absurd a (by decide)
    · rcases List.mem_append.mp a with b | b
      · exact hk b
      · simp at b
  rw [hshape, readStrings_line _ _ hline, readStrings_options _ _ h]
  have : readStrings ('\n' :: rest) = [] :: readStrings rest := by
    rw [readStrings, if_pos rfl]
  rw [this]
  simp [sectionLines]

theorem readStrings_sections (data : Map (Map Str))
    (h : ∀ e ∈ data, '\n' ∉ e.1 ∧ ∀ ov ∈ e.2, '\n' ∉ ov.1) :
    readStrings ((data.map (fun entry =>
        if entry.1 = DefaultSection ∧ entry.2.length = 0 then []
        else
          "[".toList ++ entry.1 ++ "]\n".toList
            ++ (entry.2.map (fun ov => ov.1 ++ "=".toList ++ ov.2 ++ "\n".toList)).flatten
            ++ "\n".toList)).flatten)
      = dataLines data ++ [[]] := by
  unfold dataLines
  induction data with
  | nil => rfl
  | cons e data ih =>
    have ih' := ih (fun x hx => h x (List.mem_cons_of_mem _ hx))
    obtain ⟨hk, ho⟩ := h e (List.mem_cons_self _ _)
    rw [List.map_cons, List.flatten_cons]
    by_cases hskip : e.1 = DefaultSection ∧ e.2.length = 0
    · rw [if_pos hskip, written_cons_skip e data hskip, List.nil_append]
      exact ih'
    · rw [if_neg hskip, written_cons_keep e data hskip, List.map_cons, List.flatten_cons,
        readStrings_section e _ hk ho, ih', List.append_assoc]

theorem readStrings_write [CaseTable] (p : IniConfigProvider) (h : plainData p.data) :
    readStrings (write p) = dataLines p.data ++ [[]] := by
  unfold write
  apply readStrings_sections
  intro e he
  obtain ⟨hsec, _, hopts⟩ := h.2 e he
  exact ⟨hsec.2.1, fun ov hov => (hopts ov hov).1.2.1⟩

end providers

namespace providers

open configuration examples

/-! ### The lines of an option, read back one by one -/

theorem option_line_facts [CaseTable] (o first : Str) (ho : plainOption o)
    (htrim : TrimSpace first = first) :
    TrimSpace (o ++ '=' :: first) = o ++ '=' :: first
    ∧ skipped (o ++ '=' :: first) = false
    ∧ IndexAny (o ++ '=' :: first) "=:".toList = some o.length
    ∧ 0 < o.length
    ∧ (o ++ '=' :: first).take o.length = o
    ∧ (o ++ '=' :: first).drop (o.length + 1) = first := by
  obtain ⟨hne, _, hotrim, hlow, heq, hcol, hhash, hsemi, hrem⟩ := ho
  obtain ⟨a, o', rfl⟩ := List.exists_cons_of_ne_nil hne
  have hoends := ends_of_TrimSpace_eq_self _ hotrim
  have hvends := ends_of_TrimSpace_eq_self _ htrim
  have hline : (a :: o') ++ '=' :: first = a :: (o' ++ '=' :: first) := rfl
  refine ⟨?_, ?_, ?_, by simp, ?_, ?_⟩
  · apply TrimSpace_eq_self_of_ends
    · intro c hc
      exact hoends.1 c (by rw [hline] at hc; exact hc)
    · intro c hc
      have e : (a :: o') ++ '=' :: first = (a :: o' ++ ['=']) ++ first := by simp
      rw [e, List.getLast?_append] at hc
      cases hl : first.getLast? with
      | none =>
        have e2 : (a :: o' ++ ['=']).getLast? = some '=' := List.getLast?_concat _
        rw [hl, e2] at hc
        have : c = '=' := by simpa using hc.symm
        subst this; decide
      | some d =>
        rw [hl] at hc
        have : d = c := by simpa using hc
        subst this
        exact hvends.2 d hl
  · rw [skipped_eq_false_iff, hline]
    refine ⟨by simp, ?_, ?_, ?_⟩
    · intro h; exact hhash h
    · intro h; exact hsemi h
    · rintro ⟨_, h⟩
      have hr : "rem".toList = ['r', 'e', 'm'] := rfl
      rw [hr] at h hrem
      rcases o' with _ | ⟨b, _ | ⟨c, o''⟩⟩
      · have h' : toLowerRune '=' = 'e' := (List.cons.inj (List.cons.inj h).2).1
        rw [toLowerRune_of_ascii _ (by decide)] at h'
        exact absurd h' (by decide)
      · have h' : toLowerRune '=' = 'm' :=
          (List.cons.inj (List.cons.inj (List.cons.inj h).2).2).1
        rw [toLowerRune_of_ascii _ (by decide)] at h'
        exact absurd h' (by decide)
      · simp only [ToLower, List.map_cons, List.cons.injEq] at hlow
        simp only [ToLower, List.cons_append, List.take_succ_cons, List.take_zero, List.map_cons,
          List.map_nil, List.cons.injEq, and_true] at h
        apply hrem
        rw [← hlow.1, ← hlow.2.1, ← hlow.2.2.1, h.1, h.2.1, h.2.2]
        simp
  · apply IndexAny_append
    · intro c hc hmem
      have : c = '=' ∨ c = ':' := by simpa using hmem
      rcases this with e | e
      · subst e; exact heq hc
      · subst e; exact hcol hc
    · decide
  · exact List.take_left' rfl
  · have : (a :: o') ++ '=' :: first = ((a :: o') ++ ['=']) ++ first := by simp
    rw [this]
    apply List.drop_left'
    simp

theorem readLine_option_line [CaseTable] (st : ReadState) (o first : Str) (ho : plainOption o)
    (htrim : TrimSpace first = first) (hstrip : stripComments first = first)
    (hhead : header (o ++ '=' :: first) = false) (hsect : st.sect ≠ []) :
    readLine st (TrimSpace (o ++ '=' :: first))
      = .ok { st with p := (addOption st.p st.sect o first).1, option := o } := by
  obtain ⟨h1, h2, h3, h4, h5, h6⟩ := option_line_facts o first ho htrim
  rw [h1, readLine_of_separator st _ o.length h2 hhead hsect h3 h4, h5, h6, hstrip, htrim,
    ho.2.2.1]

/-- The `switch` of `read` on a line with no separator after its first
character, after an option line. -/
theorem readLine_of_no_separator [CaseTable] (st : ReadState) (l : Str)
    (hs : skipped l = false) (hh : header l = false) (hsect : st.sect ≠ [])
    (hopt : st.option ≠ [])
    (hidx : IndexAny l "=:".toList = none ∨ IndexAny l "=:".toList = some 0) :
    readLine st l
      = .ok { st with
          p := (addOption st.p st.sect st.option
                  ((match getRawString st.p st.sect st.option with
                    | .ok v => v
                    | .error _ => []) ++ "\n".toList ++ TrimSpace (stripComments l))).1 } := by
  rw [skipped_eq_false_iff] at hs
  rw [← Bool.not_eq_true, header_eq_true_iff] at hh
  unfold readLine
  rw [if_neg hs.1, if_neg hs.2.1, if_neg hs.2.2.1, if_neg hs.2.2.2, if_neg hh, if_neg hsect]
  rcases hidx with hidx | hidx
  · simp only [hidx]
    exact if_pos ⟨hsect, hopt⟩
  · simp only [hidx]
    exact if_pos ⟨hsect, hopt⟩

theorem readLine_continuation_line [CaseTable] (st : ReadState) (l prev : Str)
    (hl : continuationLine l) (hsect : st.sect ≠ []) (hopt : st.option ≠ [])
    (hprev : getRawString st.p st.sect st.option = .ok prev) :
    readLine st (TrimSpace l)
      = .ok { st with
          p := (addOption st.p st.sect st.option (prev ++ "\n".toList ++ l)).1 } := by
  obtain ⟨h1, h2, h3, h4, h5⟩ := hl
  rw [h1, readLine_of_no_separator st l h3 h4 hsect hopt h5, hprev, h2, h1]

/-! ### The provider while the written lines are read back -/

theorem addOption_last_option [CaseTable] (p : IniConfigProvider) (acc : Map (Map Str))
    (k o x y : Str) (m0 : Map Str) (hdata : p.data = acc ++ [(k, m0 ++ [(o, x)])])
    (hk : k ∉ mkeys acc) (hklow : ToLower k = k) (holow : ToLower o = o) (ho : o ∉ mkeys m0) :
    (addOption p k o y).1 = { p with data := acc ++ [(k, m0 ++ [(o, y)])] } := by
  have hget : mget p.data (ToLower k) = some (m0 ++ [(o, x)]) := by
    rw [hklow, hdata]; exact mget_append_last acc k _ hk
  unfold addOption
  simp only [addSection_of_present p k _ hget, hklow, holow]
  unfold assignOption
  rw [hklow] at hget
  simp only [hget]
  rw [hdata, mset_append_last acc k _ _ hk, mset_append_last m0 o x y ho]

theorem getRawString_last_option [CaseTable] (p : IniConfigProvider) (acc : Map (Map Str))
    (k o x : Str) (m0 : Map Str) (hdata : p.data = acc ++ [(k, m0 ++ [(o, x)])])
    (hk : k ∉ mkeys acc) (hkne : k ≠ []) (hklow : ToLower k = k) (holow : ToLower o = o)
    (ho : o ∉ mkeys m0) : getRawString p k o = .ok x := by
  apply getRawString_of_lookup p k o x hkne
  unfold lookupOption
  rw [hklow, holow, hdata, mget_append_last acc k _ hk]
  exact mget_append_last m0 o x ho

theorem readLoop_continuation_lines [CaseTable] (ls : List Str) (st : ReadState)
    (acc : Map (Map Str)) (k o x : Str) (m0 : Map Str) (tail : List Str) (htail : tail ≠ [])
    (hdata : st.p.data = acc ++ [(k, m0 ++ [(o, x)])]) (hk : k ∉ mkeys acc)
    (hsect : st.sect = k) (hopt : st.option = o) (hkne : k ≠ []) (hone : o ≠ [])
    (hklow : ToLower k = k) (holow : ToLower o = o) (ho : o ∉ mkeys m0)
    (hls : ∀ l ∈ ls, continuationLine l) :
    ∃ st', readLoop st (ls ++ tail) = readLoop st' tail
      ∧ st'.p = { st.p with
          data := acc ++ [(k, m0 ++ [(o, ls.foldl (fun a l => a ++ "\n".toList ++ l) x)])] }
      ∧ st'.sect = k := by
  induction ls generalizing st x with
  | nil =>
    refine ⟨st, rfl, ?_, hsect⟩
    rw [List.foldl_nil, ← hdata]
  | cons l ls ih =>
    have hsne : st.sect ≠ [] := by rw [hsect]; exact hkne
    have hone' : st.option ≠ [] := by rw [hopt]; exact hone
    have hprev : getRawString st.p st.sect st.option = .ok x := by
      rw [hsect, hopt]
      exact getRawString_last_option st.p acc k o x m0 hdata hk hkne hklow holow ho
    have hstep : (addOption st.p st.sect st.option (x ++ "\n".toList ++ l)).1
        = { st.p with data := acc ++ [(k, m0 ++ [(o, x ++ "\n".toList ++ l)])] } := by
      rw [hsect, hopt]
      exact addOption_last_option st.p acc k o x _ m0 hdata hk hklow holow ho
    obtain ⟨st', h1, h2, h3⟩ :=
      ih { st with p := (addOption st.p st.sect st.option (x ++ "\n".toList ++ l)).1 }
        (x ++ "\n".toList ++ l) (by rw [hstep]) hsect hopt
        (fun y hy => hls y (List.mem_cons_of_mem _ hy))
    refine ⟨st', ?_, ?_, h3⟩
    · rw [List.cons_append, readLoop_cons st _ _ (by simp [htail]),
        readLine_continuation_line st l x (hls l (List.mem_cons_self _ _)) hsne hone' hprev]
      exact h1
    · rw [h2, hstep, List.foldl_cons]

theorem readLoop_option_lines [CaseTable] (ov : Str × Str) (st : ReadState)
    (acc : Map (Map Str)) (k : Str) (m0 : Map Str) (tail : List Str) (htail : tail ≠ [])
    (hdata : st.p.data = acc ++ [(k, m0)]) (hk : k ∉ mkeys acc) (hsect : st.sect = k)
    (hkne : k ≠ []) (hklow : ToLower k = k) (ho : ov.1 ∉ mkeys m0) (hplain : plainEntry ov) :
    ∃ st', readLoop st (optionLines ov ++ tail) = readLoop st' tail
      ∧ st'.p = { st.p with data := acc ++ [(k, m0 ++ [ov])] } ∧ st'.sect = k := by
  obtain ⟨o, v⟩ := ov
  obtain ⟨hpo, ⟨hvtrim, hvstrip, hvmore⟩, hhead⟩ := hplain
  have hsne : st.sect ≠ [] := by rw [hsect]; exact hkne
  have hstep : (addOption st.p st.sect o (firstLine v)).1
      = { st.p with data := acc ++ [(k, m0 ++ [(o, firstLine v)])] } := by
    rw [hsect]
    exact addOption_last_section st.p acc k o _ m0 hdata hk hklow hpo.2.2.2.1 ho
  obtain ⟨st', h1, h2, h3⟩ :=
    readLoop_continuation_lines (moreLines v)
      { st with p := (addOption st.p st.sect o (firstLine v)).1, option := o }
      acc k o (firstLine v) m0 tail htail (by rw [hstep]) hk hsect rfl hkne hpo.1 hklow
      hpo.2.2.2.1 ho hvmore
  refine ⟨st', ?_, ?_, h3⟩
  · have hshape : optionLines (o, v) ++ tail
        = (o ++ '=' :: firstLine v) :: (moreLines v ++ tail) := rfl
    rw [hshape, readLoop_cons st _ _ (by simp [htail]),
      readLine_option_line st o (firstLine v) hpo hvtrim hvstrip hhead hsne]
    exact h1
  · rw [h2, hstep]
    have := foldl_lines v []
    rw [List.nil_append, List.nil_append] at this
    rw [this]

theorem readLoop_options [CaseTable] (m : Map Str) (st : ReadState) (acc : Map (Map Str))
    (k : Str) (m0 : Map Str) (tail : List Str) (htail : tail ≠ [])
    (hdata : st.p.data = acc ++ [(k, m0)]) (hk : k ∉ mkeys acc) (hsect : st.sect = k)
    (hkne : k ≠ []) (hklow : ToLower k = k) (hnodup : (mkeys (m0 ++ m)).Nodup)
    (hplain : ∀ ov ∈ m, plainEntry ov) :
    ∃ st', readLoop st ((m.map optionLines).flatten ++ tail) = readLoop st' tail
      ∧ st'.p = { st.p with data := acc ++ [(k, m0 ++ m)] } ∧ st'.sect = k := by
  induction m generalizing st m0 with
  | nil =>
    refine ⟨st, rfl, ?_, hsect⟩
    rw [List.append_nil, ← hdata]
  | cons ov m ih =>
    have ho : ov.1 ∉ mkeys m0 := by
      obtain ⟨o, v⟩ := ov
      rw [mkeys_append, mkeys_cons] at hnodup
      intro hmem
      exact (List.nodup_append.mp hnodup).2.2 hmem (List.mem_cons_self _ _)
    obtain ⟨st1, h1, h2, h3⟩ :=
      readLoop_option_lines ov st acc k m0 ((m.map optionLines).flatten ++ tail)
        (by simp [htail]) hdata hk hsect hkne hklow ho (hplain ov (List.mem_cons_self _ _))
    obtain ⟨st2, h4, h5, h6⟩ :=
      ih st1 (m0 ++ [ov]) (by rw [h2]) h3
        (by rw [List.append_assoc]; exact hnodup)
        (fun x hx => hplain x (List.mem_cons_of_mem _ hx))
    refine ⟨st2, ?_, ?_, h6⟩
    · rw [List.map_cons, List.flatten_cons, List.append_assoc, h1, h4]
    · rw [h5, h2, List.append_assoc]
      rfl

theorem readLoop_section_lines [CaseTable] (e : Str × Map Str) (st : ReadState)
    (tail : List Str) (htail : tail ≠ []) (hk : e.1 ∉ mkeys st.p.data)
    (hsec : plainSection e.1) (hnodup : (mkeys e.2).Nodup)
    (hplain : ∀ ov ∈ e.2, plainEntry ov) :
    ∃ st', readLoop st (sectionLines e ++ tail) = readLoop st' tail
      ∧ st'.p = { st.p with data := st.p.data ++ [e] } := by
  obtain ⟨k, m⟩ := e
  obtain ⟨hkne, _, hktrim, hklow⟩ := hsec
  have hadd : (addSection st.p k).1 = { st.p with data := st.p.data ++ [(k, [])] } := by
    have hnone : mget st.p.data (ToLower k) = none := by
      rw [hklow]; exact (mget_eq_none_iff _ _).mpr hk
    rw [addSection_of_absent st.p k hnone, hklow, mset_of_not_mem _ _ _ hk]
  obtain ⟨st', h1, h2, h3⟩ :=
    readLoop_options m { p := (addSection st.p k).1, sect := k, option := [] }
      st.p.data k [] ([] :: tail) (by simp) (by rw [hadd]) hk rfl hkne hklow
      (by rw [List.nil_append]; exact hnodup) hplain
  refine ⟨st', ?_, ?_⟩
  · have hshape : sectionLines (k, m) ++ tail
        = ('[' :: (k ++ [']'])) :: ((m.map optionLines).flatten ++ ([] :: tail)) := by
      simp [sectionLines]
    rw [hshape, readLoop_cons st _ _ (by simp), readLine_header_line st k hktrim]
    simp only
    rw [h1, readLoop_cons st' [] tail htail]
    have : TrimSpace [] = ([] : Str) := rfl
    rw [this, readLine_nil]
  · rw [h2, hadd]
    rfl

theorem readLoop_sections [CaseTable] (ds : Map (Map Str)) (st : ReadState) (tail : List Str)
    (htail : tail ≠ []) (hnodup : (mkeys (st.p.data ++ ds)).Nodup)
    (hplain : ∀ e ∈ ds,
      plainSection e.1 ∧ (mkeys e.2).Nodup ∧ ∀ ov ∈ e.2, plainEntry ov) :
    ∃ st', readLoop st ((ds.map sectionLines).flatten ++ tail) = readLoop st' tail
      ∧ st'.p = { st.p with data := st.p.data ++ ds } := by
  induction ds generalizing st with
  | nil =>
    refine ⟨st, rfl, ?_⟩
    rw [List.append_nil]
  | cons e ds ih =>
    obtain ⟨hsec, hnd, hopts⟩ := hplain e (List.mem_cons_self _ _)
    have hk : e.1 ∉ mkeys st.p.data := by
      rw [mkeys_append] at hnodup
      intro hmem
      refine (List.nodup_append.mp hnodup).2.2 hmem ?_
      obtain ⟨k, m⟩ := e
      rw [mkeys_cons]
      exact List.mem_cons_self _ _
    obtain ⟨st1, h1, h2⟩ :=
      readLoop_section_lines e st ((ds.map sectionLines).flatten ++ tail) (by simp [htail])
        hk hsec hnd hopts
    obtain ⟨st2, h3, h4⟩ := ih st1
      (by rw [h2]; simpa [List.append_assoc] using hnodup)
      (fun x hx => hplain x (List.mem_cons_of_mem _ hx))
    refine ⟨st2, ?_, ?_⟩
    · rw [List.map_cons, List.flatten_cons, List.append_assoc, h1, h3]
    · rw [h4, h2]
      simp

/-- The text emitted by `write` for plain data is read back, into a provider
without data, as the sections that were written. -/
theorem read_write_of_plain [CaseTable] (p : IniConfigProvider) (path : Str)
    (h : plainData p.data) :
    read (NewIniConfigProvider path) (write p)
      = ({ iniPath := path, data := written p.data }, none) := by
  have hlines := readStrings_write p h
  have hsub : ∀ e ∈ written p.data, e ∈ p.data := fun e he => (List.mem_filter.mp he).1
  have hnd : (mkeys (written p.data)).Nodup := by
    unfold mkeys written
    exact (List.filter_sublist _).map _ |>.nodup h.1
  obtain ⟨st', h1, h2⟩ :=
    readLoop_sections (written p.data) (readStart (NewIniConfigProvider path)) [[]] (by simp)
      (by simpa [readStart, NewIniConfigProvider] using hnd)
      (fun e he => h.2 e (hsub e he))
  have start : read (NewIniConfigProvider path) (write p)
      = ((readLoop (readStart (NewIniConfigProvider path)) (readStrings (write p))).1.p,
         (readLoop (readStart (NewIniConfigProvider path)) (readStrings (write p))).2) := rfl
  rw [start, hlines]
  have hd : dataLines p.data = ((written p.data).map sectionLines).flatten := rfl
  rw [hd, h1, readLoop_empty_piece, h2]
  rfl

end providers

namespace providers

open configuration examples

/-! ### What the seeding loops find -/

theorem seedItems_found_of_flag_false [CaseTable] (s : Str) (items : Map ConfigurationItem)
    (acc : IniConfigProvider × Bool) (h : (seedItems s acc items).2 = false) :
    ∀ it ∈ items, (lookupOption acc.1 s it.2.GetName).isSome = true := by
  induction items with
  | nil => intro it hit; cases hit
  | cons e items ih =>
    cases hl : lookupOption acc.1 s e.2.GetName with
    | some x =>
      have hf : (lookupOption acc.1 s e.2.GetName).isSome = true := by simp [hl]
      rw [seedItems_cons_found s acc e items hf] at h
      intro it hit
      rcases List.mem_cons.mp hit with rfl | hmem
      · exact hf
      · exact ih h it hmem
    | none =>
      rw [seedItems_cons_missing s acc e items hl, seedItems_flag_true] at h
      cases h

theorem seedSections_found_of_flag_false [CaseTable] (collection : ConfigurationItemCollection)
    (acc : IniConfigProvider × Bool) (h : (seedSections acc collection).2 = false) :
    ∀ e ∈ collection, ∀ it ∈ e.2, (lookupOption acc.1 e.1 it.2.GetName).isSome = true := by
  induction collection generalizing acc with
  | nil => intro e he; cases he
  | cons e collection ih =>
    rw [seedSections_cons] at h
    have hflag : (seedItems e.1 ((addSection acc.1 e.1).1, acc.2) e.2).2 = false := by
      cases hb : (seedItems e.1 ((addSection acc.1 e.1).1, acc.2) e.2).2 with
      | false => rfl
      | true =>
        have e2 : seedItems e.1 ((addSection acc.1 e.1).1, acc.2) e.2
            = ((seedItems e.1 ((addSection acc.1 e.1).1, acc.2) e.2).1, true) :=
          Prod.ext rfl hb
        rw [e2, seedSections_flag_true] at h
        cases h
    have hitems := seedItems_of_flag_false e.1 e.2 _ hflag
    have hhere := seedItems_found_of_flag_false e.1 e.2 _ hflag
    rw [hitems] at h
    intro e' he' it hit
    rcases List.mem_cons.mp he' with rfl | hmem
    · have := hhere it hit
      simp only [lookupOption_addSection] at this
      exact this
    · have := ih _ h e' hmem it hit
      simp only [lookupOption_addSection] at this
      exact this

theorem seedItems_found_after [CaseTable] (s : Str) (items : Map ConfigurationItem)
    (acc : IniConfigProvider × Bool) (hs : ToLower s = s)
    (hitems : ∀ it ∈ items, (lookupOption acc.1 s it.2.GetName).isSome = true
      ∨ ToLower it.2.GetName = it.2.GetName) :
    ∀ it ∈ items, (lookupOption (seedItems s acc items).1 s it.2.GetName).isSome = true := by
  induction items generalizing acc with
  | nil => intro it hit; cases hit
  | cons e items ih =>
    intro it hit
    cases hl : lookupOption acc.1 s e.2.GetName with
    | some x =>
      rw [seedItems_cons_found s acc e items (by simp [hl])]
      rcases List.mem_cons.mp hit with rfl | hmem
      · exact seedItems_mono s items acc s _ (by simp [hl])
      · exact ih acc (fun x hx => hitems x (List.mem_cons_of_mem _ hx)) it hmem
    | none =>
      rw [seedItems_cons_missing s acc e items hl]
      have hrest : ∀ x ∈ items,
          (lookupOption (addOption acc.1 s e.2.GetName
              (formatValue e.2.GetDefaultValue)).1 s x.2.GetName).isSome = true
            ∨ ToLower x.2.GetName = x.2.GetName := by
        intro x hx
        rcases hitems x (List.mem_cons_of_mem _ hx) with a | a
        · exact Or.inl (found_addOption acc.1 s _ _ s _ a)
        · exact Or.inr a
      rcases List.mem_cons.mp hit with rfl | hmem
      · apply seedItems_mono
        have hlow : ToLower it.2.GetName = it.2.GetName := by
          rcases hitems it (List.mem_cons_self _ _) with a | a
          · rw [hl] at a; cases a
          · exact a
        have := lookupOption_addOption_self acc.1 s it.2.GetName
          (formatValue it.2.GetDefaultValue)
        rw [hs, hlow] at this
        simp [this]
      · exact ih ((addOption acc.1 s e.2.GetName (formatValue e.2.GetDefaultValue)).1, true)
          hrest it hmem

theorem seedSections_found_after [CaseTable] (collection : ConfigurationItemCollection)
    (acc : IniConfigProvider × Bool) (h : plainSeeds collection acc.1) :
    ∀ e ∈ collection, ∀ it ∈ e.2,
      (lookupOption (seedSections acc collection).1 e.1 it.2.GetName).isSome = true := by
  induction collection generalizing acc with
  | nil => intro e he; cases he
  | cons e collection ih =>
    intro e' he' it hit
    rw [seedSections_cons]
    rcases List.mem_cons.mp he' with rfl | hmem
    · apply seedSections_mono
      obtain ⟨hsec, hopts⟩ := h e' (List.mem_cons_self _ _)
      refine seedItems_found_after e'.1 e'.2 _ hsec.2.2.2 ?_ it hit
      intro x hx
      rcases hopts x hx with a | a
      · left
        simp only [lookupOption_addSection]
        exact a
      · exact Or.inr a.1.2.2.2.1
    · refine ih _ ?_ e' hmem it hit
      intro x hx
      obtain ⟨hsec, hopts⟩ := h x (List.mem_cons_of_mem _ hx)
      refine ⟨hsec, fun y hy => ?_⟩
      rcases hopts y hy with a | a
      · left
        apply seedItems_mono
        simp only [lookupOption_addSection]
        exact a
      · exact Or.inr a

/-! ### Plain data stays plain under seeding -/

theorem plainData_addSection [CaseTable] (p : IniConfigProvider) (s : Str)
    (h : plainData p.data) (hs : plainSection s) : plainData (addSection p s).1.data := by
  cases hg : mget p.data (ToLower s) with
  | some m => rw [addSection_of_present p s m hg]; exact h
  | none =>
    rw [addSection_of_absent p s hg, hs.2.2.2]
    refine ⟨nodup_mkeys_mset _ _ _ h.1, ?_⟩
    intro e he
    rcases mem_mset _ _ _ _ he with rfl | hmem
    · refine ⟨hs, List.nodup_nil, ?_⟩
      intro ov hov; cases hov
    · exact h.2 e hmem

theorem plainData_addOption [CaseTable] (p : IniConfigProvider) (s o v : Str)
    (h : plainData p.data) (hs : plainSection s) (hov : plainEntry (o, v)) :
    plainData (addOption p s o v).1.data := by
  have h1 := plainData_addSection p s h hs
  obtain ⟨m, hm⟩ := mget_addSection_self p s
  have hmem := mem_of_mget _ _ _ hm
  obtain ⟨_, hmnd, hmopts⟩ := h1.2 _ hmem
  unfold addOption assignOption
  simp only [hm]
  rw [hs.2.2.2, hov.1.2.2.2.1]
  refine ⟨nodup_mkeys_mset _ _ _ h1.1, ?_⟩
  intro e he
  rcases mem_mset _ _ _ _ he with rfl | hmem'
  · refine ⟨hs, nodup_mkeys_mset _ _ _ hmnd, ?_⟩
    intro ov hov'
    rcases mem_mset _ _ _ _ hov' with rfl | hov''
    · exact hov
    · exact hmopts ov hov''
  · exact h1.2 e hmem'

theorem plainData_seedItems [CaseTable] (s : Str) (items : Map ConfigurationItem)
    (acc : IniConfigProvider × Bool) (h : plainData acc.1.data) (hs : plainSection s)
    (hitems : ∀ it ∈ items, (lookupOption acc.1 s it.2.GetName).isSome = true
      ∨ plainEntry (it.2.GetName, formatValue it.2.GetDefaultValue)) :
    plainData (seedItems s acc items).1.data := by
  induction items generalizing acc with
  | nil => exact h
  | cons e items ih =>
    cases hl : lookupOption acc.1 s e.2.GetName with
    | some x =>
      rw [seedItems_cons_found s acc e items (by simp [hl])]
      exact ih acc h (fun x hx => hitems x (List.mem_cons_of_mem _ hx))
    | none =>
      rw [seedItems_cons_missing s acc e items hl]
      have hov : plainEntry (e.2.GetName, formatValue e.2.GetDefaultValue) := by
        rcases hitems e (List.mem_cons_self _ _) with a | a
        · rw [hl] at a; cases a
        · exact a
      refine ih _ (plainData_addOption acc.1 s _ _ h hs hov) ?_
      intro x hx
      rcases hitems x (List.mem_cons_of_mem _ hx) with a | a
      · exact Or.inl (found_addOption acc.1 s _ _ s _ a)
      · exact Or.inr a

theorem plainData_seedSections [CaseTable] (collection : ConfigurationItemCollection)
    (acc : IniConfigProvider × Bool) (h : plainData acc.1.data)
    (hc : plainSeeds collection acc.1) : plainData (seedSections acc collection).1.data := by
  induction collection generalizing acc with
  | nil => exact h
  | cons e collection ih =>
    rw [seedSections_cons]
    obtain ⟨hsec, hopts⟩ := hc e (List.mem_cons_self _ _)
    apply ih
    · refine plainData_seedItems e.1 e.2 _ (plainData_addSection acc.1 e.1 h hsec) hsec ?_
      intro x hx
      rcases hopts x hx with a | a
      · left
        simp only [lookupOption_addSection]
        exact a
      · exact Or.inr a
    · intro x hx
      obtain ⟨hsec', hopts'⟩ := hc x (List.mem_cons_of_mem _ hx)
      refine ⟨hsec', fun y hy => ?_⟩
      rcases hopts' y hy with a | a
      · left
        apply seedItems_mono
        simp only [lookupOption_addSection]
        exact a
      · exact Or.inr a

/-! ### `write` and `read`, `Initialize` a second time -/

/-- C8: `SetValue` stores the value `hello ;world` for the option `motd` and
writes the file; reading the written text back gives `hello` for the option,
so the data read from the file is not the data held in memory. -/
theorem write_read_value_with_marker :
    (SetValue motdProvider [] motdItem (.str "hello ;world".toList)).p.data
      = [("net".toList, [("motd".toList, "hello ;world".toList)])]
    ∧ (SetValue motdProvider [] motdItem (.str "hello ;world".toList)).file
      = "[net]\nmotd=hello ;world\n\n".toList
    ∧ read (NewIniConfigProvider "config.ini".toList)
        (write (SetValue motdProvider [] motdItem (.str "hello ;world".toList)).p)
      = ({ iniPath := "config.ini".toList,
           data := [("net".toList, [("motd".toList, "hello".toList)])] }, none) := by
  decide

/-- C8 (as amended): for a data map in which every key occurs once, every
section name is plain and every option is a plain entry (values of several
lines included), `read` (into a provider without data) of the text emitted by
`write` returns no error and yields exactly the written sections, which are the
sections of the map without a default section that has no options; every
option is looked up with the same result in both. -/
theorem write_read_plain_data [CaseTable] (p : IniConfigProvider) (path : Str)
    (h : plainData p.data) :
    read (NewIniConfigProvider path) (write p)
      = ({ iniPath := path, data := written p.data }, none)
    ∧ written p.data
      = p.data.filter (fun e => ¬ (e.1 = DefaultSection ∧ e.2.length = 0))
    ∧ ∀ s o, lookupOption { iniPath := path, data := written p.data } s o
        = lookupOption p s o :=
  ⟨read_write_of_plain p path h, rfl,
   fun s o => lookupOption_written p _ rfl h.1 s o⟩

theorem write_read_plain_data_witness :
    plainData linesProvider.data
    ∧ write linesProvider = "[s]\nopt=a\nb\n[x=1\nclé==v\n:w\n\n".toList
    ∧ read (NewIniConfigProvider "other.ini".toList) (write linesProvider)
      = ({ iniPath := "other.ini".toList,
           data := [("s".toList, [("opt".toList, "a\nb".toList),
                                  ("[x".toList, "1".toList),
                                  ("clé".toList, "=v\n:w".toList)])] }, none) :=
  ⟨by decide, by decide,
   (write_read_plain_data linesProvider "other.ini".toList (by decide)).1⟩

end providers
